import Mathlib

/-!
# Unit state proofs of unicity-go-base

A shallow embedding of `types/unit_proof.go`, of the tagged envelopes and `RawCBOR` of
`types/cbor.go` and of the signer of `crypto/secp256k1_signer.go`, with theorems about
`VerifyUnitStateProof`, `CalculateStateTreeOutput`, `UnmarshalTaggedValue`,
`UnitStateProof.UnmarshalCBOR`, `UnitStateProof.MarshalCBOR`, `RawCBOR` and
`NewInMemorySecp256K1SignerFromKey`. The validity, the equality and the repeat copy of
input records, the unicity tree certificate and the unicity tree with its index tree,
whose code is known through its tests only, are modelled from the specification.

Conventions of the embedding:

* a Go `[]byte` is an `Option (List Byte)`: `none` is the nil slice, `some []`
  an empty slice that is not nil;
* a Go pointer is an `Option`: `none` is the nil pointer;
* a `uint64` is a `Nat`, and every addition of the source is reduced modulo `2^64`;
* a function that returns an `error` yields an `Outcome`: `ok`, `error` with the
  message, or `fault` when the Go code would stop with a run-time panic;
* every call that leaves the function for a collaborator (the CBOR decoder, the
  certificate validator, the hasher, the Merkle path fold) is recorded, in order,
  in the log of the run.
-/

namespace UnicityBase

/-! ## Bytes and slices -/

abbrev Byte := Fin 256

abbrev Bytes := List Byte

/-- A Go byte slice; `none` is the nil slice. -/
abbrev Slice := Option Bytes

/-- The bytes held by a slice; the nil slice holds none. -/
def contents : Slice → Bytes
  | none => []
  | some b => b

/-- Go `len(s)`. -/
def sliceLen (s : Slice) : Nat := (contents s).length

/-- Go `bytes.Equal`: equal length and equal bytes; a nil slice equals an empty one. -/
def bytesEqual (a b : Slice) : Bool := contents a == contents b

/-- Go `bytes.Compare` on the bytes of two slices: `-1`, `0` or `1` in
lexicographic order. -/
def bytesCompare : Bytes → Bytes → Int
  | [], [] => 0
  | [], _ :: _ => -1
  | _ :: _, [] => 1
  | a :: as, b :: bs =>
    if a < b then -1 else if b < a then 1 else bytesCompare as bs

/-- Modelled from the spec: `UnitID.Compare` is not part of the sources at hand; unit
identifiers are "totally ordered (byte-lexicographic or equivalent)", so it is
`bytes.Compare` of the two identifiers. -/
def UnitIDCompare (uid key : Slice) : Int := bytesCompare (contents uid) (contents key)

/-- The byte `n mod 256`, the Go conversion `byte(n)`. -/
def byteOf (n : Nat) : Byte := ⟨n % 256, Nat.mod_lt n (by decide)⟩

/-- Addition of two `uint64` values. -/
def add64 (a b : Nat) : Nat := (a + b) % 2 ^ 64

/-- Modelled from the spec: `util.Uint64ToBytes` is not part of the sources at hand; it is
the "fixed-width numeric encoding" of a `uint64`, eight bytes, most significant first. -/
def Uint64ToBytes (i : Nat) : Bytes :=
  [byteOf (i / 2 ^ 56), byteOf (i / 2 ^ 48), byteOf (i / 2 ^ 40), byteOf (i / 2 ^ 32),
   byteOf (i / 2 ^ 24), byteOf (i / 2 ^ 16), byteOf (i / 2 ^ 8), byteOf i]

/-- One upper-case hexadecimal digit. -/
def hexDigit (n : Nat) : Char :=
  ['0', '1', '2', '3', '4', '5', '6', '7', '8', '9', 'A', 'B', 'C', 'D', 'E', 'F'].getD n '?'

/-- The verb `%X` of Go `fmt` on a byte slice: two upper-case digits a byte. -/
def hexUpper (b : Bytes) : String :=
  String.mk (b.flatMap fun x => [hexDigit (x.val / 16), hexDigit (x.val % 16)])

/-- Modelled from the spec: the type `hex.Bytes` is not part of the sources at hand; a
value of it is "rendered for diagnosis" by the verb `%X` as its bytes are. -/
def hexBytesUpper (b : Slice) : String := hexUpper (contents b)

/-! ## Data model (`types/unit_proof.go`, lines 15-65) -/

/-- An item of a unit-tree path, `mt.PathItem`. -/
structure PathItem where
  Hash : Slice
  DirectionLeft : Bool
deriving DecidableEq, Repr

structure UnitTreeCert where
  TransactionRecordHash : Slice
  UnitDataHash : Slice
  Path : List (Option PathItem)
deriving DecidableEq, Repr

structure StateTreePathItem where
  UnitID : Slice
  LogsHash : Slice
  Value : Nat
  SiblingSummaryHash : Slice
  SiblingSummaryValue : Nat
deriving DecidableEq, Repr

structure StateTreeCert where
  LeftSummaryHash : Slice
  LeftSummaryValue : Nat
  RightSummaryHash : Slice
  RightSummaryValue : Nat
  Path : List (Option StateTreePathItem)
deriving DecidableEq, Repr

structure UnitStateProof where
  Version : Nat
  UnitID : Slice
  UnitValue : Nat
  UnitLedgerHash : Slice
  UnitTreeCert : Option UnitTreeCert
  StateTreeCert : Option StateTreeCert
  UnicityCertificate : Slice
deriving DecidableEq, Repr

structure StateUnitData where
  Data : Slice
deriving DecidableEq, Repr

/-- The input record of a unicity certificate, with the fields the tests of the
package populate. -/
structure InputRecord where
  Version : Nat
  PreviousHash : Slice
  Hash : Slice
  BlockHash : Slice
  SummaryValue : Slice
  ETHash : Slice
  RoundNumber : Nat
  Epoch : Nat
  Timestamp : Nat
  SumOfEarnedFees : Nat
deriving DecidableEq, Repr

/-- The decoded unicity certificate, as far as `VerifyUnitStateProof` reads it; the
input record is held by pointer. -/
structure UnicityCertificate where
  Version : Nat
  InputRecord : Option InputRecord
  TRHash : Slice
deriving DecidableEq, Repr

/-! ## Collaborators -/

/-- What is written into an `abhash` hasher. -/
inductive Written where
  /-- `Write` of a byte slice. -/
  | bytes (b : Slice)
  /-- `Write` of a `uint64`. -/
  | uint (n : Nat)
  /-- `WriteRaw` of a byte slice. -/
  | raw (b : Slice)
deriving DecidableEq, Repr

/-- The hash algorithm handed to the verification, seen through the helpers that run
it: `sum` is a fresh `abhash` hasher, the given writes in order, then `Sum()`;
`sumHashes` is `abhash.SumHashes`; `plainTreeOutput` is `mt.PlainTreeOutput`, `none`
when it stops with a run-time panic. -/
structure HashAlgorithm where
  sum : List Written → Except String Slice
  sumHashes : List Slice → Slice
  plainTreeOutput : List (Option PathItem) → Slice → Option Slice

/-- The decoder `Cbor.Unmarshal` into a fresh unicity certificate. -/
structure CborHandler where
  UnmarshalUC : Slice → Except String UnicityCertificate

/-- The interface `UnicityCertificateValidator`: `Validate` returns an error or nothing. -/
structure UnicityCertificateValidator where
  Validate : UnicityCertificate → Except String Unit

/-! ## Runs -/

inductive Outcome (α : Type) where
  | ok (a : α)
  | error (msg : String)
  | fault (msg : String)
deriving DecidableEq, Repr

/-- A call that leaves the verification for a collaborator. -/
inductive Event where
  | decode (data : Slice)
  | validate (uc : UnicityCertificate)
  | hash (writes : List Written)
  | sumHashes (hashes : List Slice)
  | plainTreeOutput (path : List (Option PathItem)) (leaf : Slice)
deriving DecidableEq, Repr

/-- The result of running a function: its outcome and the calls it made, in order. -/
structure Run (α : Type) where
  out : Outcome α
  log : List Event

namespace Run

def ret {α : Type} (a : α) : Run α := ⟨.ok a, []⟩

def fail {α : Type} (msg : String) : Run α := ⟨.error msg, []⟩

def panic {α : Type} (msg : String) : Run α := ⟨.fault msg, []⟩

def andThen {α β : Type} (m : Run α) (f : α → Run β) : Run β :=
  match m.out with
  | .ok a => ⟨(f a).out, m.log ++ (f a).log⟩
  | .error e => ⟨.error e, m.log⟩
  | .fault e => ⟨.fault e, m.log⟩

/-- The wrapping `fmt.Errorf("...: %w", err)` of a returned error. -/
def wrap {α : Type} (msg : String) (m : Run α) : Run α :=
  match m.out with
  | .error e => ⟨.error (msg ++ e), m.log⟩
  | _ => m

/-- A call of a collaborator that returns a value or an error. -/
def call {α : Type} (e : Event) (r : Except String α) : Run α :=
  match r with
  | .ok a => ⟨.ok a, [e]⟩
  | .error msg => ⟨.error msg, [e]⟩

end Run

instance : Monad Run where
  pure := Run.ret
  bind := Run.andThen

/-- The message of the Go run-time panic on a nil pointer or nil interface. -/
def nilDereference : String :=
  "runtime error: invalid memory address or nil pointer dereference"

/-- The message of `ErrUnicityCertificateIsNil`. -/
def ErrUnicityCertificateIsNil : String := "unicity certificate is nil"

/-! ## The functions of `types/unit_proof.go` -/

/-- The method `getUCv1` (lines 67-80). -/
def getUCv1 (cbor : CborHandler) (u : Option UnitStateProof) : Run UnicityCertificate :=
  match u with
  | none => Run.fail "unit state proof is nil"
  | some p =>
    match p.UnicityCertificate with
    | none => Run.fail ErrUnicityCertificateIsNil
    | some data =>
      Run.wrap "failed to unmarshal unicity certificate: "
        (Run.call (.decode (some data)) (cbor.UnmarshalUC (some data)))

/-- The method `StateUnitData.Hash` (lines 180-184). -/
def StateUnitData.Hash (sd : StateUnitData) (hashAlgo : HashAlgorithm) : Run Slice :=
  Run.call (.hash [.raw sd.Data]) (hashAlgo.sum [.raw sd.Data])

/-- The function `computeHash` (lines 186-196). -/
def computeHash (algorithm : HashAlgorithm) (id logRoot : Slice) (summary : Nat)
    (leftHash : Slice) (leftSummary : Nat) (rightHash : Slice) (rightSummary : Nat) :
    Run Slice :=
  Run.call
    (.hash [.bytes id, .bytes logRoot, .uint summary, .bytes leftHash, .uint leftSummary,
      .bytes rightHash, .uint rightSummary])
    (algorithm.sum [.bytes id, .bytes logRoot, .uint summary, .bytes leftHash,
      .uint leftSummary, .bytes rightHash, .uint rightSummary])

/-- The call `abhash.SumHashes(algorithm, hashes...)`. -/
def SumHashes (algorithm : HashAlgorithm) (hashes : List Slice) : Run Slice :=
  ⟨.ok (algorithm.sumHashes hashes), [.sumHashes hashes]⟩

/-- The call `mt.PlainTreeOutput(path, leaf, algorithm)`. -/
def PlainTreeOutput (algorithm : HashAlgorithm) (path : List (Option PathItem))
    (leaf : Slice) : Run Slice :=
  match algorithm.plainTreeOutput path leaf with
  | some h => ⟨.ok h, [.plainTreeOutput path leaf]⟩
  | none => ⟨.fault nilDereference, [.plainTreeOutput path leaf]⟩

/-- The body of the loop over the state-tree path (lines 152-157): the hash of the parent
node, from the path item, the hash `h` and the running value `v` reached so far. -/
def pathStepHash (algorithm : HashAlgorithm) (id : Slice) (p : StateTreePathItem)
    (h : Slice) (v : Nat) : Run Slice :=
  let vv := add64 (add64 p.Value v) p.SiblingSummaryValue
  if UnitIDCompare id p.UnitID = -1 then
    computeHash algorithm p.UnitID p.LogsHash vv h v p.SiblingSummaryHash p.SiblingSummaryValue
  else
    computeHash algorithm p.UnitID p.LogsHash vv p.SiblingSummaryHash p.SiblingSummaryValue h v

/-- The loop over the state-tree path (lines 151-162), from the hash `h` and the running
value `v` reached so far; an absent path item stops it with a panic. -/
def stateTreeLoop (algorithm : HashAlgorithm) (id : Slice) :
    List (Option StateTreePathItem) → Slice → Nat → Run (Slice × Nat)
  | [], h, v => pure (h, v)
  | none :: _, _, _ => Run.panic nilDereference
  | some p :: rest, h, v => do
    let vv := add64 (add64 p.Value v) p.SiblingSummaryValue
    let h' ← pathStepHash algorithm id p h v
    stateTreeLoop algorithm id rest h' vv

/-- The leaf log digest `z` of `CalculateStateTreeOutput` (lines 130-141). -/
def leafLogDigest (u : UnitStateProof) (utc : UnitTreeCert) (algorithm : HashAlgorithm) :
    Run Slice :=
  match utc.TransactionRecordHash with
  | none => SumHashes algorithm [u.UnitLedgerHash, utc.UnitDataHash]
  | some t => do
    let inner ← SumHashes algorithm [u.UnitLedgerHash, some t]
    SumHashes algorithm [inner, utc.UnitDataHash]

/-- The method `CalculateStateTreeOutput` (lines 129-164). -/
def CalculateStateTreeOutput (u : UnitStateProof) (algorithm : HashAlgorithm) :
    Run (Slice × Nat) :=
  match u.UnitTreeCert with
  | none => Run.panic nilDereference
  | some utc => do
    let z ← leafLogDigest u utc algorithm
    let logRoot ← PlainTreeOutput algorithm utc.Path z
    let id := u.UnitID
    match u.StateTreeCert with
    | none => Run.panic nilDereference
    | some sc => do
      let v := add64 (add64 u.UnitValue sc.LeftSummaryValue) sc.RightSummaryValue
      let h ← computeHash algorithm id logRoot v sc.LeftSummaryHash sc.LeftSummaryValue
        sc.RightSummaryHash sc.RightSummaryValue
      stateTreeLoop algorithm id sc.Path h v

/-- The function `VerifyUnitStateProof` (lines 82-127). The decoder behind the package
variable `Cbor` is the first argument. -/
def VerifyUnitStateProof (cbor : CborHandler) (u : Option UnitStateProof)
    (algorithm : HashAlgorithm) (unitData : Option StateUnitData)
    (ucv : Option UnicityCertificateValidator) : Run Unit :=
  match u with
  | none => Run.fail "unit state proof is nil"
  | some p =>
    match p.UnitID with
    | none => Run.fail "unit ID is nil"
    | some _ =>
    match p.UnitTreeCert with
    | none => Run.fail "unit tree cert is nil"
    | some utc =>
    match p.StateTreeCert with
    | none => Run.fail "state tree cert is nil"
    | some _ =>
    match p.UnicityCertificate with
    | none => Run.fail "unicity certificate is nil"
    | some _ =>
    match unitData with
    | none => Run.fail "unit data is nil"
    | some sd => do
      let uc ← Run.wrap "failed to get unicity certificate: " (getUCv1 cbor u)
      match ucv with
      | none => Run.panic nilDereference
      | some validator => do
        Run.wrap "invalid unicity certificate: "
          (Run.call (.validate uc) (validator.Validate uc))
        let hash ← Run.wrap "failed to calculate unit data hash: " (sd.Hash algorithm)
        if !bytesEqual utc.UnitDataHash hash then
          Run.fail "unit data hash does not match hash in unit tree"
        else do
          let ir := uc.InputRecord
          let (hash, summary) ← Run.wrap "failed to calculate state tree output: "
            (CalculateStateTreeOutput p algorithm)
          match ir with
          | none => Run.panic nilDereference
          | some ir =>
            if !bytesEqual (some (Uint64ToBytes summary)) ir.SummaryValue then
              Run.fail ("invalid summary value: expected " ++ hexBytesUpper ir.SummaryValue
                ++ ", got " ++ hexUpper (Uint64ToBytes summary))
            else if !bytesEqual hash ir.Hash then
              Run.fail ("invalid state root hash: expected " ++ hexBytesUpper ir.Hash
                ++ ", got " ++ hexUpper (contents hash))
            else
              pure ()

/-! ## Concrete collaborators used in the examples -/

/-- A small checksum of what was written, standing for a digest. -/
def toyDigest : List Written → Nat
  | [] => 7
  | .bytes b :: ws => 3 * toyDigest ws + (contents b).length + ((contents b).map Fin.val).sum + 1
  | .uint n :: ws => 5 * toyDigest ws + n + 2
  | .raw b :: ws => 11 * toyDigest ws + ((contents b).map Fin.val).sum + 3

/-- A hash algorithm with one-byte digests: the hasher never fails, `SumHashes` adds up
the bytes of its inputs and the unit-tree fold adds the hashes of the path to the leaf,
stopping on an absent item. -/
def toyAlgorithm : HashAlgorithm where
  sum := fun ws => .ok (some [byteOf (toyDigest ws)])
  sumHashes := fun hs => some [byteOf (toyDigest (hs.map Written.raw))]
  plainTreeOutput := fun path leaf =>
    if path.all Option.isSome then
      some [byteOf (toyDigest (Written.raw leaf ::
        path.reduceOption.map fun i => Written.raw i.Hash))]
    else none

/-- The certificate with the given input record. -/
def toyCertificate (ir : Option InputRecord) : UnicityCertificate :=
  { Version := 1, InputRecord := ir, TRHash := none }

/-- An input record committing to the given state hash and summary value. -/
def toyInputRecord (hash summary : Bytes) : InputRecord :=
  { Version := 1, PreviousHash := some [0], Hash := some hash, BlockHash := some [1],
    SummaryValue := some summary, ETHash := none, RoundNumber := 1, Epoch := 0,
    Timestamp := 1, SumOfEarnedFees := 0 }

/-- A decoder that reads a one-byte envelope holding `1` as the certificate without an
input record, and an envelope `2 :: hash ++ summary`, with an eight-byte summary at the
end, as the certificate whose input record commits to them. -/
def toyCbor : CborHandler where
  UnmarshalUC := fun data =>
    match contents data with
    | [1] => .ok (toyCertificate none)
    | 2 :: rest =>
      if 8 ≤ rest.length then
        .ok (toyCertificate (some (toyInputRecord (rest.take (rest.length - 8))
          (rest.drop (rest.length - 8)))))
      else .error "unexpected EOF"
    | _ => .error "cbor: cannot unmarshal"

/-- A validator that accepts every certificate of version 1. -/
def toyValidator : UnicityCertificateValidator where
  Validate := fun uc => if uc.Version = 1 then .ok () else .error "invalid version"

/-! ## Sample inputs -/

/-- Unit data of three bytes. -/
def sampleUnitData : StateUnitData := { Data := some [1, 2, 3] }

/-- A unit tree cert for `sampleUnitData` under `toyAlgorithm`, with no transaction
record hash and an empty path. -/
def sampleUnitTreeCert : UnitTreeCert :=
  { TransactionRecordHash := none, UnitDataHash := some [86], Path := [] }

/-- The path item of a parent unit with value 7 and no other subtree. -/
def samplePathItem : StateTreePathItem :=
  { UnitID := some [9], LogsHash := some [4], Value := 7,
    SiblingSummaryHash := none, SiblingSummaryValue := 0 }

/-- The state tree cert of a childless unit whose parent is `samplePathItem`. -/
def sampleStateTreeCert : StateTreeCert :=
  { LeftSummaryHash := none, LeftSummaryValue := 0,
    RightSummaryHash := none, RightSummaryValue := 0, Path := [some samplePathItem] }

/-- A proof for a unit with value 5; its certificate commits to the state hash `hash`
and to the summary value 12. -/
def sampleProofFor (hash : Bytes) (stc : StateTreeCert) : UnitStateProof :=
  { Version := 1, UnitID := some [3], UnitValue := 5, UnitLedgerHash := some [2],
    UnitTreeCert := some sampleUnitTreeCert, StateTreeCert := some stc,
    UnicityCertificate := some (2 :: hash ++ [0, 0, 0, 0, 0, 0, 0, 12]) }

/-- A proof that verifies against `sampleUnitData` with the collaborators above. -/
def sampleProof : UnitStateProof := sampleProofFor [40] sampleStateTreeCert

/-- The proof `sampleProof` with an absent item added at the end of its state-tree path. -/
def lostItemProof : UnitStateProof :=
  sampleProofFor [40] { sampleStateTreeCert with Path := [some samplePathItem, none] }

/-- The proof `u` with the state-tree path replaced by `path`. -/
def withStatePath (u : UnitStateProof) (path : List (Option StateTreePathItem)) :
    UnitStateProof :=
  { u with StateTreeCert := u.StateTreeCert.map fun stc => { stc with Path := path } }

/-- The writes of the hasher calls of a log, in order. -/
def hashEvents : List Event → List (List Written)
  | [] => []
  | .hash ws :: rest => ws :: hashEvents rest
  | .decode _ :: rest => hashEvents rest
  | .validate _ :: rest => hashEvents rest
  | .sumHashes _ :: rest => hashEvents rest
  | .plainTreeOutput _ _ :: rest => hashEvents rest

/-- The writes are those of a node hash (unit id, log hash, value, left hash, left value,
right hash, right value) whose value field is the node's own value `own` plus the values
of its left and right slots, modulo `2^64`. -/
def nodeSums (own : Nat) : List Written → Prop
  | [.bytes _, .bytes _, .uint s, .bytes _, .uint l, .bytes _, .uint r] =>
    s = (own + l + r) % 2 ^ 64
  | _ => False

/-- The proof `sampleProof` with a left summary value of 1. -/
def leftSummaryProof : UnitStateProof :=
  sampleProofFor [40] { sampleStateTreeCert with LeftSummaryValue := 1 }

/-- Unit data that is present and empty. -/
def emptyUnitData : StateUnitData := { Data := some [] }

/-- A unit tree cert that holds the hash of no bytes under `toyAlgorithm`. -/
def emptyDataUnitTreeCert : UnitTreeCert :=
  { TransactionRecordHash := none, UnitDataHash := some [80], Path := [] }

/-- A proof for `emptyUnitData`; its certificate commits to the state hash `hash` and
the value 12. -/
def emptyDataProofFor (hash : Bytes) : UnitStateProof :=
  { Version := 1, UnitID := some [3], UnitValue := 5, UnitLedgerHash := some [2],
    UnitTreeCert := some emptyDataUnitTreeCert,
    StateTreeCert := some sampleStateTreeCert,
    UnicityCertificate := some (2 :: hash ++ [0, 0, 0, 0, 0, 0, 0, 12]) }

/-- The unit tree cert of the parent unit: a transaction record hash and a path of one
item. -/
def sampleRootUnitTreeCert : UnitTreeCert :=
  { TransactionRecordHash := some [8], UnitDataHash := some [5],
    Path := [some { Hash := some [1], DirectionLeft := true }] }

/-- The state tree cert of the parent unit: the unit with value 5 as its left subtree and
an empty path. -/
def sampleRootStateTreeCert : StateTreeCert :=
  { LeftSummaryHash := some [58], LeftSummaryValue := 5,
    RightSummaryHash := none, RightSummaryValue := 0, Path := [] }

/-- The proof of the parent unit of `sampleProof`, with value 7. -/
def sampleRootProof : UnitStateProof :=
  { Version := 1, UnitID := some [9], UnitValue := 7, UnitLedgerHash := some [6],
    UnitTreeCert := some sampleRootUnitTreeCert,
    StateTreeCert := some sampleRootStateTreeCert,
    UnicityCertificate := some [1] }

/-- A proof that verifies against `emptyUnitData` with the collaborators above. -/
def emptyDataProof : UnitStateProof := emptyDataProofFor [90]

/-- The proof `sampleProof` with a certificate that decodes to one without an input
record. -/
def noRecordProof : UnitStateProof := { sampleProof with UnicityCertificate := some [1] }

/-- The proof `sampleProof` with a state-tree path of one absent item. -/
def absentItemProof : UnitStateProof :=
  sampleProofFor [40] { sampleStateTreeCert with Path := [none] }

/-! ## Tagged envelopes (`types/cbor.go`) -/

/-- A decoded CBOR tag, `cbor.RawTag`: the tag number and the encoded content. -/
structure RawTag where
  Number : Nat
  Content : Slice
deriving DecidableEq, Repr

/-- The CBOR library behind `cborHandler.Unmarshal` for targets of type `τ`:
`unmarshalRawTag` decodes into a fresh `cbor.RawTag`; `unmarshal` decodes into the target
and gives the error, if any, and the target as it is afterwards. -/
structure CborLibrary (τ : Type) where
  unmarshalRawTag : Slice → Except String RawTag
  unmarshal : Slice → τ → Option String × τ

/-- The rendering of an unsigned integer by the verb `%d`. -/
def decimal (n : Nat) : String := toString n

/-- The method `cborHandler.UnmarshalTaggedValue` (lines 89-108): the returned error, if
any, and the target afterwards. The argument `getVersion` is the method `GetVersion` of the
target when its type implements `Versioned`, and `none` when it does not. -/
def UnmarshalTaggedValue {τ : Type} (c : CborLibrary τ) (getVersion : Option (τ → Nat))
    (tag : Nat) (data : Slice) (v : τ) : Option String × τ :=
  match c.unmarshalRawTag data with
  | .error e => (some e, v)
  | .ok raw =>
    if raw.Number ≠ tag then
      (some ("unexpected tag: " ++ decimal raw.Number ++ ", expected: " ++ decimal tag), v)
    else
      match c.unmarshal raw.Content v with
      | (some e, v') => (some e, v')
      | (none, v') =>
        match getVersion with
        | some get =>
          if get v' = 0 then (some "version number cannot be zero", v') else (none, v')
        | none => (none, v')

/-- Modelled from the spec: `EnsureVersion` is not part of the sources at hand; "typed
decoders should reject an unexpected version number for types with a single supported
version", with the message that the tests of the package expect for the type named. -/
def EnsureVersion (typeName : String) (actual expected : Nat) : Option String :=
  if actual ≠ expected then
    some ("invalid version (type " ++ typeName ++ "), expected " ++ decimal expected
      ++ ", got " ++ decimal actual)
  else none

/-- The method `UnitStateProof.GetVersion` (lines 198-203). -/
def UnitStateProof.GetVersion (u : Option UnitStateProof) : Nat :=
  match u with
  | some p => if p.Version > 0 then p.Version else 1
  | none => 1

/-- The method `UnitStateProof.UnmarshalCBOR` (lines 213-219): the returned error, if any,
and the proof afterwards. The content is decoded into the proof through the local type
`alias`, which has no methods, so `UnmarshalTaggedValue` sees no `GetVersion`. The tag
`UnitStateProofTag` is an argument. -/
def UnitStateProof.UnmarshalCBOR (c : CborLibrary UnitStateProof) (UnitStateProofTag : Nat)
    (u : UnitStateProof) (data : Slice) : Option String × UnitStateProof :=
  match UnmarshalTaggedValue c none UnitStateProofTag data u with
  | (some err, u') => (some err, u')
  | (none, u') => (EnsureVersion "*types.UnitStateProof" u'.Version 1, u')

/-- The marker `cborNil` (line 25). -/
def cborNil : Slice := some [0xf6]

/-- The method `RawCBOR.MarshalCBOR` (lines 134-140). -/
def RawCBOR.MarshalCBOR (r : Slice) : Except String Slice :=
  if sliceLen r = 0 then .ok cborNil else .ok r

/-- The Go expression `s[0:0]`: nil for the nil slice, an empty slice otherwise. -/
def resliceEmpty : Slice → Slice
  | none => none
  | some _ => some []

/-- The Go expression `append(s, data...)`: `s` itself when there is nothing to add. -/
def appendBytes (s data : Slice) : Slice :=
  if contents data = [] then s else some (contents s ++ contents data)

/-- The method `RawCBOR.UnmarshalCBOR` (lines 142-154) on the pointer `r`, `none` for the
nil pointer: the error, or the value that `r` points to afterwards. -/
def RawCBOR.UnmarshalCBOR (r : Option Slice) (data : Slice) : Except String Slice :=
  match r with
  | none => .error "UnmarshalCBOR on nil pointer"
  | some old =>
    if bytesEqual data cborNil then .ok (resliceEmpty old)
    else .ok (appendBytes (resliceEmpty old) data)

/-! ## The signer (`crypto/secp256k1_signer.go`) -/

structure InMemorySecp256K1Signer where
  privKey : Slice
deriving DecidableEq, Repr

def PrivateKeySecp256K1Size : Nat := 32

/-- The function `NewInMemorySecp256K1SignerFromKey` (lines 36-41). -/
def NewInMemorySecp256K1SignerFromKey (privKey : Slice) :
    Except String InMemorySecp256K1Signer :=
  if sliceLen privKey ≠ PrivateKeySecp256K1Size then
    .error ("invalid private key length. Is " ++ decimal (sliceLen privKey)
      ++ " (expected " ++ decimal PrivateKeySecp256K1Size ++ ")")
  else .ok { privKey := privKey }

/-- The method `MarshalPrivateKey` (lines 77-79) on a signer pointer. -/
def InMemorySecp256K1Signer.MarshalPrivateKey (s : Option InMemorySecp256K1Signer) :
    Outcome Slice :=
  match s with
  | none => .fault nilDereference
  | some signer => .ok signer.privKey

/-- A CBOR library for `UnitStateProof` targets that reads the first byte of an envelope
as the tag number and, from the content, its first byte as the version of the target;
an envelope or a content of no bytes is malformed. -/
def toyLibrary : CborLibrary UnitStateProof where
  unmarshalRawTag := fun data =>
    match contents data with
    | [] => .error "EOF"
    | t :: rest => .ok { Number := t.val, Content := some rest }
  unmarshal := fun content v =>
    match contents content with
    | [] => (some "EOF", v)
    | b :: _ => (none, { v with Version := b.val })

/-! ## Input records -/

/-- The message of `ErrInputRecordIsNil`. -/
def ErrInputRecordIsNil : String := "input record is nil"

/-- The message of `ErrSummaryValueIsNil`. -/
def ErrSummaryValueIsNil : String := "summary value is nil"

/-- Modelled from the spec: `InputRecord.IsValid` is not part of the sources at hand, only
its tests are. An absent record is invalid; "round number, version, and timestamp must be
non-zero/assigned"; the summary value must be present; and "if the state hash changes
relative to the previous round, block hash must be non-empty; if it does not change, block
hash must be empty". The messages are those the tests expect; the tests expect none for
an absent summary value and a zero round number, whose messages are set here. The result
is the error, `none` for a valid record. -/
def InputRecord.IsValid (x : Option InputRecord) : Option String :=
  match x with
  | none => some ErrInputRecordIsNil
  | some r =>
    if r.Version = 0 then some "invalid version (type *types.InputRecord)"
    else if r.SummaryValue = none then some ErrSummaryValueIsNil
    else if r.RoundNumber = 0 then some "round number is unassigned"
    else if r.Timestamp = 0 then some "timestamp is unassigned"
    else if bytesEqual r.PreviousHash r.Hash then
      (if sliceLen r.BlockHash ≠ 0 then
        some "state hash didn't change but block hash is not nil"
       else none)
    else
      (if sliceLen r.BlockHash = 0 then some "block hash is nil but state hash changed"
       else none)

/-- The rendering of a byte slice by the verb `%v`: its bytes in decimal between
brackets. -/
def decimalList (b : Bytes) : String :=
  "[" ++ " ".intercalate (b.map fun x => decimal x.val) ++ "]"

/-- Modelled from the spec: `AssertEqualIR` is not part of the sources at hand, only its
tests are. The two records are compared "field-by-field", over the fields whose
differences the tests report and in the order of the tests, each difference with the
message the tests expect. The result is the error, `none` when no field differs. -/
def AssertEqualIR (a b : InputRecord) : Option String :=
  if !bytesEqual a.PreviousHash b.PreviousHash then
    some ("previous state hash is different: " ++ hexBytesUpper a.PreviousHash ++ " vs "
      ++ hexBytesUpper b.PreviousHash)
  else if !bytesEqual a.Hash b.Hash then
    some ("state hash is different: " ++ hexBytesUpper a.Hash ++ " vs " ++ hexBytesUpper b.Hash)
  else if !bytesEqual a.BlockHash b.BlockHash then
    some ("block hash is different: " ++ hexBytesUpper a.BlockHash ++ " vs "
      ++ hexBytesUpper b.BlockHash)
  else if !bytesEqual a.SummaryValue b.SummaryValue then
    some ("summary value is different: " ++ decimalList (contents a.SummaryValue) ++ " vs "
      ++ decimalList (contents b.SummaryValue))
  else if a.RoundNumber ≠ b.RoundNumber then
    some ("round number is different: " ++ decimal a.RoundNumber ++ " vs "
      ++ decimal b.RoundNumber)
  else if a.SumOfEarnedFees ≠ b.SumOfEarnedFees then
    some ("sum of fees is different: " ++ decimal a.SumOfEarnedFees ++ " vs "
      ++ decimal b.SumOfEarnedFees)
  else if a.Timestamp ≠ b.Timestamp then
    some ("timestamp is different: " ++ decimal a.Timestamp ++ " vs " ++ decimal b.Timestamp)
  else if a.Epoch ≠ b.Epoch then
    some ("epoch is different: " ++ decimal a.Epoch ++ " vs " ++ decimal b.Epoch)
  else none

/-- Modelled from the spec: `EqualIR` is not part of the sources at hand, only its tests
are. It is the "field-by-field" equality of the two records over the fields that
`AssertEqualIR` compares, together with an error that is never set. -/
def EqualIR (a b : InputRecord) : Bool × Option String :=
  (bytesEqual a.PreviousHash b.PreviousHash && bytesEqual a.Hash b.Hash
    && bytesEqual a.BlockHash b.BlockHash && bytesEqual a.SummaryValue b.SummaryValue
    && decide (a.RoundNumber = b.RoundNumber)
    && decide (a.SumOfEarnedFees = b.SumOfEarnedFees)
    && decide (a.Timestamp = b.Timestamp) && decide (a.Epoch = b.Epoch), none)

/-- The record `irA` of the test `Test_AssertEqualIR`. -/
def testRecordA : InputRecord :=
  { Version := 0, PreviousHash := some [1, 1, 1], Hash := some [2, 2, 2],
    BlockHash := some [3, 3, 3], SummaryValue := some [4, 4, 4], ETHash := none,
    RoundNumber := 2, Epoch := 1, Timestamp := 20241113, SumOfEarnedFees := 33 }

/-- The record of the test 'state changes, but block hash is nil', with the byte 7 for
each random byte and a timestamp. -/
def testRecordChanged : InputRecord :=
  { Version := 1, PreviousHash := some (List.replicate 32 7), Hash := some [1, 2, 3],
    BlockHash := none, SummaryValue := some [2, 3, 4], ETHash := none,
    RoundNumber := 1, Epoch := 0, Timestamp := 1731504540, SumOfEarnedFees := 1 }

/-! ## Encoding of a proof (`types/cbor.go`, `types/unit_proof.go`) -/

/-- The CBOR library behind `cborHandler.Marshal` for values of type `τ`: `marshal`
encodes a value, `marshalRawTag` a `cbor.RawTag`. -/
structure CborEncoder (τ : Type) where
  marshal : τ → Except String Slice
  marshalRawTag : RawTag → Except String Slice

/-- The method `cborHandler.MarshalTaggedValue` (lines 62-71). -/
def MarshalTaggedValue {τ : Type} (c : CborEncoder τ) (tag : Nat) (v : τ) :
    Except String Slice :=
  match c.marshal v with
  | .error e => .error e
  | .ok data => c.marshalRawTag { Number := tag, Content := data }

/-- The method `UnitStateProof.MarshalCBOR` (lines 205-211) on the pointer `u`, `none` for
the nil pointer: the outcome and the proof that `u` points to afterwards. The tag
`UnitStateProofTag` is an argument. -/
def UnitStateProof.MarshalCBOR (c : CborEncoder UnitStateProof) (UnitStateProofTag : Nat)
    (u : Option UnitStateProof) : Outcome Slice × Option UnitStateProof :=
  match u with
  | none => (.fault nilDereference, none)
  | some p =>
    let p' := if p.Version = 0 then { p with Version := UnitStateProof.GetVersion (some p) }
      else p
    (match MarshalTaggedValue c UnitStateProofTag p' with
     | .ok data => .ok data
     | .error e => .error e, some p')

/-- An encoder that writes the version of a proof as the one byte of its content and
the tag number in front of the content. -/
def toyEncoder : CborEncoder UnitStateProof where
  marshal := fun u => .ok (some [byteOf u.Version])
  marshalRawTag := fun raw => .ok (some (byteOf raw.Number :: contents raw.Content))

/-- A path item with a unit id below that of `samplePathItem`. -/
def lowerPathItem : StateTreePathItem :=
  { UnitID := some [5], LogsHash := some [6], Value := 1,
    SiblingSummaryHash := some [7], SiblingSummaryValue := 2 }

/-! ## Repeat input records -/

/-- Modelled from the spec: `InputRecord.NewRepeatIR` is not part of the sources at hand,
only its test is. A repeat record is "a copy of the previous one"; the test expects the
copy to be deeply equal to the original, so it is the caller that advances the round
number. Records live in a store and a pointer is the index of a cell: the method on the
pointer `x` puts a copy of every field of the record at `x` into a new cell and returns
the pointer to that cell and the store afterwards; a pointer to no record is a panic. -/
def InputRecord.NewRepeatIR (store : List InputRecord) (x : Nat) :
    Outcome (Nat × List InputRecord) :=
  match store[x]? with
  | none => .fault nilDereference
  | some r => .ok (store.length, store ++ [r])

/-- The statement `x.RoundNumber++` on the record that the pointer `x` points to. -/
def incrementRoundNumber (store : List InputRecord) (x : Nat) : List InputRecord :=
  match store[x]? with
  | none => store
  | some r => store.set x { r with RoundNumber := add64 r.RoundNumber 1 }

/-- The record `ir` of the tests of input records. -/
def testRecord : InputRecord :=
  { Version := 1, PreviousHash := some [0, 0, 1], Hash := some [0, 0, 2],
    BlockHash := some [0, 0, 3], SummaryValue := some [0, 0, 4], ETHash := some [0, 0, 5],
    RoundNumber := 1, Epoch := 0, Timestamp := 0, SumOfEarnedFees := 20 }

/-! ## The unicity tree -/

/-- The four bytes of a partition identifier, most significant first,
`PartitionID.Bytes`. -/
def PartitionID.Bytes (p : Nat) : Bytes :=
  [byteOf (p / 2 ^ 24), byteOf (p / 2 ^ 16), byteOf (p / 2 ^ 8), byteOf p]

/-- The rendering of a partition identifier, eight hexadecimal digits. -/
def PartitionID.String (p : Nat) : String := hexUpper (PartitionID.Bytes p)

/-- An item of an index-tree path, `imt.PathItem`. -/
structure IndexPathItem where
  Key : Slice
  Hash : Slice
deriving DecidableEq, Repr

structure UnicityTreeData where
  Partition : Nat
  ShardTreeRoot : Slice
  PDRHash : Slice
deriving DecidableEq, Repr

structure UnicityTreeCertificate where
  Version : Nat
  Partition : Nat
  HashSteps : List IndexPathItem
  PDRHash : Slice
deriving DecidableEq, Repr

/-- The message of `ErrUnicityTreeCertificateIsNil`. -/
def ErrUnicityTreeCertificateIsNil : String := "unicity tree certificate is nil"

/-- Modelled from the spec: `UnicityTreeCertificate.IsValid` is not part of the sources
at hand, only its tests are. The certificate is valid "iff: the partition id matches the
expected id exactly, and the partition-descriptor hash in the unicity-tree certificate
matches the expected descriptor hash exactly", each mismatch with the message the tests
expect; an absent certificate is invalid. The result is the error, `none` for a valid
certificate. -/
def UnicityTreeCertificate.IsValid (x : Option UnicityTreeCertificate) (partition : Nat)
    (pdrHash : Slice) : Option String :=
  match x with
  | none => some ErrUnicityTreeCertificateIsNil
  | some c =>
    if c.Partition ≠ partition then
      some ("invalid partition identifier: expected " ++ PartitionID.String partition
        ++ ", got " ++ PartitionID.String c.Partition)
    else if !bytesEqual pdrHash c.PDRHash then
      some ("invalid system description hash: expected " ++ hexUpper (contents pdrHash)
        ++ ", got " ++ hexBytesUpper c.PDRHash)
    else none

/-- The hash recipes of the unicity tree: `leafData` is the hash of a leaf's data,
"hash(partitionID, shardTreeRoot, partitionDescriptorHash)"; `leaf` is the hash of a leaf
node from its key and data hash; `node` the hash of an inner node from its key and the
hashes of its left and right subtrees. -/
structure UnicityHasher where
  leafData : UnicityTreeData → Slice
  leaf : Bytes → Slice → Slice
  node : Bytes → Slice → Slice → Slice

/-- Modelled from the spec: the index tree (package `imt`) is not part of the sources at
hand. It is "a binary Merkle tree over sorted unique keys": a leaf holds a key and the
hash of its data, an inner node a left and a right subtree. -/
inductive IndexTree where
  | leaf (key : Bytes) (dataHash : Slice)
  | node (left right : IndexTree)
deriving DecidableEq, Repr

namespace IndexTree

/-- The leaves of a tree, from left to right. -/
def leaves : IndexTree → List (Bytes × Slice)
  | leaf k d => [(k, d)]
  | node l r => l.leaves ++ r.leaves

/-- The key of the rightmost leaf, the greatest key of a tree with sorted leaves. -/
def lastKey : IndexTree → Bytes
  | leaf k _ => k
  | node _ r => r.lastKey

/-- Modelled from the spec: the hash of a tree; an inner node is indexed by the greatest
key of its left subtree. -/
def hash (H : UnicityHasher) : IndexTree → Slice
  | leaf k d => H.leaf k d
  | node l r => H.node l.lastKey (l.hash H) (r.hash H)

/-- Modelled from the spec: "the sibling path needed to recompute the root from that one
leaf", from the leaf up: the leaf's own key and data hash, then for each inner node on the
way its key and the hash of the subtree that was not entered. The search enters the left
subtree when the key is not above the key of the node. -/
def path (H : UnicityHasher) (key : Bytes) : IndexTree → List IndexPathItem
  | leaf k d => [{ Key := some k, Hash := d }]
  | node l r =>
    if bytesCompare key l.lastKey = 1 then
      r.path H key ++ [{ Key := some l.lastKey, Hash := l.hash H }]
    else
      l.path H key ++ [{ Key := some l.lastKey, Hash := r.hash H }]

end IndexTree

/-- Modelled from the spec: the index-tree output function `imt.IndexTreeOutput`, the fold
of a path from the leaf up; at each step the hash reached so far is the left operand when
the key is not above the key of the step. -/
def IndexTreeOutput (H : UnicityHasher) (merklePath : List IndexPathItem) (key : Bytes) :
    Except String Slice :=
  match merklePath with
  | [] => .error "invalid path: empty"
  | first :: rest =>
    .ok (rest.foldl (fun h item =>
      if bytesCompare key (contents item.Key) = 1 then
        H.node (contents item.Key) item.Hash h
      else
        H.node (contents item.Key) h item.Hash) (H.leaf (contents first.Key) first.Hash))

/-- The greatest power of two below `n`, reached by doubling `p`. -/
def powerBelow : Nat → Nat → Nat → Nat
  | 0, p, _ => p
  | fuel + 1, p, n => if 2 * p < n then powerBelow fuel (2 * p) n else p

/-- Modelled from the spec: the construction of the index tree from leaves sorted by key,
the first of them and the rest: one leaf is a leaf node; more leaves are split at the
greatest power of two below their number into the left and the right subtree. The first
argument bounds the depth of the recursion by the number of leaves. -/
def buildIndexTree : Nat → Bytes × Slice → List (Bytes × Slice) → IndexTree
  | 0, first, _ => .leaf first.1 first.2
  | _ + 1, first, [] => .leaf first.1 first.2
  | fuel + 1, first, second :: others =>
    let n := powerBelow (others.length + 2) 1 (others.length + 2)
    match (second :: others).drop (n - 1) with
    | [] => .leaf first.1 first.2
    | r :: rs =>
      .node (buildIndexTree fuel first ((second :: others).take (n - 1)))
        (buildIndexTree fuel r rs)

/-- Modelled from the spec: the check of the index tree on its leaves, "sorted unique
keys": each key is strictly below the next one. -/
def strictlyAscending : List Bytes → Bool
  | [] => true
  | [_] => true
  | a :: b :: rest => bytesCompare a b == -1 && strictlyAscending (b :: rest)

structure UnicityTree where
  root : Option IndexTree
  pdhs : List UnicityTreeData
deriving DecidableEq, Repr

/-- Modelled from the spec: `NewUnicityTree` is not part of the sources at hand, only its
tests are. The leaves, given in any order, are sorted by partition identifier; their keys
are the four bytes of the identifiers and must be strictly ascending, "duplicate keys are
a construction error"; the tree is built over them. -/
def NewUnicityTree (H : UnicityHasher) (data : List UnicityTreeData) :
    Except String UnicityTree :=
  let sorted := data.insertionSort (fun a b => a.Partition ≤ b.Partition)
  let leaves := sorted.map fun d => (PartitionID.Bytes d.Partition, H.leafData d)
  if strictlyAscending (leaves.map Prod.fst) then
    .ok { root := (match leaves with
            | [] => none
            | first :: rest => some (buildIndexTree rest.length first rest)),
          pdhs := sorted }
  else
    .error ("index tree construction failed: "
      ++ "data is not sorted by key in strictly ascending order")

/-- Modelled from the spec: the root hash of the unicity tree, "the single committed value
signed by the seal"; the nil hash for a tree without leaves. -/
def UnicityTree.RootHash (H : UnicityHasher) (t : UnicityTree) : Slice :=
  match t.root with
  | none => none
  | some root => root.hash H

/-- Modelled from the spec: `UnicityTree.Certificate` is not part of the sources at hand,
only its tests are. "If the key is absent, it fails with a not-found error that names the
exact queried key"; otherwise the certificate names the partition and holds the sibling
path of its leaf, without the leaf's own step, and the partition-descriptor hash. -/
def UnicityTree.Certificate (H : UnicityHasher) (t : UnicityTree) (partitionID : Nat) :
    Except String UnicityTreeCertificate :=
  match t.pdhs.find? (fun d => d.Partition = partitionID) with
  | none =>
    .error ("certificate for partition " ++ PartitionID.String partitionID ++ " not found")
  | some d =>
    match t.root with
    | none => .error "tree is empty"
    | some root =>
      .ok { Version := 1, Partition := partitionID,
            HashSteps := (root.path H (PartitionID.Bytes partitionID)).tail,
            PDRHash := d.PDRHash }

/-- Hash recipes with digests of one byte. -/
def toyUnicityHasher : UnicityHasher where
  leafData := fun d =>
    some [byteOf (toyDigest [.uint d.Partition, .bytes d.ShardTreeRoot, .bytes d.PDRHash])]
  leaf := fun k d => some [byteOf (toyDigest [.uint 1, .bytes (some k), .bytes d])]
  node := fun k l r =>
    some [byteOf (toyDigest [.uint 0, .bytes (some k), .bytes l, .bytes r])]

/-- The leaf of a partition with a shard-tree root of four equal bytes. -/
def testLeaf (partition : Nat) (b : Byte) : UnicityTreeData :=
  { Partition := partition, ShardTreeRoot := some [b, b, b, b], PDRHash := none }

/-- The certificate of the test 'invalid system description hash' of
`UnicityTreeCertificate.IsValid`, with the bytes 1, 2, 3 for the random hash. -/
def testCertificate : UnicityTreeCertificate :=
  { Version := 0, Partition := 0x01010101,
    HashSteps := [{ Key := some [1, 1, 1, 1], Hash := some [1, 2, 3] }],
    PDRHash := some [1, 1, 1, 1] }

/-! # Theorems -/

/-! ## Runs: how outcomes and logs compose -/

section RunLemmas

variable {α β : Type}

theorem Run.bind_eq (m : Run α) (f : α → Run β) : m >>= f = Run.andThen m f := rfl

theorem Run.pure_eq (a : α) : (pure a : Run α) = Run.ret a := rfl

theorem Run.andThen_out_ok (m : Run α) (f : α → Run β) (b : β) :
    (m.andThen f).out = .ok b ↔ ∃ a, m.out = .ok a ∧ (f a).out = .ok b := by
  unfold Run.andThen
  cases h : m.out <;> simp

theorem Run.wrap_out_ok (msg : String) (m : Run α) (a : α) :
    (Run.wrap msg m).out = .ok a ↔ m.out = .ok a := by
  unfold Run.wrap
  cases h : m.out <;> simp [h]

theorem Run.wrap_log (msg : String) (m : Run α) : (Run.wrap msg m).log = m.log := by
  unfold Run.wrap
  cases h : m.out <;> simp

theorem Run.call_out_ok (e : Event) (r : Except String α) (a : α) :
    (Run.call e r).out = .ok a ↔ r = .ok a := by
  unfold Run.call
  cases r <;> simp

theorem Run.call_log (e : Event) (r : Except String α) : (Run.call e r).log = [e] := by
  unfold Run.call
  cases r <;> simp

end RunLemmas

/-- C2: when the proof, its unit id, unit tree cert, state tree cert, unicity certificate
or the unit data is absent, `VerifyUnitStateProof` returns the error that names an absent
item, and its log is empty: the certificate was not decoded, the validator was not called
and nothing was hashed. -/
theorem VerifyUnitStateProof_absent_early (cbor : CborHandler) (u : Option UnitStateProof)
    (algorithm : HashAlgorithm) (unitData : Option StateUnitData)
    (ucv : Option UnicityCertificateValidator)
    (habsent : u = none ∨ unitData = none ∨ ∃ p, u = some p ∧ (p.UnitID = none ∨
      p.UnitTreeCert = none ∨ p.StateTreeCert = none ∨ p.UnicityCertificate = none)) :
    (VerifyUnitStateProof cbor u algorithm unitData ucv).log = [] ∧
    ((u = none ∧ (VerifyUnitStateProof cbor u algorithm unitData ucv).out
        = .error "unit state proof is nil") ∨
     (∃ p, u = some p ∧ p.UnitID = none ∧
        (VerifyUnitStateProof cbor u algorithm unitData ucv).out
          = .error "unit ID is nil") ∨
     (∃ p, u = some p ∧ p.UnitTreeCert = none ∧
        (VerifyUnitStateProof cbor u algorithm unitData ucv).out
          = .error "unit tree cert is nil") ∨
     (∃ p, u = some p ∧ p.StateTreeCert = none ∧
        (VerifyUnitStateProof cbor u algorithm unitData ucv).out
          = .error "state tree cert is nil") ∨
     (∃ p, u = some p ∧ p.UnicityCertificate = none ∧
        (VerifyUnitStateProof cbor u algorithm unitData ucv).out
          = .error "unicity certificate is nil") ∨
     (unitData = none ∧ (VerifyUnitStateProof cbor u algorithm unitData ucv).out
        = .error "unit data is nil")) := by
  rcases u with _ | p
  · simp [VerifyUnitStateProof, Run.fail]
  rcases h1 : p.UnitID with _ | id
  · simp [VerifyUnitStateProof, Run.fail, h1]
  rcases h2 : p.UnitTreeCert with _ | utc
  · simp [VerifyUnitStateProof, Run.fail, h1, h2]
  rcases h3 : p.StateTreeCert with _ | stc
  · simp [VerifyUnitStateProof, Run.fail, h1, h2, h3]
  rcases h4 : p.UnicityCertificate with _ | data
  · simp [VerifyUnitStateProof, Run.fail, h1, h2, h3, h4]
  rcases unitData with _ | sd
  · simp [VerifyUnitStateProof, Run.fail, h1, h2, h3, h4]
  · simp [h1, h2, h3, h4] at habsent

theorem bytesEqual_iff (a b : Slice) : bytesEqual a b = true ↔ contents a = contents b := by
  simp [bytesEqual]

/-- The run of `VerifyUnitStateProof` ends in success exactly when every item is present,
the certificate decodes, the validator accepts it, the hash of the unit data equals the
unit data hash of the unit tree cert, and the output of `CalculateStateTreeOutput` equals the
hash and, in its eight-byte encoding, the summary value of the input record. -/
theorem VerifyUnitStateProof_ok_iff (cbor : CborHandler) (u : Option UnitStateProof)
    (algorithm : HashAlgorithm) (unitData : Option StateUnitData)
    (ucv : Option UnicityCertificateValidator) :
    (VerifyUnitStateProof cbor u algorithm unitData ucv).out = .ok () ↔
    ∃ p id utc stc data sd uc validator dataHash h v ir,
      u = some p ∧ p.UnitID = some id ∧ p.UnitTreeCert = some utc ∧
      p.StateTreeCert = some stc ∧ p.UnicityCertificate = some data ∧ unitData = some sd ∧
      cbor.UnmarshalUC (some data) = .ok uc ∧
      ucv = some validator ∧ validator.Validate uc = .ok () ∧
      algorithm.sum [.raw sd.Data] = .ok dataHash ∧
      contents utc.UnitDataHash = contents dataHash ∧
      (CalculateStateTreeOutput p algorithm).out = .ok (h, v) ∧
      uc.InputRecord = some ir ∧
      contents h = contents ir.Hash ∧
      contents ir.SummaryValue = Uint64ToBytes v := by
  rcases u with _ | p
  · simp [VerifyUnitStateProof, Run.fail]
  rcases h1 : p.UnitID with _ | id
  · simp [VerifyUnitStateProof, Run.fail, h1]
  rcases h2 : p.UnitTreeCert with _ | utc
  · simp [VerifyUnitStateProof, Run.fail, h1, h2]
  rcases h3 : p.StateTreeCert with _ | stc
  · simp [VerifyUnitStateProof, Run.fail, h1, h2, h3]
  rcases h4 : p.UnicityCertificate with _ | data
  · simp [VerifyUnitStateProof, Run.fail, h1, h2, h3, h4]
  rcases unitData with _ | sd
  · simp [VerifyUnitStateProof, Run.fail, h1, h2, h3, h4]
  simp only [VerifyUnitStateProof, h1, h2, h3, h4, getUCv1, Run.bind_eq, Run.pure_eq]
  simp only [Run.andThen_out_ok, Run.wrap_out_ok, Run.call_out_ok]
  constructor
  · rintro ⟨uc, huc, h⟩
    rcases ucv with _ | validator
    · simp [Run.panic] at h
    simp only [Run.andThen_out_ok, Run.wrap_out_ok, Run.call_out_ok, StateUnitData.Hash] at h
    obtain ⟨_, hval, dataHash, hdh, h⟩ := h
    by_cases h8 : contents utc.UnitDataHash = contents dataHash
    · have h8' : bytesEqual utc.UnitDataHash dataHash = true := (bytesEqual_iff _ _).2 h8
      simp only [h8', Bool.not_true, Bool.false_eq_true, if_false, Run.andThen_out_ok,
        Run.wrap_out_ok] at h
      obtain ⟨⟨hh, v⟩, hcalc, h⟩ := h
      rcases h10 : uc.InputRecord with _ | ir
      · simp [h10, Run.panic] at h
      simp only [h10] at h
      by_cases h11 : bytesEqual (some (Uint64ToBytes v)) ir.SummaryValue = true
      · by_cases h12 : bytesEqual hh ir.Hash = true
        · refine ⟨p, id, utc, stc, data, sd, uc, validator, dataHash, hh, v, ir, rfl, h1, h2,
            h3, h4, rfl, huc, rfl, hval, hdh, h8, hcalc, h10, (bytesEqual_iff _ _).1 h12, ?_⟩
          exact ((bytesEqual_iff _ _).1 h11).symm
        · simp [h11, h12, Run.fail] at h
      · simp [h11, Run.fail] at h
    · have h8' : bytesEqual utc.UnitDataHash dataHash = false := by
        simpa [bytesEqual] using h8
      simp [h8', Run.fail] at h
  · rintro ⟨p', id', utc', stc', data', sd', uc, validator, dataHash, hh, v, ir, hp, -, hutc, -,
      hdata, hsd, huc, hucv, hval, hdh, h8, hcalc, h10, h12, h11⟩
    cases hp
    cases hsd
    rw [h2] at hutc
    cases hutc
    rw [h4] at hdata
    cases hdata
    subst hucv
    refine ⟨uc, huc, ?_⟩
    simp only [Run.andThen_out_ok, Run.wrap_out_ok, Run.call_out_ok, StateUnitData.Hash]
    refine ⟨(), hval, dataHash, hdh, ?_⟩
    have h8' : bytesEqual utc.UnitDataHash dataHash = true := (bytesEqual_iff _ _).2 h8
    simp only [h8', Bool.not_true, Bool.false_eq_true, if_false, Run.andThen_out_ok,
      Run.wrap_out_ok]
    refine ⟨(hh, v), hcalc, ?_⟩
    have h11' : bytesEqual (some (Uint64ToBytes v)) ir.SummaryValue = true :=
      (bytesEqual_iff _ _).2 h11.symm
    have h12' : bytesEqual hh ir.Hash = true := (bytesEqual_iff _ _).2 h12
    simp [h10, h11', h12', Run.ret]

section RunLaws

variable {α β γ : Type}

theorem Run.eq_of (a b : Run α) (h1 : a.out = b.out) (h2 : a.log = b.log) : a = b := by
  cases a
  cases b
  simp_all

theorem Run.andThen_of_ok (m : Run α) (f : α → Run β) (a : α) (h : m.out = .ok a) :
    m.andThen f = ⟨(f a).out, m.log ++ (f a).log⟩ := by
  simp [Run.andThen, h]

theorem Run.andThen_of_error (m : Run α) (f : α → Run β) (e : String)
    (h : m.out = .error e) : m.andThen f = ⟨.error e, m.log⟩ := by
  simp [Run.andThen, h]

theorem Run.andThen_of_fault (m : Run α) (f : α → Run β) (e : String)
    (h : m.out = .fault e) : m.andThen f = ⟨.fault e, m.log⟩ := by
  simp [Run.andThen, h]

theorem Run.ret_andThen (a : α) (f : α → Run β) : (Run.ret a).andThen f = f a := by
  simp [Run.andThen, Run.ret]

theorem Run.andThen_assoc (m : Run α) (f : α → Run β) (g : β → Run γ) :
    (m.andThen f).andThen g = m.andThen fun a => (f a).andThen g := by
  rcases h : m.out with a | e | e
  · rw [Run.andThen_of_ok m f a h, Run.andThen_of_ok m _ a h]
    rcases h' : (f a).out with b | e | e
    · rw [Run.andThen_of_ok _ g b (by simp [h']), Run.andThen_of_ok _ g b h']
      simp
    · rw [Run.andThen_of_error _ g e (by simp [h']), Run.andThen_of_error _ g e h']
    · rw [Run.andThen_of_fault _ g e (by simp [h']), Run.andThen_of_fault _ g e h']
  · rw [Run.andThen_of_error m f e h, Run.andThen_of_error m _ e h,
      Run.andThen_of_error _ g e rfl]
  · rw [Run.andThen_of_fault m f e h, Run.andThen_of_fault m _ e h,
      Run.andThen_of_fault _ g e rfl]

end RunLaws

/-! ## The loop over the state-tree path -/

theorem stateTreeLoop_append (algorithm : HashAlgorithm) (id : Slice)
    (pre post : List (Option StateTreePathItem)) (h : Slice) (v : Nat) :
    stateTreeLoop algorithm id (pre ++ post) h v =
      (stateTreeLoop algorithm id pre h v).andThen fun hv =>
        stateTreeLoop algorithm id post hv.1 hv.2 := by
  induction pre generalizing h v with
  | nil => simp [stateTreeLoop, Run.pure_eq, Run.ret_andThen]
  | cons x pre ih =>
    rcases x with _ | p
    · simp [stateTreeLoop, Run.panic, Run.andThen]
    · simp only [List.cons_append, stateTreeLoop, Run.bind_eq, Run.andThen_assoc,
        List.append_eq, ih]

/-- The running value after the loop is the value before it plus the values and sibling
summary values of the items, and every item was present. -/
theorem stateTreeLoop_value (algorithm : HashAlgorithm) (id : Slice)
    (path : List (Option StateTreePathItem)) (h : Slice) (v : Nat) (h' : Slice) (v' : Nat)
    (hok : (stateTreeLoop algorithm id path h v).out = .ok (h', v')) :
    ∃ items : List StateTreePathItem, path = items.map some ∧
      v' % 2 ^ 64 = (v + (items.map fun p => p.Value + p.SiblingSummaryValue).sum) % 2 ^ 64 ∧
      (v < 2 ^ 64 → v' < 2 ^ 64) := by
  induction path generalizing h v with
  | nil =>
    simp only [stateTreeLoop, Run.pure_eq, Run.ret, Outcome.ok.injEq, Prod.mk.injEq] at hok
    refine ⟨[], rfl, ?_, ?_⟩
    · simp [hok.2]
    · intro hv
      omega
  | cons x path ih =>
    rcases x with _ | p
    · simp [stateTreeLoop, Run.panic] at hok
    · simp only [stateTreeLoop, Run.bind_eq, Run.andThen_out_ok] at hok
      obtain ⟨h1, -, hrest⟩ := hok
      obtain ⟨items, hitems, hsum, hlt⟩ := ih h1 _ hrest
      refine ⟨p :: items, by simp [hitems], ?_, ?_⟩
      · rw [hsum]
        simp only [add64, List.map_cons, List.sum_cons]
        omega
      · intro _
        apply hlt
        simp only [add64]
        exact Nat.mod_lt _ (by decide)

/-! ## `CalculateStateTreeOutput` -/

theorem CalculateStateTreeOutput_eq (u : UnitStateProof) (algorithm : HashAlgorithm)
    (utc : UnitTreeCert) (stc : StateTreeCert) (h2 : u.UnitTreeCert = some utc)
    (h3 : u.StateTreeCert = some stc) :
    CalculateStateTreeOutput u algorithm =
      (leafLogDigest u utc algorithm).andThen fun z =>
        (PlainTreeOutput algorithm utc.Path z).andThen fun logRoot =>
          (computeHash algorithm u.UnitID logRoot
            (add64 (add64 u.UnitValue stc.LeftSummaryValue) stc.RightSummaryValue)
            stc.LeftSummaryHash stc.LeftSummaryValue stc.RightSummaryHash
            stc.RightSummaryValue).andThen fun h =>
              stateTreeLoop algorithm u.UnitID stc.Path h
                (add64 (add64 u.UnitValue stc.LeftSummaryValue) stc.RightSummaryValue) := by
  simp only [CalculateStateTreeOutput, h2, h3, Run.bind_eq]

theorem CalculateStateTreeOutput_ok_present (u : UnitStateProof) (algorithm : HashAlgorithm)
    (hv : Slice × Nat) (hok : (CalculateStateTreeOutput u algorithm).out = .ok hv) :
    ∃ utc stc, u.UnitTreeCert = some utc ∧ u.StateTreeCert = some stc := by
  rcases h2 : u.UnitTreeCert with _ | utc
  · simp [CalculateStateTreeOutput, h2, Run.panic] at hok
  rcases h3 : u.StateTreeCert with _ | stc
  · simp only [CalculateStateTreeOutput, h2, h3, Run.bind_eq, Run.andThen_out_ok] at hok
    obtain ⟨_, -, _, -, hbad⟩ := hok
    simp [Run.panic] at hbad
  · exact ⟨utc, stc, rfl, rfl⟩

theorem CalculateStateTreeOutput_value_eq (u : UnitStateProof) (algorithm : HashAlgorithm)
    (h : Slice) (v : Nat) (hok : (CalculateStateTreeOutput u algorithm).out = .ok (h, v)) :
    ∃ utc stc, ∃ items : List StateTreePathItem,
      u.UnitTreeCert = some utc ∧ u.StateTreeCert = some stc ∧
      stc.Path = items.map some ∧
      v = (u.UnitValue + stc.LeftSummaryValue + stc.RightSummaryValue +
        (items.map fun p => p.Value + p.SiblingSummaryValue).sum) % 2 ^ 64 := by
  obtain ⟨utc, stc, h2, h3⟩ := CalculateStateTreeOutput_ok_present u algorithm _ hok
  rw [CalculateStateTreeOutput_eq u algorithm utc stc h2 h3] at hok
  simp only [Run.andThen_out_ok] at hok
  obtain ⟨z, -, logRoot, -, h0, -, hloop⟩ := hok
  obtain ⟨items, hitems, hsum, hlt⟩ := stateTreeLoop_value _ _ _ _ _ _ _ hloop
  refine ⟨utc, stc, items, h2, h3, hitems, ?_⟩
  have hv : v < 2 ^ 64 := hlt (by simp only [add64]; exact Nat.mod_lt _ (by decide))
  rw [← Nat.mod_eq_of_lt hv, hsum]
  simp only [add64]
  omega

/-- C4: when `CalculateStateTreeOutput` returns, the value it returns is
`UnitValue + LeftSummaryValue + RightSummaryValue` plus the sum over all path items of
`Value + SiblingSummaryValue`, modulo `2^64`; so any other proof with the same unit value,
the same left and right summary values and the same path values in any order, whatever its
hashes, unit ids and hash algorithm, yields the same value when it returns. -/
theorem CalculateStateTreeOutput_value (u : UnitStateProof) (algorithm : HashAlgorithm)
    (h : Slice) (v : Nat) (hok : (CalculateStateTreeOutput u algorithm).out = .ok (h, v)) :
    (∃ utc stc, ∃ items : List StateTreePathItem,
      u.UnitTreeCert = some utc ∧ u.StateTreeCert = some stc ∧
      stc.Path = items.map some ∧
      v = (u.UnitValue + stc.LeftSummaryValue + stc.RightSummaryValue +
        (items.map fun p => p.Value + p.SiblingSummaryValue).sum) % 2 ^ 64) ∧
    ∀ (u' : UnitStateProof) (algorithm' : HashAlgorithm) (h' : Slice) (v' : Nat)
      (stc stc' : StateTreeCert),
      (CalculateStateTreeOutput u' algorithm').out = .ok (h', v') →
      u.StateTreeCert = some stc → u'.StateTreeCert = some stc' →
      u'.UnitValue = u.UnitValue →
      stc'.LeftSummaryValue = stc.LeftSummaryValue →
      stc'.RightSummaryValue = stc.RightSummaryValue →
      List.Perm (stc'.Path.map (Option.map fun p => (p.Value, p.SiblingSummaryValue)))
        (stc.Path.map (Option.map fun p => (p.Value, p.SiblingSummaryValue))) →
      v' = v := by
  refine ⟨CalculateStateTreeOutput_value_eq u algorithm h v hok, ?_⟩
  intro u' algorithm' h' v' stc stc' hok' hs hs' hval hl hr hperm
  obtain ⟨_, stc1, items, _, h3, hitems, hv⟩ :=
    CalculateStateTreeOutput_value_eq u algorithm h v hok
  obtain ⟨_, stc1', items', _, h3', hitems', hv'⟩ :=
    CalculateStateTreeOutput_value_eq u' algorithm' h' v' hok'
  rw [hs] at h3
  cases h3
  rw [hs'] at h3'
  cases h3'
  have hsum := (hperm.map fun o : Option (Nat × Nat) =>
    match o with
    | some (a, b) => a + b
    | none => 0).sum_eq
  rw [hitems, hitems'] at hsum
  simp only [List.map_map] at hsum
  have e : ∀ l : List StateTreePathItem,
      List.map ((fun o : Option (Nat × Nat) =>
        match o with
        | some (a, b) => a + b
        | none => 0) ∘ (Option.map fun p : StateTreePathItem =>
          (p.Value, p.SiblingSummaryValue)) ∘ some) l
        = l.map fun p => p.Value + p.SiblingSummaryValue := by
    intro l
    apply List.map_congr_left
    intro p _
    rfl
  rw [e, e] at hsum
  rw [hv, hv', hval, hl, hr, hsum]

/-! ## Comparison of unit identifiers -/

theorem bytesCompare_eq_neg_one_iff (a b : Bytes) :
    bytesCompare a b = -1 ↔ List.Lex (· < ·) a b := by
  induction a generalizing b with
  | nil =>
    cases b with
    | nil => simp [bytesCompare, List.Lex.not_nil_right]
    | cons y b => simp [bytesCompare, List.Lex.nil]
  | cons x a ih =>
    cases b with
    | nil => simp [bytesCompare, List.Lex.not_nil_right]
    | cons y b =>
      simp only [bytesCompare]
      by_cases hxy : x < y
      · simp [hxy, List.Lex.rel hxy]
      · by_cases hyx : y < x
        · simp only [hxy, hyx, if_false, if_true]
          constructor
          · intro h
            omega
          · intro h
            cases h with
            | cons h => exact absurd hyx (lt_irrefl _)
            | rel h => exact absurd h hxy
        · have he : x = y := le_antisymm (not_lt.1 hyx) (not_lt.1 hxy)
          subst he
          simp only [hxy, if_false, ih, List.Lex.cons_iff]

theorem bytesCompare_eq_one_iff (a b : Bytes) :
    bytesCompare a b = 1 ↔ List.Lex (· < ·) b a := by
  induction a generalizing b with
  | nil =>
    cases b with
    | nil => simp [bytesCompare, List.Lex.not_nil_right]
    | cons y b => simp [bytesCompare, List.Lex.not_nil_right]
  | cons x a ih =>
    cases b with
    | nil => simp [bytesCompare, List.Lex.nil]
    | cons y b =>
      simp only [bytesCompare]
      by_cases hxy : x < y
      · simp only [hxy, if_true]
        constructor
        · intro h
          omega
        · intro h
          cases h with
          | cons h => exact absurd hxy (lt_irrefl _)
          | rel h => exact absurd h (not_lt.2 hxy.le)
      · by_cases hyx : y < x
        · simp [hxy, hyx, List.Lex.rel hyx]
        · have he : x = y := le_antisymm (not_lt.1 hyx) (not_lt.1 hxy)
          subst he
          simp only [hxy, if_false, ih, List.Lex.cons_iff]

theorem add64_add64 (a b c : Nat) : add64 (add64 a b) c = (a + b + c) % 2 ^ 64 := by
  simp only [add64]
  omega

/-! ## The steps of the state-tree path -/

theorem CalculateStateTreeOutput_withStatePath (u : UnitStateProof)
    (algorithm : HashAlgorithm) (pre post : List (Option StateTreePathItem)) :
    CalculateStateTreeOutput (withStatePath u (pre ++ post)) algorithm =
      (CalculateStateTreeOutput (withStatePath u pre) algorithm).andThen fun hv =>
        stateTreeLoop algorithm u.UnitID post hv.1 hv.2 := by
  rcases h2 : u.UnitTreeCert with _ | utc
  · simp [CalculateStateTreeOutput, withStatePath, h2, Run.panic, Run.andThen]
  rcases h3 : u.StateTreeCert with _ | stc
  · simp only [CalculateStateTreeOutput, withStatePath, h2, h3, Option.map_none',
      Run.bind_eq, Run.andThen_assoc, leafLogDigest]
    rfl
  · simp only [CalculateStateTreeOutput, withStatePath, h2, h3, Option.map_some',
      Run.bind_eq, Run.andThen_assoc, stateTreeLoop_append, leafLogDigest]

/-! ## The calls made by `CalculateStateTreeOutput` -/

theorem hashEvents_append (a b : List Event) :
    hashEvents (a ++ b) = hashEvents a ++ hashEvents b := by
  induction a with
  | nil => rfl
  | cons e a ih => cases e <;> simp [hashEvents, ih]

theorem Run.andThen_log {α β : Type} (m : Run α) (f : α → Run β) :
    (m.andThen f).log = m.log ++
      (match m.out with
       | .ok a => (f a).log
       | _ => []) := by
  unfold Run.andThen
  cases h : m.out <;> simp

theorem computeHash_log (algorithm : HashAlgorithm) (id logRoot : Slice) (summary : Nat)
    (leftHash : Slice) (leftSummary : Nat) (rightHash : Slice) (rightSummary : Nat) :
    (computeHash algorithm id logRoot summary leftHash leftSummary rightHash rightSummary).log
      = [.hash [.bytes id, .bytes logRoot, .uint summary, .bytes leftHash, .uint leftSummary,
          .bytes rightHash, .uint rightSummary]] := by
  simp [computeHash, Run.call_log]

theorem computeHash_out (algorithm : HashAlgorithm) (id logRoot : Slice) (summary : Nat)
    (leftHash : Slice) (leftSummary : Nat) (rightHash : Slice) (rightSummary : Nat) :
    (computeHash algorithm id logRoot summary leftHash leftSummary rightHash rightSummary).out
      = (match algorithm.sum [.bytes id, .bytes logRoot, .uint summary, .bytes leftHash,
          .uint leftSummary, .bytes rightHash, .uint rightSummary] with
        | .ok h => .ok h
        | .error e => .error e) := by
  unfold computeHash Run.call
  cases algorithm.sum _ <;> rfl

theorem leafLogDigest_none (u : UnitStateProof) (utc : UnitTreeCert)
    (algorithm : HashAlgorithm) (ht : utc.TransactionRecordHash = none) :
    leafLogDigest u utc algorithm =
      ⟨.ok (algorithm.sumHashes [u.UnitLedgerHash, utc.UnitDataHash]),
        [.sumHashes [u.UnitLedgerHash, utc.UnitDataHash]]⟩ := by
  simp [leafLogDigest, ht, SumHashes]

theorem leafLogDigest_some (u : UnitStateProof) (utc : UnitTreeCert)
    (algorithm : HashAlgorithm) (t : Bytes) (ht : utc.TransactionRecordHash = some t) :
    leafLogDigest u utc algorithm =
      ⟨.ok (algorithm.sumHashes
          [algorithm.sumHashes [u.UnitLedgerHash, some t], utc.UnitDataHash]),
        [.sumHashes [u.UnitLedgerHash, some t],
         .sumHashes [algorithm.sumHashes [u.UnitLedgerHash, some t], utc.UnitDataHash]]⟩ := by
  simp [leafLogDigest, ht, SumHashes, Run.bind_eq, Run.andThen]

theorem leafLogDigest_hashEvents (u : UnitStateProof) (utc : UnitTreeCert)
    (algorithm : HashAlgorithm) : hashEvents (leafLogDigest u utc algorithm).log = [] := by
  rcases ht : utc.TransactionRecordHash with _ | t
  · rw [leafLogDigest_none u utc algorithm ht]
    rfl
  · rw [leafLogDigest_some u utc algorithm t ht]
    rfl

theorem leafLogDigest_ok (u : UnitStateProof) (utc : UnitTreeCert)
    (algorithm : HashAlgorithm) : ∃ z, (leafLogDigest u utc algorithm).out = .ok z := by
  rcases ht : utc.TransactionRecordHash with _ | t
  · rw [leafLogDigest_none u utc algorithm ht]
    exact ⟨_, rfl⟩
  · rw [leafLogDigest_some u utc algorithm t ht]
    exact ⟨_, rfl⟩

theorem PlainTreeOutput_log (algorithm : HashAlgorithm) (path : List (Option PathItem))
    (leaf : Slice) :
    (PlainTreeOutput algorithm path leaf).log = [.plainTreeOutput path leaf] := by
  unfold PlainTreeOutput
  split <;> rfl

theorem PlainTreeOutput_out_ok (algorithm : HashAlgorithm) (path : List (Option PathItem))
    (leaf logRoot : Slice) :
    (PlainTreeOutput algorithm path leaf).out = .ok logRoot ↔
      algorithm.plainTreeOutput path leaf = some logRoot := by
  unfold PlainTreeOutput
  split <;> simp_all

/-- The hasher calls of the run begin with the hash of the first node, once the
unit-tree fold has returned the log root. -/
theorem CalculateStateTreeOutput_hashEvents (u : UnitStateProof) (algorithm : HashAlgorithm)
    (utc : UnitTreeCert) (stc : StateTreeCert) (z logRoot : Slice)
    (h2 : u.UnitTreeCert = some utc) (h3 : u.StateTreeCert = some stc)
    (hz : (leafLogDigest u utc algorithm).out = .ok z)
    (hroot : algorithm.plainTreeOutput utc.Path z = some logRoot) :
    hashEvents (CalculateStateTreeOutput u algorithm).log =
      [.bytes u.UnitID, .bytes logRoot,
        .uint ((u.UnitValue + stc.LeftSummaryValue + stc.RightSummaryValue) % 2 ^ 64),
        .bytes stc.LeftSummaryHash, .uint stc.LeftSummaryValue,
        .bytes stc.RightSummaryHash, .uint stc.RightSummaryValue] ::
      (match algorithm.sum [.bytes u.UnitID, .bytes logRoot,
          .uint ((u.UnitValue + stc.LeftSummaryValue + stc.RightSummaryValue) % 2 ^ 64),
          .bytes stc.LeftSummaryHash, .uint stc.LeftSummaryValue,
          .bytes stc.RightSummaryHash, .uint stc.RightSummaryValue] with
       | .ok h => hashEvents (stateTreeLoop algorithm u.UnitID stc.Path h
          ((u.UnitValue + stc.LeftSummaryValue + stc.RightSummaryValue) % 2 ^ 64)).log
       | .error _ => []) := by
  have hr := (PlainTreeOutput_out_ok algorithm utc.Path z logRoot).2 hroot
  rw [CalculateStateTreeOutput_eq u algorithm utc stc h2 h3]
  simp only [Run.andThen_log, hz, hr, hashEvents_append, leafLogDigest_hashEvents,
    PlainTreeOutput_log, computeHash_log, computeHash_out, add64_add64]
  cases algorithm.sum _ <;> simp [hashEvents]

/-- C6: the leaf log digest `z` of `CalculateStateTreeOutput` is
`hash(UnitLedgerHash, UnitDataHash)` when the unit tree cert has no transaction record
hash and `hash(hash(UnitLedgerHash, TransactionRecordHash), UnitDataHash)` otherwise; it
is what the unit-tree path is folded from, and the result of that fold is the log hash
written into the hash of the first state-tree node. -/
theorem CalculateStateTreeOutput_leaf_digest (u : UnitStateProof)
    (algorithm : HashAlgorithm) (utc : UnitTreeCert) (stc : StateTreeCert)
    (h2 : u.UnitTreeCert = some utc) (h3 : u.StateTreeCert = some stc) :
    ∃ z,
      (utc.TransactionRecordHash = none →
        z = algorithm.sumHashes [u.UnitLedgerHash, utc.UnitDataHash]) ∧
      (∀ t, utc.TransactionRecordHash = some t →
        z = algorithm.sumHashes
          [algorithm.sumHashes [u.UnitLedgerHash, some t], utc.UnitDataHash]) ∧
      Event.plainTreeOutput utc.Path z ∈ (CalculateStateTreeOutput u algorithm).log ∧
      ∀ logRoot, algorithm.plainTreeOutput utc.Path z = some logRoot →
        ∃ s rest, hashEvents (CalculateStateTreeOutput u algorithm).log =
          [.bytes u.UnitID, .bytes logRoot, .uint s, .bytes stc.LeftSummaryHash,
            .uint stc.LeftSummaryValue, .bytes stc.RightSummaryHash,
            .uint stc.RightSummaryValue] :: rest := by
  obtain ⟨z, hz⟩ := leafLogDigest_ok u utc algorithm
  refine ⟨z, ?_, ?_, ?_, ?_⟩
  · intro ht
    rw [leafLogDigest_none u utc algorithm ht] at hz
    simpa using hz.symm
  · intro t ht
    rw [leafLogDigest_some u utc algorithm t ht] at hz
    simpa using hz.symm
  · rw [CalculateStateTreeOutput_eq u algorithm utc stc h2 h3]
    simp only [Run.andThen_log, hz, PlainTreeOutput_log]
    simp
  · intro logRoot hroot
    exact ⟨_, _, CalculateStateTreeOutput_hashEvents u algorithm utc stc z logRoot h2 h3 hz
      hroot⟩

theorem pathStepHash_log (algorithm : HashAlgorithm) (id : Slice) (p : StateTreePathItem)
    (h : Slice) (v : Nat) :
    ∃ ws, (pathStepHash algorithm id p h v).log = [.hash ws] ∧ nodeSums p.Value ws := by
  unfold pathStepHash
  split
  · exact ⟨_, computeHash_log _ _ _ _ _ _ _ _, by simp [nodeSums, add64_add64]⟩
  · refine ⟨_, computeHash_log _ _ _ _ _ _ _ _, ?_⟩
    simp only [nodeSums, add64_add64]
    omega

theorem stateTreeLoop_sum_tree (algorithm : HashAlgorithm) (id : Slice)
    (path : List (Option StateTreePathItem)) (h : Slice) (v : Nat) :
    ∃ owns : List Nat, owns <+: path.reduceOption.map (fun p => p.Value) ∧
      List.Forall₂ nodeSums owns (hashEvents (stateTreeLoop algorithm id path h v).log) ∧
      ∀ hv, (stateTreeLoop algorithm id path h v).out = .ok hv →
        owns = path.reduceOption.map (fun p => p.Value) := by
  induction path generalizing h v with
  | nil =>
    refine ⟨[], List.nil_prefix, ?_, fun _ _ => rfl⟩
    simp [stateTreeLoop, Run.pure_eq, Run.ret, hashEvents]
  | cons x path ih =>
    rcases x with _ | p
    · refine ⟨[], List.nil_prefix, ?_, ?_⟩
      · simp [stateTreeLoop, Run.panic, hashEvents]
      · intro hv hok
        simp [stateTreeLoop, Run.panic] at hok
    · obtain ⟨ws, hlog, hnode⟩ := pathStepHash_log algorithm id p h v
      simp only [stateTreeLoop, Run.bind_eq, List.reduceOption_cons_of_some, List.map_cons]
      rcases hstep : (pathStepHash algorithm id p h v).out with h1 | e | e
      · obtain ⟨owns, hpre, hall, hfull⟩ :=
          ih h1 (add64 (add64 p.Value v) p.SiblingSummaryValue)
        refine ⟨p.Value :: owns, ?_, ?_, ?_⟩
        · exact (List.prefix_cons_inj _).2 hpre
        · rw [Run.andThen_of_ok _ _ h1 hstep]
          simp only [hlog, List.singleton_append, hashEvents]
          exact List.Forall₂.cons hnode hall
        · intro hv hok
          rw [Run.andThen_of_ok _ _ h1 hstep] at hok
          rw [hfull hv hok]
      · refine ⟨[p.Value], ?_, ?_, ?_⟩
        · exact (List.prefix_cons_inj _).2 List.nil_prefix
        · rw [Run.andThen_of_error _ _ e hstep]
          simp only [hlog, hashEvents]
          exact List.Forall₂.cons hnode List.Forall₂.nil
        · intro hv hok
          rw [Run.andThen_of_error _ _ e hstep] at hok
          simp at hok
      · refine ⟨[p.Value], ?_, ?_, ?_⟩
        · exact (List.prefix_cons_inj _).2 List.nil_prefix
        · rw [Run.andThen_of_fault _ _ e hstep]
          simp only [hlog, hashEvents]
          exact List.Forall₂.cons hnode List.Forall₂.nil
        · intro hv hok
          rw [Run.andThen_of_fault _ _ e hstep] at hok
          simp at hok

theorem CalculateStateTreeOutput_out (u : UnitStateProof) (algorithm : HashAlgorithm)
    (utc : UnitTreeCert) (stc : StateTreeCert) (z logRoot : Slice)
    (h2 : u.UnitTreeCert = some utc) (h3 : u.StateTreeCert = some stc)
    (hz : (leafLogDigest u utc algorithm).out = .ok z)
    (hroot : algorithm.plainTreeOutput utc.Path z = some logRoot) :
    (CalculateStateTreeOutput u algorithm).out =
      (match algorithm.sum [.bytes u.UnitID, .bytes logRoot,
          .uint ((u.UnitValue + stc.LeftSummaryValue + stc.RightSummaryValue) % 2 ^ 64),
          .bytes stc.LeftSummaryHash, .uint stc.LeftSummaryValue,
          .bytes stc.RightSummaryHash, .uint stc.RightSummaryValue] with
       | .ok h => (stateTreeLoop algorithm u.UnitID stc.Path h
          ((u.UnitValue + stc.LeftSummaryValue + stc.RightSummaryValue) % 2 ^ 64)).out
       | .error e => .error e) := by
  have hr := (PlainTreeOutput_out_ok algorithm utc.Path z logRoot).2 hroot
  rw [CalculateStateTreeOutput_eq u algorithm utc stc h2 h3]
  rw [Run.andThen_of_ok _ _ z hz]
  simp only
  rw [Run.andThen_of_ok _ _ logRoot hr]
  simp only [add64_add64]
  rcases hs : algorithm.sum [.bytes u.UnitID, .bytes logRoot,
          .uint ((u.UnitValue + stc.LeftSummaryValue + stc.RightSummaryValue) % 2 ^ 64),
          .bytes stc.LeftSummaryHash, .uint stc.LeftSummaryValue,
          .bytes stc.RightSummaryHash, .uint stc.RightSummaryValue] with e | h
  · rw [Run.andThen_of_error _ _ e (by rw [computeHash_out, hs])]
  · rw [Run.andThen_of_ok _ _ h (by rw [computeHash_out, hs])]

theorem CalculateStateTreeOutput_hashEvents_of_fold_fault (u : UnitStateProof)
    (algorithm : HashAlgorithm) (utc : UnitTreeCert) (z : Slice)
    (h2 : u.UnitTreeCert = some utc)
    (hz : (leafLogDigest u utc algorithm).out = .ok z)
    (hroot : algorithm.plainTreeOutput utc.Path z = none) :
    hashEvents (CalculateStateTreeOutput u algorithm).log = [] ∧
      ∀ hv, (CalculateStateTreeOutput u algorithm).out ≠ .ok hv := by
  have hr : (PlainTreeOutput algorithm utc.Path z).out = .fault nilDereference := by
    simp [PlainTreeOutput, hroot]
  simp only [CalculateStateTreeOutput, h2, Run.bind_eq]
  rw [Run.andThen_of_ok _ _ z hz]
  simp only
  rw [Run.andThen_of_fault _ _ _ hr]
  simp [hashEvents_append, leafLogDigest_hashEvents, PlainTreeOutput_log, hashEvents]

/-- C7: in every node hash that `CalculateStateTreeOutput` computes, the first node and
each step of the path, the value field is the node's own value plus the values of its left
and right slots, modulo `2^64`: the hasher calls of the run are node hashes that sum up,
taken in order against the unit value and the values of the path items; when the run
returns there is one for every one of them. -/
theorem CalculateStateTreeOutput_sum_tree (u : UnitStateProof) (algorithm : HashAlgorithm) :
    ∃ owns : List Nat,
      owns <+: (u.UnitValue ::
        (match u.StateTreeCert with
         | some stc => stc.Path.reduceOption.map (fun p => p.Value)
         | none => [])) ∧
      List.Forall₂ nodeSums owns (hashEvents (CalculateStateTreeOutput u algorithm).log) ∧
      ∀ hv, (CalculateStateTreeOutput u algorithm).out = .ok hv →
        owns = u.UnitValue ::
          (match u.StateTreeCert with
           | some stc => stc.Path.reduceOption.map (fun p => p.Value)
           | none => []) := by
  rcases h2 : u.UnitTreeCert with _ | utc
  · refine ⟨[], List.nil_prefix, ?_, ?_⟩
    · simp [CalculateStateTreeOutput, h2, Run.panic, hashEvents]
    · intro hv hok
      simp [CalculateStateTreeOutput, h2, Run.panic] at hok
  obtain ⟨z, hz⟩ := leafLogDigest_ok u utc algorithm
  rcases hroot : algorithm.plainTreeOutput utc.Path z with _ | logRoot
  · obtain ⟨hlog, hout⟩ :=
      CalculateStateTreeOutput_hashEvents_of_fold_fault u algorithm utc z h2 hz hroot
    refine ⟨[], List.nil_prefix, ?_, ?_⟩
    · rw [hlog]
      exact List.Forall₂.nil
    · intro hv hok
      exact absurd hok (hout hv)
  rcases h3 : u.StateTreeCert with _ | stc
  · have hr := (PlainTreeOutput_out_ok algorithm utc.Path z logRoot).2 hroot
    refine ⟨[], List.nil_prefix, ?_, ?_⟩
    · simp only [CalculateStateTreeOutput, h2, h3, Run.bind_eq]
      rw [Run.andThen_of_ok _ _ z hz]
      simp only
      rw [Run.andThen_of_ok _ _ logRoot hr]
      simp [hashEvents_append, leafLogDigest_hashEvents, PlainTreeOutput_log, hashEvents,
        Run.panic]
    · intro hv hok
      obtain ⟨_, _, -, h3'⟩ := CalculateStateTreeOutput_ok_present u algorithm hv hok
      rw [h3] at h3'
      cases h3'
  · rw [CalculateStateTreeOutput_hashEvents u algorithm utc stc z logRoot h2 h3 hz hroot,
      CalculateStateTreeOutput_out u algorithm utc stc z logRoot h2 h3 hz hroot]
    have hfirst : nodeSums u.UnitValue [.bytes u.UnitID, .bytes logRoot,
        .uint ((u.UnitValue + stc.LeftSummaryValue + stc.RightSummaryValue) % 2 ^ 64),
        .bytes stc.LeftSummaryHash, .uint stc.LeftSummaryValue,
        .bytes stc.RightSummaryHash, .uint stc.RightSummaryValue] := by
      simp [nodeSums]
    rcases hs : algorithm.sum [.bytes u.UnitID, .bytes logRoot,
          .uint ((u.UnitValue + stc.LeftSummaryValue + stc.RightSummaryValue) % 2 ^ 64),
          .bytes stc.LeftSummaryHash, .uint stc.LeftSummaryValue,
          .bytes stc.RightSummaryHash, .uint stc.RightSummaryValue] with e | h
    · refine ⟨[u.UnitValue], (List.prefix_cons_inj _).2 List.nil_prefix, ?_, ?_⟩
      · exact List.Forall₂.cons hfirst List.Forall₂.nil
      · intro hv hok
        simp at hok
    · obtain ⟨owns, hpre, hall, hfull⟩ := stateTreeLoop_sum_tree algorithm u.UnitID stc.Path h
        ((u.UnitValue + stc.LeftSummaryValue + stc.RightSummaryValue) % 2 ^ 64)
      refine ⟨u.UnitValue :: owns, (List.prefix_cons_inj _).2 hpre, ?_, ?_⟩
      · exact List.Forall₂.cons hfirst hall
      · intro hv hok
        rw [hfull hv hok]

/-- C8, as amended: the recomputation starts from
`h = hash(id, z, v, leftSibHash, leftSibVal, rightSibHash, rightSibVal)` where `id` is the
proof's unit id, `z` the log root and the left and right hashes and values are those of the
state tree cert, and where `v` is `UnitValue + LeftSummaryValue + RightSummaryValue` modulo
`2^64`, not the unit value alone: this is the first hasher call of the run, its result and
`v` are the output for an empty path, and the loop over the path starts from them. -/
theorem CalculateStateTreeOutput_first_node (u : UnitStateProof) (algorithm : HashAlgorithm)
    (utc : UnitTreeCert) (stc : StateTreeCert) (z logRoot : Slice)
    (h2 : u.UnitTreeCert = some utc) (h3 : u.StateTreeCert = some stc)
    (hz : (leafLogDigest u utc algorithm).out = .ok z)
    (hroot : algorithm.plainTreeOutput utc.Path z = some logRoot) :
    (hashEvents (CalculateStateTreeOutput u algorithm).log).head? =
      some [.bytes u.UnitID, .bytes logRoot,
        .uint ((u.UnitValue + stc.LeftSummaryValue + stc.RightSummaryValue) % 2 ^ 64),
        .bytes stc.LeftSummaryHash, .uint stc.LeftSummaryValue,
        .bytes stc.RightSummaryHash, .uint stc.RightSummaryValue] ∧
    (CalculateStateTreeOutput (withStatePath u []) algorithm).out =
      (match algorithm.sum [.bytes u.UnitID, .bytes logRoot,
          .uint ((u.UnitValue + stc.LeftSummaryValue + stc.RightSummaryValue) % 2 ^ 64),
          .bytes stc.LeftSummaryHash, .uint stc.LeftSummaryValue,
          .bytes stc.RightSummaryHash, .uint stc.RightSummaryValue] with
       | .ok h => .ok (h,
          (u.UnitValue + stc.LeftSummaryValue + stc.RightSummaryValue) % 2 ^ 64)
       | .error e => .error e) ∧
    CalculateStateTreeOutput u algorithm =
      (CalculateStateTreeOutput (withStatePath u []) algorithm).andThen fun hv =>
        stateTreeLoop algorithm u.UnitID stc.Path hv.1 hv.2 := by
  refine ⟨?_, ?_, ?_⟩
  · rw [CalculateStateTreeOutput_hashEvents u algorithm utc stc z logRoot h2 h3 hz hroot]
    rfl
  · have hz' : (leafLogDigest (withStatePath u []) utc algorithm).out = .ok z := by
      simpa [leafLogDigest, withStatePath] using hz
    have h := CalculateStateTreeOutput_out (withStatePath u []) algorithm utc
      { stc with Path := [] } z logRoot (by simp [withStatePath, h2])
      (by simp [withStatePath, h3]) hz' hroot
    rw [h]
    simp only [withStatePath, stateTreeLoop, Run.pure_eq, Run.ret]
  · have hu : withStatePath u ([] ++ stc.Path) = u := by
      cases u
      simp only [withStatePath, List.nil_append] at h3 ⊢
      simp [h3]
    have h := CalculateStateTreeOutput_withStatePath u algorithm [] stc.Path
    rw [hu] at h
    exact h

/-! ## The checks of `VerifyUnitStateProof` after the presence checks -/

/-- With every item present, a certificate that decodes and a validator that accepts it,
the hasher is run on the unit data, after the decoder and the validator, and the rest of
the run follows from its result. -/
theorem VerifyUnitStateProof_after_validation (cbor : CborHandler) (p : UnitStateProof)
    (algorithm : HashAlgorithm) (sd : StateUnitData) (validator : UnicityCertificateValidator)
    (id : Bytes) (utc : UnitTreeCert) (stc : StateTreeCert) (data : Bytes)
    (uc : UnicityCertificate)
    (h1 : p.UnitID = some id) (h2 : p.UnitTreeCert = some utc)
    (h3 : p.StateTreeCert = some stc) (h4 : p.UnicityCertificate = some data)
    (huc : cbor.UnmarshalUC (some data) = .ok uc) (hval : validator.Validate uc = .ok ()) :
    ∃ rest : Run Unit,
      (VerifyUnitStateProof cbor (some p) algorithm (some sd) (some validator)).out = rest.out ∧
      (VerifyUnitStateProof cbor (some p) algorithm (some sd) (some validator)).log =
        [.decode (some data), .validate uc, .hash [.raw sd.Data]] ++ rest.log ∧
      rest = (match algorithm.sum [.raw sd.Data] with
        | .error e => ⟨.error ("failed to calculate unit data hash: " ++ e), []⟩
        | .ok dataHash =>
          if !bytesEqual utc.UnitDataHash dataHash then
            Run.fail "unit data hash does not match hash in unit tree"
          else
            (Run.wrap "failed to calculate state tree output: "
              (CalculateStateTreeOutput p algorithm)).andThen fun hv =>
              match uc.InputRecord with
              | none => Run.panic nilDereference
              | some ir =>
                if !bytesEqual (some (Uint64ToBytes hv.2)) ir.SummaryValue then
                  Run.fail ("invalid summary value: expected "
                    ++ hexBytesUpper ir.SummaryValue
                    ++ ", got " ++ hexUpper (Uint64ToBytes hv.2))
                else if !bytesEqual hv.1 ir.Hash then
                  Run.fail ("invalid state root hash: expected " ++ hexBytesUpper ir.Hash
                    ++ ", got " ++ hexUpper (contents hv.1))
                else
                  Run.ret ()) := by
  refine ⟨_, ?_, ?_, rfl⟩
  · simp only [VerifyUnitStateProof, h1, h2, h3, h4, getUCv1, Run.bind_eq, Run.pure_eq, huc,
      hval, Run.call, Run.wrap, Run.andThen, StateUnitData.Hash]
    cases algorithm.sum [.raw sd.Data] <;> simp
  · simp only [VerifyUnitStateProof, h1, h2, h3, h4, getUCv1, Run.bind_eq, Run.pure_eq, huc,
      hval, Run.call, Run.wrap, Run.andThen, StateUnitData.Hash]
    cases algorithm.sum [.raw sd.Data] <;> simp

theorem Uint64ToBytes_length (i : Nat) : (Uint64ToBytes i).length = 8 := rfl

/-- C9: when all earlier checks pass, `VerifyUnitStateProof` fails with an 'invalid
summary value' error unless the bytes of the input record's summary value are exactly the
eight-byte encoding of the recomputed total; only then the state root hash is compared and
the run succeeds or fails with an 'invalid state root hash' error. In particular a summary
value that is not eight bytes long never verifies. -/
theorem VerifyUnitStateProof_summary_value (cbor : CborHandler) (p : UnitStateProof)
    (algorithm : HashAlgorithm) (sd : StateUnitData) (validator : UnicityCertificateValidator)
    (id : Bytes) (utc : UnitTreeCert) (stc : StateTreeCert) (data : Bytes)
    (uc : UnicityCertificate) (dataHash h : Slice) (v : Nat) (ir : InputRecord)
    (h1 : p.UnitID = some id) (h2 : p.UnitTreeCert = some utc)
    (h3 : p.StateTreeCert = some stc) (h4 : p.UnicityCertificate = some data)
    (huc : cbor.UnmarshalUC (some data) = .ok uc) (hval : validator.Validate uc = .ok ())
    (hdh : algorithm.sum [.raw sd.Data] = .ok dataHash)
    (h8 : contents utc.UnitDataHash = contents dataHash)
    (hcalc : (CalculateStateTreeOutput p algorithm).out = .ok (h, v))
    (hir : uc.InputRecord = some ir) :
    (contents ir.SummaryValue ≠ Uint64ToBytes v →
      ∃ detail, (VerifyUnitStateProof cbor (some p) algorithm (some sd) (some validator)).out =
        .error ("invalid summary value: " ++ detail)) ∧
    (contents ir.SummaryValue = Uint64ToBytes v →
      (VerifyUnitStateProof cbor (some p) algorithm (some sd) (some validator)).out =
        (if contents h = contents ir.Hash then .ok ()
         else .error ("invalid state root hash: expected " ++ hexBytesUpper ir.Hash
          ++ ", got " ++ hexUpper (contents h)))) ∧
    ((contents ir.SummaryValue).length ≠ 8 →
      (VerifyUnitStateProof cbor (some p) algorithm (some sd) (some validator)).out ≠ .ok () ∧
      ∃ detail, (VerifyUnitStateProof cbor (some p) algorithm (some sd) (some validator)).out =
        .error ("invalid summary value: " ++ detail)) := by
  obtain ⟨rest, hout, -, hrest⟩ := VerifyUnitStateProof_after_validation cbor p algorithm sd
    validator id utc stc data uc h1 h2 h3 h4 huc hval
  have h8' : bytesEqual utc.UnitDataHash dataHash = true := (bytesEqual_iff _ _).2 h8
  have hw : (Run.wrap "failed to calculate state tree output: "
      (CalculateStateTreeOutput p algorithm)).out = .ok (h, v) :=
    (Run.wrap_out_ok _ _ _).2 hcalc
  simp only [hdh, h8', Bool.not_true, Bool.false_eq_true, if_false] at hrest
  rw [Run.andThen_of_ok _ _ (h, v) hw] at hrest
  simp only [hir] at hrest
  have bad : contents ir.SummaryValue ≠ Uint64ToBytes v →
      (VerifyUnitStateProof cbor (some p) algorithm (some sd) (some validator)).out =
        .error ("invalid summary value: " ++ ("expected " ++ hexBytesUpper ir.SummaryValue
          ++ ", got " ++ hexUpper (Uint64ToBytes v))) := by
    intro e1
    have e1' : bytesEqual (some (Uint64ToBytes v)) ir.SummaryValue = false := by
      simp only [bytesEqual, contents, beq_eq_false_iff_ne, ne_eq]
      exact fun e => e1 e.symm
    have hs : "invalid summary value: expected " = "invalid summary value: " ++ "expected " :=
      by decide
    rw [hout, hrest]
    simp only [e1', Bool.not_false, if_true, Run.fail, hs, String.append_assoc]
  refine ⟨fun e1 => ⟨_, bad e1⟩, ?_, ?_⟩
  · intro e1
    have e1' : bytesEqual (some (Uint64ToBytes v)) ir.SummaryValue = true :=
      (bytesEqual_iff _ _).2 e1.symm
    rw [hout, hrest]
    by_cases e2 : contents h = contents ir.Hash
    · have e2' : bytesEqual h ir.Hash = true := (bytesEqual_iff _ _).2 e2
      simp [e2, e1', e2', Run.ret]
    · have e2' : bytesEqual h ir.Hash = false := by
        simpa [bytesEqual] using e2
      simp [e2, e1', e2', Run.fail]
  · intro hlen
    have hne : contents ir.SummaryValue ≠ Uint64ToBytes v := by
      intro e
      rw [e, Uint64ToBytes_length] at hlen
      exact hlen rfl
    refine ⟨?_, _, bad hne⟩
    rw [bad hne]
    simp

/-- C3, as amended: unit data that is present but empty is not rejected before hashing.
Once the presence checks, the decoding of the certificate and the validator have passed,
`VerifyUnitStateProof` runs the hasher on the empty data like on any other, and it returns
success exactly when that hash equals the unit data hash of the unit tree cert and the
state-tree output matches the input record. -/
theorem VerifyUnitStateProof_empty_unit_data (cbor : CborHandler) (p : UnitStateProof)
    (algorithm : HashAlgorithm) (sd : StateUnitData) (validator : UnicityCertificateValidator)
    (id : Bytes) (utc : UnitTreeCert) (stc : StateTreeCert) (data : Bytes)
    (uc : UnicityCertificate)
    (hempty : sliceLen sd.Data = 0)
    (h1 : p.UnitID = some id) (h2 : p.UnitTreeCert = some utc)
    (h3 : p.StateTreeCert = some stc) (h4 : p.UnicityCertificate = some data)
    (huc : cbor.UnmarshalUC (some data) = .ok uc) (hval : validator.Validate uc = .ok ()) :
    (∃ d rest, sliceLen d = 0 ∧
      (VerifyUnitStateProof cbor (some p) algorithm (some sd) (some validator)).log =
        [.decode (some data), .validate uc, .hash [.raw d]] ++ rest) ∧
    ((VerifyUnitStateProof cbor (some p) algorithm (some sd) (some validator)).out = .ok () ↔
      ∃ dataHash h v ir,
        algorithm.sum [.raw sd.Data] = .ok dataHash ∧
        contents utc.UnitDataHash = contents dataHash ∧
        (CalculateStateTreeOutput p algorithm).out = .ok (h, v) ∧
        uc.InputRecord = some ir ∧
        contents h = contents ir.Hash ∧
        contents ir.SummaryValue = Uint64ToBytes v) := by
  constructor
  · obtain ⟨rest, -, hlog, -⟩ := VerifyUnitStateProof_after_validation cbor p algorithm sd
      validator id utc stc data uc h1 h2 h3 h4 huc hval
    exact ⟨sd.Data, rest.log, hempty, hlog⟩
  · rw [VerifyUnitStateProof_ok_iff]
    constructor
    · rintro ⟨p', id', utc', stc', data', sd', uc', validator', dataHash, h, v, ir, hp, -, hutc,
        -, hdata, hsd, huc', hv, -, hdh, h8, hcalc, hir, hh, hs⟩
      cases hp
      cases hsd
      cases hv
      rw [h2] at hutc
      cases hutc
      rw [h4] at hdata
      cases hdata
      rw [huc] at huc'
      cases huc'
      exact ⟨dataHash, h, v, ir, hdh, h8, hcalc, hir, hh, hs⟩
    · rintro ⟨dataHash, h, v, ir, hdh, h8, hcalc, hir, hh, hs⟩
      exact ⟨p, id, utc, stc, data, sd, uc, validator, dataHash, h, v, ir, rfl, h1, h2, h3, h4,
        rfl, huc, rfl, hval, hdh, h8, hcalc, hir, hh, hs⟩

/-! ## The two-unit tree -/

theorem stateTreeLoop_returns (algorithm : HashAlgorithm)
    (hsum : ∀ ws, ∃ d, algorithm.sum ws = .ok d) (id : Slice)
    (items : List StateTreePathItem) (h : Slice) (v : Nat) :
    ∃ h' v', (stateTreeLoop algorithm id (items.map some) h v).out = .ok (h', v') := by
  induction items generalizing h v with
  | nil => exact ⟨h, v, rfl⟩
  | cons p items ih =>
    have hstep : ∃ h1, (pathStepHash algorithm id p h v).out = .ok h1 := by
      unfold pathStepHash
      split
      · obtain ⟨d, hd⟩ := hsum [.bytes p.UnitID, .bytes p.LogsHash,
          .uint (add64 (add64 p.Value v) p.SiblingSummaryValue), .bytes h, .uint v,
          .bytes p.SiblingSummaryHash, .uint p.SiblingSummaryValue]
        exact ⟨d, by rw [computeHash_out, hd]⟩
      · obtain ⟨d, hd⟩ := hsum [.bytes p.UnitID, .bytes p.LogsHash,
          .uint (add64 (add64 p.Value v) p.SiblingSummaryValue),
          .bytes p.SiblingSummaryHash, .uint p.SiblingSummaryValue, .bytes h, .uint v]
        exact ⟨d, by rw [computeHash_out, hd]⟩
    obtain ⟨h1, hh1⟩ := hstep
    obtain ⟨h', v', hrest⟩ := ih h1 (add64 (add64 p.Value v) p.SiblingSummaryValue)
    refine ⟨h', v', ?_⟩
    simp only [List.map_cons, stateTreeLoop, Run.bind_eq]
    rw [Run.andThen_of_ok _ _ h1 hh1]
    exact hrest

/-- The run returns a hash and a value when the hasher does not fail, the unit-tree fold
returns and no item of the state-tree path is absent. -/
theorem CalculateStateTreeOutput_returns (u : UnitStateProof) (algorithm : HashAlgorithm)
    (utc : UnitTreeCert) (stc : StateTreeCert) (items : List StateTreePathItem)
    (hsum : ∀ ws, ∃ d, algorithm.sum ws = .ok d)
    (hfold : ∀ z, algorithm.plainTreeOutput utc.Path z ≠ none)
    (h2 : u.UnitTreeCert = some utc) (h3 : u.StateTreeCert = some stc)
    (hitems : stc.Path = items.map some) :
    ∃ h v, (CalculateStateTreeOutput u algorithm).out = .ok (h, v) := by
  obtain ⟨z, hz⟩ := leafLogDigest_ok u utc algorithm
  rcases hroot : algorithm.plainTreeOutput utc.Path z with _ | logRoot
  · exact absurd hroot (hfold z)
  rw [CalculateStateTreeOutput_out u algorithm utc stc z logRoot h2 h3 hz hroot]
  obtain ⟨d, hd⟩ := hsum [.bytes u.UnitID, .bytes logRoot,
    .uint ((u.UnitValue + stc.LeftSummaryValue + stc.RightSummaryValue) % 2 ^ 64),
    .bytes stc.LeftSummaryHash, .uint stc.LeftSummaryValue,
    .bytes stc.RightSummaryHash, .uint stc.RightSummaryValue]
  rw [hd, hitems]
  exact stateTreeLoop_returns algorithm hsum _ _ _ _

/-- C10: in a state tree of two units with values 5 and 7, whatever the hashes and unit
ids, `CalculateStateTreeOutput` returns the total value 12 for the proof of the child unit
(no left or right summaries, a path of one item with the other unit's value and no sibling
summary) and for the proof of the root unit (the child's value as its left or right
summary value, an empty path), and likewise with 5 and 7 exchanged; the hasher is assumed
not to fail and the unit-tree folds to return. -/
theorem CalculateStateTreeOutput_two_units (algorithm : HashAlgorithm)
    (child root : UnitStateProof) (utcC utcR : UnitTreeCert) (stcC stcR : StateTreeCert)
    (p : StateTreePathItem) (a b : Nat)
    (hsum : ∀ ws, ∃ d, algorithm.sum ws = .ok d)
    (hfoldC : ∀ z, algorithm.plainTreeOutput utcC.Path z ≠ none)
    (hfoldR : ∀ z, algorithm.plainTreeOutput utcR.Path z ≠ none)
    (hab : (a = 5 ∧ b = 7) ∨ (a = 7 ∧ b = 5))
    (hc2 : child.UnitTreeCert = some utcC) (hc3 : child.StateTreeCert = some stcC)
    (hcv : child.UnitValue = a)
    (hcl : stcC.LeftSummaryValue = 0) (hcr : stcC.RightSummaryValue = 0)
    (hcp : stcC.Path = [some p]) (hpv : p.Value = b) (hps : p.SiblingSummaryValue = 0)
    (hr2 : root.UnitTreeCert = some utcR) (hr3 : root.StateTreeCert = some stcR)
    (hrv : root.UnitValue = b)
    (hrs : (stcR.LeftSummaryValue = a ∧ stcR.RightSummaryValue = 0) ∨
      (stcR.LeftSummaryValue = 0 ∧ stcR.RightSummaryValue = a))
    (hrp : stcR.Path = []) :
    (∃ h, (CalculateStateTreeOutput child algorithm).out = .ok (h, 12)) ∧
    (∃ h, (CalculateStateTreeOutput root algorithm).out = .ok (h, 12)) := by
  constructor
  · obtain ⟨h, v, hok⟩ := CalculateStateTreeOutput_returns child algorithm utcC stcC [p] hsum
      hfoldC hc2 hc3 (by simp [hcp])
    obtain ⟨_, stc, items, -, h3, hitems, hv⟩ :=
      CalculateStateTreeOutput_value_eq child algorithm h v hok
    rw [hc3] at h3
    cases h3
    rw [hcp] at hitems
    have hi : items = [p] := by
      cases items with
      | nil => simp at hitems
      | cons q items =>
        cases items with
        | nil => simpa using hitems.symm
        | cons r items => simp at hitems
    subst hi
    refine ⟨h, ?_⟩
    rw [hok, hv]
    simp only [List.map_cons, List.map_nil, List.sum_cons, List.sum_nil, hcv, hcl, hcr, hpv, hps]
    rcases hab with ⟨rfl, rfl⟩ | ⟨rfl, rfl⟩ <;> rfl
  · obtain ⟨h, v, hok⟩ := CalculateStateTreeOutput_returns root algorithm utcR stcR [] hsum
      hfoldR hr2 hr3 (by simp [hrp])
    obtain ⟨_, stc, items, -, h3, hitems, hv⟩ :=
      CalculateStateTreeOutput_value_eq root algorithm h v hok
    rw [hr3] at h3
    cases h3
    rw [hrp] at hitems
    have hi : items = [] := by
      cases items with
      | nil => rfl
      | cons q items => simp at hitems
    subst hi
    refine ⟨h, ?_⟩
    rw [hok, hv]
    simp only [List.map_nil, List.sum_nil, hrv]
    rcases hab with ⟨rfl, rfl⟩ | ⟨rfl, rfl⟩ <;>
      rcases hrs with ⟨hl, hr⟩ | ⟨hl, hr⟩ <;> rw [hl, hr] <;> rfl

/-! ## Runs on the sample inputs -/

/-- C1: a proof whose state-tree path holds an absent item, and which passes every check
before the recomputation, makes `VerifyUnitStateProof` stop with a run-time panic instead of
returning an error. -/
theorem VerifyUnitStateProof_absent_path_item_faults :
    (VerifyUnitStateProof toyCbor (some lostItemProof) toyAlgorithm (some sampleUnitData)
      (some toyValidator)).out = .fault nilDereference := by
  decide

theorem VerifyUnitStateProof_absent_early_witness :
    (VerifyUnitStateProof toyCbor (some { sampleProof with UnitTreeCert := none })
      toyAlgorithm (some sampleUnitData) (some toyValidator)).log = [] :=
  (VerifyUnitStateProof_absent_early toyCbor (some { sampleProof with UnitTreeCert := none })
    toyAlgorithm (some sampleUnitData) (some toyValidator)
    (Or.inr (Or.inr ⟨_, rfl, Or.inr (Or.inl rfl)⟩))).1

/-- C3 fails as stated: unit data that is present and empty is accepted when its hash is
the unit data hash of the proof, and the hasher has been run on it. -/
theorem VerifyUnitStateProof_accepts_empty_unit_data :
    sliceLen emptyUnitData.Data = 0 ∧
    (VerifyUnitStateProof toyCbor (some emptyDataProof) toyAlgorithm (some emptyUnitData)
      (some toyValidator)).out = .ok () ∧
    Event.hash [.raw emptyUnitData.Data] ∈
      (VerifyUnitStateProof toyCbor (some emptyDataProof) toyAlgorithm (some emptyUnitData)
        (some toyValidator)).log := by
  decide

theorem VerifyUnitStateProof_empty_unit_data_witness :
    ∃ d rest, sliceLen d = 0 ∧
      (VerifyUnitStateProof toyCbor (some emptyDataProof) toyAlgorithm (some emptyUnitData)
        (some toyValidator)).log =
        [.decode (some [2, 90, 0, 0, 0, 0, 0, 0, 0, 12]),
         .validate (toyCertificate (some (toyInputRecord [90] [0, 0, 0, 0, 0, 0, 0, 12]))),
         .hash [.raw d]] ++ rest :=
  (VerifyUnitStateProof_empty_unit_data toyCbor emptyDataProof toyAlgorithm emptyUnitData
    toyValidator [3] emptyDataUnitTreeCert sampleStateTreeCert
    [2, 90, 0, 0, 0, 0, 0, 0, 0, 12]
    (toyCertificate (some (toyInputRecord [90] [0, 0, 0, 0, 0, 0, 0, 12])))
    rfl rfl rfl rfl rfl rfl rfl).1

theorem CalculateStateTreeOutput_value_witness :
    ∃ utc stc, ∃ items : List StateTreePathItem,
      sampleProof.UnitTreeCert = some utc ∧ sampleProof.StateTreeCert = some stc ∧
      stc.Path = items.map some ∧
      12 = (sampleProof.UnitValue + stc.LeftSummaryValue + stc.RightSummaryValue +
        (items.map fun p => p.Value + p.SiblingSummaryValue).sum) % 2 ^ 64 :=
  (CalculateStateTreeOutput_value sampleProof toyAlgorithm (some [40]) 12 (by decide)).1

theorem CalculateStateTreeOutput_leaf_digest_witness :
    ∃ z,
      (sampleRootUnitTreeCert.TransactionRecordHash = none →
        z = toyAlgorithm.sumHashes
          [sampleRootProof.UnitLedgerHash, sampleRootUnitTreeCert.UnitDataHash]) ∧
      (∀ t, sampleRootUnitTreeCert.TransactionRecordHash = some t →
        z = toyAlgorithm.sumHashes
          [toyAlgorithm.sumHashes [sampleRootProof.UnitLedgerHash, some t],
            sampleRootUnitTreeCert.UnitDataHash]) ∧
      Event.plainTreeOutput sampleRootUnitTreeCert.Path z ∈
        (CalculateStateTreeOutput sampleRootProof toyAlgorithm).log ∧
      ∀ logRoot, toyAlgorithm.plainTreeOutput sampleRootUnitTreeCert.Path z = some logRoot →
        ∃ s rest, hashEvents (CalculateStateTreeOutput sampleRootProof toyAlgorithm).log =
          [.bytes sampleRootProof.UnitID, .bytes logRoot, .uint s,
            .bytes sampleRootStateTreeCert.LeftSummaryHash,
            .uint sampleRootStateTreeCert.LeftSummaryValue,
            .bytes sampleRootStateTreeCert.RightSummaryHash,
            .uint sampleRootStateTreeCert.RightSummaryValue] :: rest :=
  CalculateStateTreeOutput_leaf_digest sampleRootProof toyAlgorithm sampleRootUnitTreeCert
    sampleRootStateTreeCert rfl rfl

/-- C8 fails as stated: with a left summary value of 1 and a unit value of 5, the value
written into the first node hash is 6, not the unit value. -/
theorem CalculateStateTreeOutput_first_node_not_unit_value :
    leftSummaryProof.UnitValue = 5 ∧
    (hashEvents (CalculateStateTreeOutput leftSummaryProof toyAlgorithm).log).head? =
      some [.bytes (some [3]), .bytes (some [119]), .uint 6, .bytes none, .uint 1,
        .bytes none, .uint 0] := by
  decide

theorem CalculateStateTreeOutput_first_node_witness :
    (hashEvents (CalculateStateTreeOutput leftSummaryProof toyAlgorithm).log).head? =
      some [.bytes leftSummaryProof.UnitID, .bytes (some [119]),
        .uint ((leftSummaryProof.UnitValue + 1 + 0) % 2 ^ 64),
        .bytes none, .uint 1, .bytes none, .uint 0] :=
  (CalculateStateTreeOutput_first_node leftSummaryProof toyAlgorithm sampleUnitTreeCert
    { sampleStateTreeCert with LeftSummaryValue := 1 } (some [39]) (some [119])
    rfl rfl (by decide) (by decide)).1

theorem VerifyUnitStateProof_summary_value_witness :
    ∃ detail, (VerifyUnitStateProof toyCbor (some leftSummaryProof) toyAlgorithm
      (some sampleUnitData) (some toyValidator)).out =
        .error ("invalid summary value: " ++ detail) :=
  (VerifyUnitStateProof_summary_value toyCbor leftSummaryProof toyAlgorithm sampleUnitData
    toyValidator [3] sampleUnitTreeCert { sampleStateTreeCert with LeftSummaryValue := 1 }
    [2, 40, 0, 0, 0, 0, 0, 0, 0, 12]
    (toyCertificate (some (toyInputRecord [40] [0, 0, 0, 0, 0, 0, 0, 12])))
    (some [86]) (some [8]) 13 (toyInputRecord [40] [0, 0, 0, 0, 0, 0, 0, 12])
    rfl rfl rfl rfl rfl rfl rfl rfl (by decide) rfl).1 (by decide)

theorem CalculateStateTreeOutput_two_units_witness :
    (∃ h, (CalculateStateTreeOutput sampleProof toyAlgorithm).out = .ok (h, 12)) ∧
    (∃ h, (CalculateStateTreeOutput sampleRootProof toyAlgorithm).out = .ok (h, 12)) :=
  CalculateStateTreeOutput_two_units toyAlgorithm sampleProof sampleRootProof
    sampleUnitTreeCert sampleRootUnitTreeCert sampleStateTreeCert sampleRootStateTreeCert
    samplePathItem 5 7 (fun _ => ⟨_, rfl⟩) (fun _ => by simp [toyAlgorithm, sampleUnitTreeCert])
    (fun _ => by simp [toyAlgorithm, sampleRootUnitTreeCert]) (Or.inl ⟨rfl, rfl⟩)
    rfl rfl rfl rfl rfl rfl rfl rfl rfl rfl rfl (Or.inl ⟨rfl, rfl⟩) rfl

/-! ## Tampering with a path value -/

theorem Uint64ToBytes_injective (a b : Nat) (h : Uint64ToBytes a = Uint64ToBytes b) :
    a % 2 ^ 64 = b % 2 ^ 64 := by
  simp only [Uint64ToBytes, byteOf, List.cons.injEq, Fin.mk.injEq, and_true] at h
  obtain ⟨h7, h6, h5, h4, h3, h2, h1, h0⟩ := h
  norm_num at h7 h6 h5 h4 h3 h2 h1 h0 ⊢
  omega

theorem stateTreeLoop_no_fault (algorithm : HashAlgorithm) (id : Slice)
    (items : List StateTreePathItem) (h : Slice) (v : Nat) (e : String) :
    (stateTreeLoop algorithm id (items.map some) h v).out ≠ .fault e := by
  induction items generalizing h v with
  | nil => simp [stateTreeLoop, Run.pure_eq, Run.ret]
  | cons p items ih =>
    simp only [List.map_cons, stateTreeLoop, Run.bind_eq]
    rcases hstep : (pathStepHash algorithm id p h v).out with h1 | e1 | e1
    · rw [Run.andThen_of_ok _ _ h1 hstep]
      exact ih _ _
    · rw [Run.andThen_of_error _ _ e1 hstep]
      simp
    · exfalso
      unfold pathStepHash at hstep
      split at hstep <;> rw [computeHash_out] at hstep <;> split at hstep <;> simp at hstep

/-- The outcome of `VerifyUnitStateProof` once the unit data hash has matched: that of the
recomputation and of the two comparisons with the input record. -/
theorem VerifyUnitStateProof_out_after_data_hash (cbor : CborHandler) (p : UnitStateProof)
    (algorithm : HashAlgorithm) (sd : StateUnitData) (validator : UnicityCertificateValidator)
    (id : Bytes) (utc : UnitTreeCert) (stc : StateTreeCert) (data : Bytes)
    (uc : UnicityCertificate) (dataHash : Slice)
    (h1 : p.UnitID = some id) (h2 : p.UnitTreeCert = some utc)
    (h3 : p.StateTreeCert = some stc) (h4 : p.UnicityCertificate = some data)
    (huc : cbor.UnmarshalUC (some data) = .ok uc) (hval : validator.Validate uc = .ok ())
    (hdh : algorithm.sum [.raw sd.Data] = .ok dataHash)
    (h8 : contents utc.UnitDataHash = contents dataHash) :
    (VerifyUnitStateProof cbor (some p) algorithm (some sd) (some validator)).out =
      (match (CalculateStateTreeOutput p algorithm).out with
       | .ok hv =>
         (match uc.InputRecord with
          | none => .fault nilDereference
          | some ir =>
            if contents ir.SummaryValue = Uint64ToBytes hv.2 then
              (if contents hv.1 = contents ir.Hash then .ok ()
               else .error ("invalid state root hash: expected " ++ hexBytesUpper ir.Hash
                ++ ", got " ++ hexUpper (contents hv.1)))
            else .error ("invalid summary value: expected " ++ hexBytesUpper ir.SummaryValue
              ++ ", got " ++ hexUpper (Uint64ToBytes hv.2)))
       | .error e => .error ("failed to calculate state tree output: " ++ e)
       | .fault e => .fault e) := by
  obtain ⟨rest, hout, -, hrest⟩ := VerifyUnitStateProof_after_validation cbor p algorithm sd
    validator id utc stc data uc h1 h2 h3 h4 huc hval
  have h8' : bytesEqual utc.UnitDataHash dataHash = true := (bytesEqual_iff _ _).2 h8
  simp only [hdh, h8', Bool.not_true, Bool.false_eq_true, if_false] at hrest
  rw [hout, hrest]
  rcases hc : (CalculateStateTreeOutput p algorithm).out with ⟨h, v⟩ | e | e
  · have hw : (Run.wrap "failed to calculate state tree output: "
        (CalculateStateTreeOutput p algorithm)).out = .ok (h, v) :=
      (Run.wrap_out_ok _ _ _).2 hc
    rw [Run.andThen_of_ok _ _ (h, v) hw]
    rcases hir : uc.InputRecord with _ | ir
    · simp [Run.panic]
    · by_cases e1 : contents ir.SummaryValue = Uint64ToBytes v
      · have e1' : bytesEqual (some (Uint64ToBytes v)) ir.SummaryValue = true :=
          (bytesEqual_iff _ _).2 e1.symm
        by_cases e2 : contents h = contents ir.Hash
        · have e2' : bytesEqual h ir.Hash = true := (bytesEqual_iff _ _).2 e2
          simp [e1, e2, e1', e2', Run.ret]
        · have e2' : bytesEqual h ir.Hash = false := by
            simpa [bytesEqual] using e2
          simp [e1, e2, e1', e2', Run.fail]
      · have e1' : bytesEqual (some (Uint64ToBytes v)) ir.SummaryValue = false := by
          simp only [bytesEqual, contents, beq_eq_false_iff_ne, ne_eq]
          exact fun e => e1 e.symm
        simp [e1, e1', Run.fail]
  · have hw : (Run.wrap "failed to calculate state tree output: "
        (CalculateStateTreeOutput p algorithm)).out =
          .error ("failed to calculate state tree output: " ++ e) := by
      simp [Run.wrap, hc]
    rw [Run.andThen_of_error _ _ _ hw]
  · have hw : (Run.wrap "failed to calculate state tree output: "
        (CalculateStateTreeOutput p algorithm)).out = .fault e := by
      simp [Run.wrap, hc]
    rw [Run.andThen_of_fault _ _ _ hw]

/-- A run of `CalculateStateTreeOutput` does not stop with a panic when both certs are
present, the unit-tree fold returns and no item of the state-tree path is absent. -/
theorem CalculateStateTreeOutput_no_fault (u : UnitStateProof) (algorithm : HashAlgorithm)
    (utc : UnitTreeCert) (stc : StateTreeCert) (z logRoot : Slice)
    (items : List StateTreePathItem)
    (h2 : u.UnitTreeCert = some utc) (h3 : u.StateTreeCert = some stc)
    (hz : (leafLogDigest u utc algorithm).out = .ok z)
    (hroot : algorithm.plainTreeOutput utc.Path z = some logRoot)
    (hitems : stc.Path = items.map some) (e : String) :
    (CalculateStateTreeOutput u algorithm).out ≠ .fault e := by
  rw [CalculateStateTreeOutput_out u algorithm utc stc z logRoot h2 h3 hz hroot]
  cases algorithm.sum _ with
  | error e1 => simp
  | ok h =>
    simp only [hitems]
    exact stateTreeLoop_no_fault algorithm _ items _ _ e

/-- When the run returns, the unit-tree fold has returned. -/
theorem CalculateStateTreeOutput_ok_fold (u : UnitStateProof) (algorithm : HashAlgorithm)
    (utc : UnitTreeCert) (hv : Slice × Nat) (h2 : u.UnitTreeCert = some utc)
    (hok : (CalculateStateTreeOutput u algorithm).out = .ok hv) :
    ∃ z logRoot, (leafLogDigest u utc algorithm).out = .ok z ∧
      algorithm.plainTreeOutput utc.Path z = some logRoot := by
  obtain ⟨z, hz⟩ := leafLogDigest_ok u utc algorithm
  rcases hroot : algorithm.plainTreeOutput utc.Path z with _ | logRoot
  · exact absurd hok
      ((CalculateStateTreeOutput_hashEvents_of_fold_fault u algorithm utc z h2 hz hroot).2 hv)
  · exact ⟨z, logRoot, hz, hroot⟩

theorem map_some_eq_append_cons (items : List StateTreePathItem)
    (pre post : List (Option StateTreePathItem)) (p : StateTreePathItem)
    (h : items.map some = pre ++ some p :: post) :
    ∃ a b, pre = a.map some ∧ post = b.map some ∧ items = a ++ p :: b := by
  induction pre generalizing items with
  | nil =>
    cases items with
    | nil => simp at h
    | cons q items =>
      simp only [List.map_cons, List.nil_append, List.cons.injEq, Option.some.injEq] at h
      exact ⟨[], items, rfl, h.2.symm, by simp [h.1]⟩
  | cons o pre ih =>
    cases items with
    | nil => simp at h
    | cons q items =>
      simp only [List.map_cons, List.cons_append, List.cons.injEq] at h
      obtain ⟨a, b, ha, hb, hi⟩ := ih items h.2
      exact ⟨q :: a, b, by simp [ha, h.1], hb, by simp [hi]⟩

theorem withStatePath_fields (u : UnitStateProof) (stc : StateTreeCert)
    (path : List (Option StateTreePathItem)) (h3 : u.StateTreeCert = some stc) :
    (withStatePath u path).UnitID = u.UnitID ∧
    (withStatePath u path).UnitValue = u.UnitValue ∧
    (withStatePath u path).UnitLedgerHash = u.UnitLedgerHash ∧
    (withStatePath u path).UnitTreeCert = u.UnitTreeCert ∧
    (withStatePath u path).UnicityCertificate = u.UnicityCertificate ∧
    (withStatePath u path).StateTreeCert = some { stc with Path := path } := by
  simp [withStatePath, h3]

/-- A proof that verifies stops verifying, with an error, when one item of its state-tree
path is replaced by an item whose value and sibling summary value add up to something
else modulo `2^64`. -/
theorem VerifyUnitStateProof_replaced_item (cbor : CborHandler) (algorithm : HashAlgorithm)
    (unitData : Option StateUnitData) (ucv : Option UnicityCertificateValidator)
    (u : UnitStateProof) (stc : StateTreeCert) (pre post : List (Option StateTreePathItem))
    (p p' : StateTreePathItem)
    (h3 : u.StateTreeCert = some stc) (hpath : stc.Path = pre ++ some p :: post)
    (hne : (p'.Value + p'.SiblingSummaryValue) % 2 ^ 64 ≠
      (p.Value + p.SiblingSummaryValue) % 2 ^ 64)
    (hok : (VerifyUnitStateProof cbor (some u) algorithm unitData ucv).out = .ok ()) :
    ∃ msg, (VerifyUnitStateProof cbor (some (withStatePath u (pre ++ some p' :: post)))
      algorithm unitData ucv).out = .error msg := by
  obtain ⟨u0, id, utc, stc0, data, sd, uc, validator, dataHash, h, v, ir, hu, h1, h2, h30, h4,
    hsd, huc, hucv, hval, hdh, h8, hcalc, hir, -, hs⟩ := (VerifyUnitStateProof_ok_iff _ _ _ _ _).1 hok
  cases hu
  subst hsd hucv
  rw [h3] at h30
  cases h30
  obtain ⟨f1, f2, f3, f4, f5, f6⟩ :=
    withStatePath_fields u stc (pre ++ some p' :: post) h3
  obtain ⟨_, _, items, h2', h3', hitems, hv⟩ :=
    CalculateStateTreeOutput_value_eq u algorithm h v hcalc
  rw [h2] at h2'
  cases h2'
  rw [h3] at h3'
  cases h3'
  rw [hpath] at hitems
  obtain ⟨a, b, ha, hb, hi⟩ := map_some_eq_append_cons items pre post p hitems.symm
  obtain ⟨z, logRoot, hz, hroot⟩ := CalculateStateTreeOutput_ok_fold u algorithm utc _ h2 hcalc
  have hz' : (leafLogDigest (withStatePath u (pre ++ some p' :: post)) utc algorithm).out
      = .ok z := by
    simpa [leafLogDigest, f3] using hz
  have hpath' : ({ stc with Path := pre ++ some p' :: post } : StateTreeCert).Path =
      (a ++ p' :: b).map some := by
    simp [ha, hb]
  rw [VerifyUnitStateProof_out_after_data_hash cbor _ algorithm sd validator id utc
    { stc with Path := pre ++ some p' :: post } data uc dataHash (f1.trans h1) (f4.trans h2) f6
    (f5.trans h4) huc hval hdh h8]
  rcases hc : (CalculateStateTreeOutput (withStatePath u (pre ++ some p' :: post))
      algorithm).out with ⟨h', v'⟩ | e | e
  · obtain ⟨_, stc', items', -, h3'', hitems', hv'⟩ :=
      CalculateStateTreeOutput_value_eq _ algorithm h' v' hc
    rw [f6] at h3''
    cases h3''
    rw [hpath'] at hitems'
    have hi' : items' = a ++ p' :: b :=
      ((Option.some_injective _).list_map hitems').symm
    have hvv : v' ≠ v := by
      rw [hv, hv', hi, hi', f2]
      simp only [List.map_append, List.map_cons, List.sum_append, List.sum_cons]
      omega
    have hbytes : contents ir.SummaryValue ≠ Uint64ToBytes v' := by
      rw [hs]
      intro e
      have := Uint64ToBytes_injective _ _ e
      rw [hv, hv'] at this
      rw [hv, hv'] at hvv
      simp only [Nat.mod_mod] at this
      exact hvv this.symm
    simp only [hir, if_neg hbytes]
    exact ⟨_, rfl⟩
  · exact ⟨_, rfl⟩
  · exact absurd hc (CalculateStateTreeOutput_no_fault _ algorithm utc
      { stc with Path := pre ++ some p' :: post } z logRoot (a ++ p' :: b) (f4.trans h2) f6 hz'
      hroot hpath' e)

/-- C11: if a proof verifies against a unit data and a validator, then the proof that
differs from it only in the `Value`, or only in the `SiblingSummaryValue`, of one item of
the state-tree path fails verification against the same unit data and validator with an
error: the two runs never both succeed. Values are `uint64`, below `2^64`. -/
theorem VerifyUnitStateProof_tampered_path_value (cbor : CborHandler)
    (algorithm : HashAlgorithm) (unitData : Option StateUnitData)
    (ucv : Option UnicityCertificateValidator) (u : UnitStateProof) (stc : StateTreeCert)
    (pre post : List (Option StateTreePathItem)) (p : StateTreePathItem) (x : Nat)
    (h3 : u.StateTreeCert = some stc) (hpath : stc.Path = pre ++ some p :: post)
    (hp : p.Value < 2 ^ 64 ∧ p.SiblingSummaryValue < 2 ^ 64) (hx : x < 2 ^ 64)
    (hok : (VerifyUnitStateProof cbor (some u) algorithm unitData ucv).out = .ok ()) :
    (x ≠ p.Value →
      ∃ msg, (VerifyUnitStateProof cbor
        (some (withStatePath u (pre ++ some { p with Value := x } :: post)))
        algorithm unitData ucv).out = .error msg) ∧
    (x ≠ p.SiblingSummaryValue →
      ∃ msg, (VerifyUnitStateProof cbor
        (some (withStatePath u (pre ++ some { p with SiblingSummaryValue := x } :: post)))
        algorithm unitData ucv).out = .error msg) := by
  constructor
  · intro hne
    apply VerifyUnitStateProof_replaced_item cbor algorithm unitData ucv u stc pre post p
      { p with Value := x } h3 hpath _ hok
    simp only
    omega
  · intro hne
    apply VerifyUnitStateProof_replaced_item cbor algorithm unitData ucv u stc pre post p
      { p with SiblingSummaryValue := x } h3 hpath _ hok
    simp only
    omega

theorem VerifyUnitStateProof_tampered_path_value_witness :
    ∃ msg, (VerifyUnitStateProof toyCbor
      (some (withStatePath sampleProof ([] ++ some { samplePathItem with Value := 8 } :: [])))
      toyAlgorithm (some sampleUnitData) (some toyValidator)).out = .error msg :=
  (VerifyUnitStateProof_tampered_path_value toyCbor toyAlgorithm (some sampleUnitData)
    (some toyValidator) sampleProof sampleStateTreeCert [] [] samplePathItem 8 rfl rfl
    (by decide) (by decide) (by decide)).1 (by decide)

/-- C12: `VerifyUnitStateProof` stops with a run-time panic, and returns no error, when no
validator is supplied, when the decoded and accepted certificate carries no input record,
and when the state-tree path holds an absent item. -/
theorem VerifyUnitStateProof_faults_on_absent_values :
    (VerifyUnitStateProof toyCbor (some sampleProof) toyAlgorithm (some sampleUnitData)
      none).out = .fault nilDereference ∧
    (VerifyUnitStateProof toyCbor (some noRecordProof) toyAlgorithm (some sampleUnitData)
      (some toyValidator)).out = .fault nilDereference ∧
    (VerifyUnitStateProof toyCbor (some absentItemProof) toyAlgorithm (some sampleUnitData)
      (some toyValidator)).out = .fault nilDereference := by
  decide

/-! ## Tagged envelopes -/

/-- C13: for every expected tag and every well-formed tagged envelope whose tag number
differs from it, `UnmarshalTaggedValue` returns the error that names the actual and the
expected tag, and the target is left as it was: the content is not decoded into it. -/
theorem UnmarshalTaggedValue_tag_mismatch {τ : Type} (c : CborLibrary τ)
    (getVersion : Option (τ → Nat)) (tag : Nat) (data : Slice) (v : τ) (raw : RawTag)
    (hraw : c.unmarshalRawTag data = .ok raw) (hne : raw.Number ≠ tag) :
    UnmarshalTaggedValue c getVersion tag data v =
      (some ("unexpected tag: " ++ decimal raw.Number ++ ", expected: " ++ decimal tag), v) := by
  simp [UnmarshalTaggedValue, hraw, hne]

theorem UnmarshalTaggedValue_tag_mismatch_witness :
    UnmarshalTaggedValue toyLibrary (some fun u => UnitStateProof.GetVersion (some u)) 7
      (some [9, 1]) sampleProof =
      (some "unexpected tag: 9, expected: 7", sampleProof) :=
  UnmarshalTaggedValue_tag_mismatch toyLibrary _ 7 (some [9, 1]) sampleProof
    { Number := 9, Content := some [1] } rfl (by decide)

/-- C14: for every envelope with the expected tag whose content decodes into a versioned
target, `UnmarshalTaggedValue` returns the error 'version number cannot be zero' exactly
when `GetVersion` of the target is 0 after the decoding, and returns no error otherwise. -/
theorem UnmarshalTaggedValue_version_zero {τ : Type} (c : CborLibrary τ)
    (get : τ → Nat) (tag : Nat) (data : Slice) (v v' : τ) (raw : RawTag)
    (hraw : c.unmarshalRawTag data = .ok raw) (htag : raw.Number = tag)
    (hdec : c.unmarshal raw.Content v = (none, v')) :
    (get v' = 0 → UnmarshalTaggedValue c (some get) tag data v =
      (some "version number cannot be zero", v')) ∧
    (get v' ≠ 0 → UnmarshalTaggedValue c (some get) tag data v = (none, v')) ∧
    ((UnmarshalTaggedValue c (some get) tag data v).1 = some "version number cannot be zero"
      ↔ get v' = 0) := by
  refine ⟨?_, ?_, ?_⟩
  · intro h0
    simp [UnmarshalTaggedValue, hraw, htag, hdec, h0]
  · intro h0
    simp [UnmarshalTaggedValue, hraw, htag, hdec, h0]
  · by_cases h0 : get v' = 0 <;> simp [UnmarshalTaggedValue, hraw, htag, hdec, h0]

theorem UnmarshalTaggedValue_version_zero_witness :
    UnmarshalTaggedValue toyLibrary (some fun u => u.Version) 7 (some [7, 0]) sampleProof =
      (some "version number cannot be zero", { sampleProof with Version := 0 }) :=
  (UnmarshalTaggedValue_version_zero toyLibrary (fun u => u.Version) 7 (some [7, 0])
    sampleProof { sampleProof with Version := 0 } { Number := 7, Content := some [0] }
    rfl rfl rfl).1 rfl

/-- C15: for every envelope with the tag of `UnitStateProof` whose content decodes,
`UnitStateProof.UnmarshalCBOR` returns an error whenever the decoded `Version` is not 1,
also when it is 0, and returns no error when it is 1. -/
theorem UnitStateProof_UnmarshalCBOR_version (c : CborLibrary UnitStateProof)
    (tag : Nat) (u u' : UnitStateProof) (data : Slice) (raw : RawTag)
    (hraw : c.unmarshalRawTag data = .ok raw) (htag : raw.Number = tag)
    (hdec : c.unmarshal raw.Content u = (none, u')) :
    (u'.Version = 1 → UnitStateProof.UnmarshalCBOR c tag u data = (none, u')) ∧
    (u'.Version ≠ 1 → UnitStateProof.UnmarshalCBOR c tag u data =
      (some ("invalid version (type *types.UnitStateProof), expected 1, got "
        ++ decimal u'.Version), u')) ∧
    (u'.Version = 0 → UnitStateProof.UnmarshalCBOR c tag u data =
      (some "invalid version (type *types.UnitStateProof), expected 1, got 0", u')) := by
  have h : UnmarshalTaggedValue c none tag data u = (none, u') := by
    simp [UnmarshalTaggedValue, hraw, htag, hdec]
  refine ⟨?_, ?_, ?_⟩
  · intro h1
    simp [UnitStateProof.UnmarshalCBOR, h, EnsureVersion, h1]
  · intro h1
    have hs : "invalid version (type " ++ "*types.UnitStateProof" ++ "), expected "
        ++ decimal 1 ++ ", got " =
        "invalid version (type *types.UnitStateProof), expected 1, got " := by decide
    simp only [UnitStateProof.UnmarshalCBOR, h, EnsureVersion, if_pos h1, hs]
  · intro h0
    simp only [UnitStateProof.UnmarshalCBOR, h, EnsureVersion, h0]
    congr 1

theorem UnitStateProof_UnmarshalCBOR_version_witness :
    UnitStateProof.UnmarshalCBOR toyLibrary 7 sampleProof (some [7, 2]) =
      (some "invalid version (type *types.UnitStateProof), expected 1, got 2",
        { sampleProof with Version := 2 }) ∧
    UnitStateProof.UnmarshalCBOR toyLibrary 7 sampleProof (some [7, 1]) =
      (none, { sampleProof with Version := 1 }) :=
  ⟨by decide, (UnitStateProof_UnmarshalCBOR_version toyLibrary 7 sampleProof
    { sampleProof with Version := 1 } (some [7, 1]) { Number := 7, Content := some [1] }
    rfl rfl rfl).1 rfl⟩

/-! ## `RawCBOR` -/

/-- C16: `RawCBOR.MarshalCBOR` never fails; it returns the single byte `0xf6`, CBOR nil,
when `r` is empty, nil or of length zero, and `r` itself, so exactly its bytes,
otherwise. -/
theorem RawCBOR_MarshalCBOR_eq (r : Slice) :
    (sliceLen r = 0 → RawCBOR.MarshalCBOR r = .ok (some [0xf6])) ∧
    (sliceLen r ≠ 0 → RawCBOR.MarshalCBOR r = .ok r) ∧
    ∃ out, RawCBOR.MarshalCBOR r = .ok out := by
  refine ⟨?_, ?_, ?_⟩
  · intro h
    simp [RawCBOR.MarshalCBOR, h, cborNil]
  · intro h
    simp [RawCBOR.MarshalCBOR, h]
  · by_cases h : sliceLen r = 0
    · exact ⟨cborNil, by simp [RawCBOR.MarshalCBOR, h]⟩
    · exact ⟨r, by simp [RawCBOR.MarshalCBOR, h]⟩

/-- C17 fails as stated: the value of the single byte `0xf6` is written as that byte and
read back as the empty value. -/
theorem RawCBOR_roundtrip_loses_nil_marker :
    RawCBOR.MarshalCBOR (some [0xf6]) = .ok (some [0xf6]) ∧
    RawCBOR.UnmarshalCBOR (some none) (some [0xf6]) = .ok none ∧
    contents (some [0xf6]) ≠ contents none :=
  ⟨rfl, rfl, by decide⟩

/-- C17, as amended: for every `RawCBOR` value `r` other than the single byte `0xf6`,
`UnmarshalCBOR`, on a pointer that is not nil and whatever it held, applied to the output
of `r.MarshalCBOR()` succeeds and yields a value with exactly the bytes of `r`; for the
single byte `0xf6` it succeeds and yields the empty value. -/
theorem RawCBOR_roundtrip (r old : Slice) :
    ∃ enc out, RawCBOR.MarshalCBOR r = .ok enc ∧
      RawCBOR.UnmarshalCBOR (some old) enc = .ok out ∧
      (contents r ≠ [0xf6] → contents out = contents r) ∧
      (contents r = [0xf6] → contents out = []) := by
  by_cases h0 : sliceLen r = 0
  · refine ⟨cborNil, resliceEmpty old, by simp [RawCBOR.MarshalCBOR, h0], ?_, ?_, ?_⟩
    · simp [RawCBOR.UnmarshalCBOR, bytesEqual]
    · intro _
      have hr : contents r = [] := List.length_eq_zero.1 h0
      rw [hr]
      cases old <;> rfl
    · intro _
      cases old <;> rfl
  · by_cases hm : contents r = [0xf6]
    · refine ⟨r, resliceEmpty old, by simp [RawCBOR.MarshalCBOR, h0], ?_, ?_, ?_⟩
      · have hb : bytesEqual r cborNil = true := by
          rw [bytesEqual_iff, hm]
          rfl
        simp [RawCBOR.UnmarshalCBOR, hb]
      · intro h
        exact absurd hm h
      · intro _
        cases old <;> rfl
    · have hne : contents r ≠ [] := fun e => h0 (by simp [sliceLen, e])
      refine ⟨r, some (contents r), by simp [RawCBOR.MarshalCBOR, h0], ?_, ?_, ?_⟩
      · have hb : bytesEqual r cborNil = false := by
          simpa [bytesEqual, cborNil, contents] using hm
        simp only [RawCBOR.UnmarshalCBOR, hb, Bool.false_eq_true, if_false, appendBytes,
          if_neg hne]
        cases old <;> rfl
      · intro _
        rfl
      · intro h
        exact absurd h hm

/-! ## The signer -/

/-- C18: `NewInMemorySecp256K1SignerFromKey` returns a signer exactly when the private key
is 32 bytes long, and the 'invalid private key length' error for every other length, also
for an empty or absent key; `MarshalPrivateKey` of the signer it returns gives back the
key that was supplied. -/
theorem NewInMemorySecp256K1SignerFromKey_eq (privKey : Slice) :
    ((∃ s, NewInMemorySecp256K1SignerFromKey privKey = .ok s) ↔ sliceLen privKey = 32) ∧
    (sliceLen privKey ≠ 32 → NewInMemorySecp256K1SignerFromKey privKey =
      .error ("invalid private key length. Is " ++ decimal (sliceLen privKey)
        ++ " (expected 32)")) ∧
    (∀ s, NewInMemorySecp256K1SignerFromKey privKey = .ok s →
      InMemorySecp256K1Signer.MarshalPrivateKey (some s) = .ok privKey) ∧
    NewInMemorySecp256K1SignerFromKey none =
      .error "invalid private key length. Is 0 (expected 32)" ∧
    NewInMemorySecp256K1SignerFromKey (some []) =
      .error "invalid private key length. Is 0 (expected 32)" := by
  have hs : " (expected " ++ decimal PrivateKeySecp256K1Size ++ ")" = " (expected 32)" := by
    decide
  refine ⟨?_, ?_, ?_, rfl, rfl⟩
  · by_cases h : sliceLen privKey = 32 <;>
      simp [NewInMemorySecp256K1SignerFromKey, PrivateKeySecp256K1Size, h]
  · intro h
    simp only [NewInMemorySecp256K1SignerFromKey, PrivateKeySecp256K1Size, ne_eq, h,
      not_false_eq_true, if_true, String.append_assoc]
    simp only [PrivateKeySecp256K1Size, String.append_assoc] at hs
    rw [hs]
  · intro s hok
    by_cases h : sliceLen privKey = 32
    · simp only [NewInMemorySecp256K1SignerFromKey, PrivateKeySecp256K1Size, ne_eq, h,
        not_true_eq_false, if_false, Except.ok.injEq] at hok
      subst hok
      rfl
    · simp [NewInMemorySecp256K1SignerFromKey, PrivateKeySecp256K1Size, h] at hok

/-! ## Input records -/

/-- C19: for an input record that is otherwise valid (present, with a version, a summary
value, a round number and a timestamp), `IsValid` fails with 'block hash is nil but state
hash changed' when the hash differs from the previous hash and the block hash is empty,
fails with "state hash didn't change but block hash is not nil" when the hash equals the
previous hash and the block hash is not empty, and succeeds in the two other cases. -/
theorem InputRecord_IsValid_block_hash (r : InputRecord)
    (hver : r.Version ≠ 0) (hsum : r.SummaryValue ≠ none) (hround : r.RoundNumber ≠ 0)
    (htime : r.Timestamp ≠ 0) :
    (contents r.Hash ≠ contents r.PreviousHash → sliceLen r.BlockHash = 0 →
      InputRecord.IsValid (some r) = some "block hash is nil but state hash changed") ∧
    (contents r.Hash = contents r.PreviousHash → sliceLen r.BlockHash ≠ 0 →
      InputRecord.IsValid (some r) =
        some "state hash didn't change but block hash is not nil") ∧
    (contents r.Hash = contents r.PreviousHash → sliceLen r.BlockHash = 0 →
      InputRecord.IsValid (some r) = none) ∧
    (contents r.Hash ≠ contents r.PreviousHash → sliceLen r.BlockHash ≠ 0 →
      InputRecord.IsValid (some r) = none) := by
  refine ⟨?_, ?_, ?_, ?_⟩
  · intro hne hb
    have he : bytesEqual r.PreviousHash r.Hash = false := by
      simp only [bytesEqual, beq_eq_false_iff_ne, ne_eq]
      exact fun e => hne e.symm
    simp [InputRecord.IsValid, hver, hsum, hround, htime, he, hb]
  · intro heq hb
    have he : bytesEqual r.PreviousHash r.Hash = true := (bytesEqual_iff _ _).2 heq.symm
    simp [InputRecord.IsValid, hver, hsum, hround, htime, he, hb]
  · intro heq hb
    have he : bytesEqual r.PreviousHash r.Hash = true := (bytesEqual_iff _ _).2 heq.symm
    simp [InputRecord.IsValid, hver, hsum, hround, htime, he, hb]
  · intro hne hb
    have he : bytesEqual r.PreviousHash r.Hash = false := by
      simp only [bytesEqual, beq_eq_false_iff_ne, ne_eq]
      exact fun e => hne e.symm
    simp [InputRecord.IsValid, hver, hsum, hround, htime, he, hb]

theorem InputRecord_IsValid_block_hash_witness :
    InputRecord.IsValid (some testRecordChanged) =
      some "block hash is nil but state hash changed" :=
  (InputRecord_IsValid_block_hash testRecordChanged (by decide) (by decide) (by decide)
    (by decide)).1 (by decide) (by decide)

/-- C20: `AssertEqualIR` returns no error exactly when the two records agree in previous
hash, state hash, block hash, summary value, round number, sum of earned fees, timestamp
and epoch; when they differ in one of these fields and agree in those compared before it,
it returns the error that names that field and renders both values; `EqualIR` returns true
when the records agree in all of them and false when the previous hash, hash, block hash,
summary value, round number or sum of earned fees differ. -/
theorem AssertEqualIR_field_by_field (a b : InputRecord) :
    ((contents a.PreviousHash = contents b.PreviousHash ∧ contents a.Hash = contents b.Hash ∧
      contents a.BlockHash = contents b.BlockHash ∧
      contents a.SummaryValue = contents b.SummaryValue ∧
      a.RoundNumber = b.RoundNumber ∧ a.SumOfEarnedFees = b.SumOfEarnedFees ∧
      a.Timestamp = b.Timestamp ∧ a.Epoch = b.Epoch) ↔ AssertEqualIR a b = none) ∧
    (AssertEqualIR a b = none ↔ EqualIR a b = (true, none)) ∧
    (contents a.PreviousHash ≠ contents b.PreviousHash →
      AssertEqualIR a b = some ("previous state hash is different: "
        ++ hexBytesUpper a.PreviousHash ++ " vs " ++ hexBytesUpper b.PreviousHash)) ∧
    (contents a.PreviousHash = contents b.PreviousHash → contents a.Hash ≠ contents b.Hash →
      AssertEqualIR a b = some ("state hash is different: "
        ++ hexBytesUpper a.Hash ++ " vs " ++ hexBytesUpper b.Hash)) ∧
    (contents a.PreviousHash = contents b.PreviousHash → contents a.Hash = contents b.Hash →
      contents a.BlockHash ≠ contents b.BlockHash →
      AssertEqualIR a b = some ("block hash is different: "
        ++ hexBytesUpper a.BlockHash ++ " vs " ++ hexBytesUpper b.BlockHash)) ∧
    (contents a.PreviousHash = contents b.PreviousHash → contents a.Hash = contents b.Hash →
      contents a.BlockHash = contents b.BlockHash →
      contents a.SummaryValue ≠ contents b.SummaryValue →
      AssertEqualIR a b = some ("summary value is different: "
        ++ decimalList (contents a.SummaryValue) ++ " vs "
        ++ decimalList (contents b.SummaryValue))) ∧
    (contents a.PreviousHash = contents b.PreviousHash → contents a.Hash = contents b.Hash →
      contents a.BlockHash = contents b.BlockHash →
      contents a.SummaryValue = contents b.SummaryValue →
      a.RoundNumber ≠ b.RoundNumber →
      AssertEqualIR a b = some ("round number is different: "
        ++ decimal a.RoundNumber ++ " vs " ++ decimal b.RoundNumber)) ∧
    (contents a.PreviousHash = contents b.PreviousHash → contents a.Hash = contents b.Hash →
      contents a.BlockHash = contents b.BlockHash →
      contents a.SummaryValue = contents b.SummaryValue →
      a.RoundNumber = b.RoundNumber → a.SumOfEarnedFees ≠ b.SumOfEarnedFees →
      AssertEqualIR a b = some ("sum of fees is different: "
        ++ decimal a.SumOfEarnedFees ++ " vs " ++ decimal b.SumOfEarnedFees)) ∧
    (contents a.PreviousHash = contents b.PreviousHash → contents a.Hash = contents b.Hash →
      contents a.BlockHash = contents b.BlockHash →
      contents a.SummaryValue = contents b.SummaryValue →
      a.RoundNumber = b.RoundNumber → a.SumOfEarnedFees = b.SumOfEarnedFees →
      a.Timestamp ≠ b.Timestamp →
      AssertEqualIR a b = some ("timestamp is different: "
        ++ decimal a.Timestamp ++ " vs " ++ decimal b.Timestamp)) ∧
    (contents a.PreviousHash = contents b.PreviousHash → contents a.Hash = contents b.Hash →
      contents a.BlockHash = contents b.BlockHash →
      contents a.SummaryValue = contents b.SummaryValue →
      a.RoundNumber = b.RoundNumber → a.SumOfEarnedFees = b.SumOfEarnedFees →
      a.Timestamp = b.Timestamp → a.Epoch ≠ b.Epoch →
      AssertEqualIR a b = some ("epoch is different: "
        ++ decimal a.Epoch ++ " vs " ++ decimal b.Epoch)) ∧
    ((contents a.PreviousHash ≠ contents b.PreviousHash ∨ contents a.Hash ≠ contents b.Hash ∨
      contents a.BlockHash ≠ contents b.BlockHash ∨
      contents a.SummaryValue ≠ contents b.SummaryValue ∨
      a.RoundNumber ≠ b.RoundNumber ∨ a.SumOfEarnedFees ≠ b.SumOfEarnedFees) →
      EqualIR a b = (false, none)) := by
  have key : ∀ x y : Slice, contents x = contents y → bytesEqual x y = true :=
    fun x y => (bytesEqual_iff x y).2
  have key' : ∀ x y : Slice, contents x ≠ contents y → bytesEqual x y = false := by
    intro x y h
    simpa [bytesEqual] using h
  refine ⟨?_, ?_, ?_, ?_, ?_, ?_, ?_, ?_, ?_, ?_, ?_⟩
  · by_cases h1 : contents a.PreviousHash = contents b.PreviousHash
    · by_cases h2 : contents a.Hash = contents b.Hash
      · by_cases h3 : contents a.BlockHash = contents b.BlockHash
        · by_cases h4 : contents a.SummaryValue = contents b.SummaryValue
          · by_cases h5 : a.RoundNumber = b.RoundNumber
            · by_cases h6 : a.SumOfEarnedFees = b.SumOfEarnedFees
              · by_cases h7 : a.Timestamp = b.Timestamp
                · by_cases h8 : a.Epoch = b.Epoch
                  · simp [AssertEqualIR, key _ _ h1, key _ _ h2, key _ _ h3, key _ _ h4, h1, h2,
                      h3, h4, h5, h6, h7, h8]
                  · simp [AssertEqualIR, key _ _ h1, key _ _ h2, key _ _ h3, key _ _ h4, h1, h2,
                      h3, h4, h5, h6, h7, h8]
                · simp [AssertEqualIR, key _ _ h1, key _ _ h2, key _ _ h3, key _ _ h4, h1, h2,
                    h3, h4, h5, h6, h7]
              · simp [AssertEqualIR, key _ _ h1, key _ _ h2, key _ _ h3, key _ _ h4, h1, h2, h3,
                  h4, h5, h6]
            · simp [AssertEqualIR, key _ _ h1, key _ _ h2, key _ _ h3, key _ _ h4, h1, h2, h3,
                h4, h5]
          · simp [AssertEqualIR, key _ _ h1, key _ _ h2, key _ _ h3, key' _ _ h4, h1, h2, h3, h4]
        · simp [AssertEqualIR, key _ _ h1, key _ _ h2, key' _ _ h3, h1, h2, h3]
      · simp [AssertEqualIR, key _ _ h1, key' _ _ h2, h1, h2]
    · simp [AssertEqualIR, key' _ _ h1, h1]
  · simp only [AssertEqualIR, EqualIR]
    by_cases h1 : bytesEqual a.PreviousHash b.PreviousHash = true <;>
    by_cases h2 : bytesEqual a.Hash b.Hash = true <;>
    by_cases h3 : bytesEqual a.BlockHash b.BlockHash = true <;>
    by_cases h4 : bytesEqual a.SummaryValue b.SummaryValue = true <;>
    by_cases h5 : a.RoundNumber = b.RoundNumber <;>
    by_cases h6 : a.SumOfEarnedFees = b.SumOfEarnedFees <;>
    by_cases h7 : a.Timestamp = b.Timestamp <;>
    by_cases h8 : a.Epoch = b.Epoch <;>
    simp [h1, h2, h3, h4, h5, h6, h7, h8]
  · intro h1
    simp [AssertEqualIR, key' _ _ h1]
  · intro h1 h2
    simp [AssertEqualIR, key _ _ h1, key' _ _ h2]
  · intro h1 h2 h3
    simp [AssertEqualIR, key _ _ h1, key _ _ h2, key' _ _ h3]
  · intro h1 h2 h3 h4
    simp [AssertEqualIR, key _ _ h1, key _ _ h2, key _ _ h3, key' _ _ h4]
  · intro h1 h2 h3 h4 h5
    simp [AssertEqualIR, key _ _ h1, key _ _ h2, key _ _ h3, key _ _ h4, h5]
  · intro h1 h2 h3 h4 h5 h6
    simp [AssertEqualIR, key _ _ h1, key _ _ h2, key _ _ h3, key _ _ h4, h5, h6]
  · intro h1 h2 h3 h4 h5 h6 h7
    simp [AssertEqualIR, key _ _ h1, key _ _ h2, key _ _ h3, key _ _ h4, h5, h6, h7]
  · intro h1 h2 h3 h4 h5 h6 h7 h8
    simp [AssertEqualIR, key _ _ h1, key _ _ h2, key _ _ h3, key _ _ h4, h5, h6, h7, h8]
  · intro h
    simp only [EqualIR, Prod.mk.injEq, and_true]
    rcases h with h | h | h | h | h | h
    · simp [key' _ _ h]
    · simp [key' _ _ h]
    · simp [key' _ _ h]
    · simp [key' _ _ h]
    · simp [h]
    · simp [h]

/-- The messages of the test `Test_AssertEqualIR`, from the theorem above. -/
theorem AssertEqualIR_field_by_field_witness :
    AssertEqualIR testRecordA { testRecordA with PreviousHash := some [1, 1] } =
      some "previous state hash is different: 010101 vs 0101" ∧
    AssertEqualIR testRecordA { testRecordA with SummaryValue := some [] } =
      some "summary value is different: [4 4 4] vs []" ∧
    AssertEqualIR testRecordA { testRecordA with Epoch := 10 } =
      some "epoch is different: 1 vs 10" ∧
    AssertEqualIR testRecordA testRecordA = none :=
  ⟨((AssertEqualIR_field_by_field testRecordA
      { testRecordA with PreviousHash := some [1, 1] }).2.2.1 (by decide)).trans (by decide),
    by decide, by decide, by decide⟩

/-! ## The comparison at each step of the state-tree path -/

theorem bytesCompare_self (a : Bytes) : bytesCompare a a = 0 := by
  induction a with
  | nil => rfl
  | cons x a ih => simp [bytesCompare, ih]

/-- The run over a state-tree path is the run up to a step, then the hash of that step,
then the rest of the loop from it. -/
theorem CalculateStateTreeOutput_step (u : UnitStateProof) (algorithm : HashAlgorithm)
    (pre post : List (Option StateTreePathItem)) (p : StateTreePathItem) :
    CalculateStateTreeOutput (withStatePath u (pre ++ some p :: post)) algorithm =
      (CalculateStateTreeOutput (withStatePath u pre) algorithm).andThen fun hv =>
        (pathStepHash algorithm u.UnitID p hv.1 hv.2).andThen fun parent =>
          stateTreeLoop algorithm u.UnitID post parent
            (add64 (add64 p.Value hv.2) p.SiblingSummaryValue) := by
  rw [CalculateStateTreeOutput_withStatePath]
  simp only [stateTreeLoop, Run.bind_eq]

/-- C26: at every step of the state-tree path the left or right slot is chosen by
comparing the unit id of the proof with the unit id of that step's item: whatever the
items before the step, the hash of the step has the current hash on the left exactly when
`UnitID.Compare` of the proof's unit id with the item's unit id is `-1`. -/
theorem CalculateStateTreeOutput_compares_proof_id (u : UnitStateProof)
    (algorithm : HashAlgorithm) (pre post : List (Option StateTreePathItem))
    (p : StateTreePathItem) :
    CalculateStateTreeOutput (withStatePath u (pre ++ some p :: post)) algorithm =
      (CalculateStateTreeOutput (withStatePath u pre) algorithm).andThen fun hv =>
        (if bytesCompare (contents u.UnitID) (contents p.UnitID) = -1 then
          computeHash algorithm p.UnitID p.LogsHash
            ((p.Value + hv.2 + p.SiblingSummaryValue) % 2 ^ 64)
            hv.1 hv.2 p.SiblingSummaryHash p.SiblingSummaryValue
         else
          computeHash algorithm p.UnitID p.LogsHash
            ((p.Value + hv.2 + p.SiblingSummaryValue) % 2 ^ 64)
            p.SiblingSummaryHash p.SiblingSummaryValue hv.1 hv.2).andThen fun parent =>
              stateTreeLoop algorithm u.UnitID post parent
                ((p.Value + hv.2 + p.SiblingSummaryValue) % 2 ^ 64) := by
  rw [CalculateStateTreeOutput_step]
  simp only [pathStepHash, UnitIDCompare, add64_add64]

/-- The second step of a path whose first item has a greater unit id than the second:
the proof's unit id `3` is below the second item's `5`, so the current hash and value are
on the left, although the first item's unit id `9` is above `5`. -/
theorem CalculateStateTreeOutput_compares_proof_id_witness :
    (hashEvents (CalculateStateTreeOutput
      (withStatePath sampleProof ([some samplePathItem] ++ some lowerPathItem :: []))
      toyAlgorithm).log).getLast? =
      some [.bytes (some [5]), .bytes (some [6]), .uint 15, .bytes (some [40]), .uint 12,
        .bytes (some [7]), .uint 2] ∧
    CalculateStateTreeOutput
        (withStatePath sampleProof ([some samplePathItem] ++ some lowerPathItem :: []))
        toyAlgorithm =
      (CalculateStateTreeOutput (withStatePath sampleProof [some samplePathItem])
        toyAlgorithm).andThen fun hv =>
        (if bytesCompare (contents sampleProof.UnitID) (contents lowerPathItem.UnitID) = -1 then
          computeHash toyAlgorithm lowerPathItem.UnitID lowerPathItem.LogsHash
            ((lowerPathItem.Value + hv.2 + lowerPathItem.SiblingSummaryValue) % 2 ^ 64)
            hv.1 hv.2 lowerPathItem.SiblingSummaryHash lowerPathItem.SiblingSummaryValue
         else
          computeHash toyAlgorithm lowerPathItem.UnitID lowerPathItem.LogsHash
            ((lowerPathItem.Value + hv.2 + lowerPathItem.SiblingSummaryValue) % 2 ^ 64)
            lowerPathItem.SiblingSummaryHash lowerPathItem.SiblingSummaryValue
            hv.1 hv.2).andThen fun parent =>
              stateTreeLoop toyAlgorithm sampleProof.UnitID [] parent
                ((lowerPathItem.Value + hv.2 + lowerPathItem.SiblingSummaryValue) % 2 ^ 64) :=
  ⟨by decide, CalculateStateTreeOutput_compares_proof_id sampleProof toyAlgorithm
    [some samplePathItem] [] lowerPathItem⟩

/-! ## Encoding of a proof -/

/-- C27: `UnitStateProof.MarshalCBOR` changes the proof it is called on in one way only: a
`Version` of 0 becomes 1, the default that `GetVersion` returns; every other field is left
as it was, and a proof whose `Version` is not 0 is not modified at all, whatever the
encoder returns. `GetVersion` never returns 0. -/
theorem UnitStateProof_MarshalCBOR_frame (c : CborEncoder UnitStateProof) (tag : Nat)
    (p : UnitStateProof) :
    (p.Version = 0 →
      (UnitStateProof.MarshalCBOR c tag (some p)).2 = some { p with Version := 1 }) ∧
    (p.Version ≠ 0 → (UnitStateProof.MarshalCBOR c tag (some p)).2 = some p) ∧
    (∃ p', (UnitStateProof.MarshalCBOR c tag (some p)).2 = some p' ∧
      p'.UnitID = p.UnitID ∧ p'.UnitValue = p.UnitValue ∧
      p'.UnitLedgerHash = p.UnitLedgerHash ∧ p'.UnitTreeCert = p.UnitTreeCert ∧
      p'.StateTreeCert = p.StateTreeCert ∧ p'.UnicityCertificate = p.UnicityCertificate ∧
      p'.Version ≠ 0) ∧
    (∀ u : Option UnitStateProof, UnitStateProof.GetVersion u ≠ 0) := by
  refine ⟨?_, ?_, ?_, ?_⟩
  · intro h0
    simp [UnitStateProof.MarshalCBOR, UnitStateProof.GetVersion, h0]
  · intro h0
    simp [UnitStateProof.MarshalCBOR, h0]
  · by_cases h0 : p.Version = 0
    · exact ⟨{ p with Version := 1 },
        by simp [UnitStateProof.MarshalCBOR, UnitStateProof.GetVersion, h0],
        rfl, rfl, rfl, rfl, rfl, rfl, by simp⟩
    · exact ⟨p, by simp [UnitStateProof.MarshalCBOR, h0], rfl, rfl, rfl, rfl, rfl, rfl, h0⟩
  · intro u
    rcases u with _ | q
    · simp [UnitStateProof.GetVersion]
    · simp only [UnitStateProof.GetVersion]
      split <;> omega

theorem UnitStateProof_MarshalCBOR_frame_witness :
    UnitStateProof.MarshalCBOR toyEncoder 7 (some { sampleProof with Version := 0 }) =
      (.ok (some [7, 1]), some sampleProof) := by
  have h := (UnitStateProof_MarshalCBOR_frame toyEncoder 7
    { sampleProof with Version := 0 }).1 rfl
  exact Prod.ext (by decide) h

/-! ## Repeat input records -/

/-- C21: for every input record `r` behind a pointer `x`, `NewRepeatIR` returns a pointer to
a new record, different from `x`, that is deeply equal to `r` and for which `EqualIR`
answers true; it leaves `r` as it was. It is an independent copy: after `RoundNumber++` on
`r` the repeat record is unchanged, and `EqualIR` of the two answers false. -/
theorem InputRecord_NewRepeatIR_copy (store : List InputRecord) (x : Nat) (r : InputRecord)
    (hx : store[x]? = some r) :
    ∃ y store', InputRecord.NewRepeatIR store x = .ok (y, store') ∧ y ≠ x ∧
      store'[x]? = some r ∧ store'[y]? = some r ∧ EqualIR r r = (true, none) ∧
      (incrementRoundNumber store' x)[x]? =
        some { r with RoundNumber := add64 r.RoundNumber 1 } ∧
      (incrementRoundNumber store' x)[y]? = some r ∧
      EqualIR { r with RoundNumber := add64 r.RoundNumber 1 } r = (false, none) := by
  have hlt : x < store.length := by
    rcases List.getElem?_eq_some.mp hx with ⟨h, -⟩
    exact h
  have hx' : (store ++ [r])[x]? = some r := by
    rw [List.getElem?_append_left hlt]
    exact hx
  have hy' : (store ++ [r])[store.length]? = some r := by simp
  have hne : store.length ≠ x := by omega
  have hround : add64 r.RoundNumber 1 ≠ r.RoundNumber := by
    unfold add64
    omega
  refine ⟨store.length, store ++ [r], ?_, hne, hx', hy', ?_, ?_, ?_, ?_⟩
  · simp [InputRecord.NewRepeatIR, hx]
  · simp [EqualIR, bytesEqual]
  · have hlt' : x < (store ++ [r]).length := by simp; omega
    simp only [incrementRoundNumber, hx']
    rw [List.getElem?_set_self hlt']
  · simp only [incrementRoundNumber, hx']
    rw [List.getElem?_set_ne (Ne.symm hne)]
    exact hy'
  · simp [EqualIR, hround]

theorem InputRecord_NewRepeatIR_copy_witness :
    [testRecord][0]? = some testRecord ∧
    ∃ y store', InputRecord.NewRepeatIR [testRecord] 0 = .ok (y, store') ∧ y ≠ 0 ∧
      store'[0]? = some testRecord ∧ store'[y]? = some testRecord ∧
      EqualIR testRecord testRecord = (true, none) ∧
      (incrementRoundNumber store' 0)[0]? =
        some { testRecord with RoundNumber := add64 testRecord.RoundNumber 1 } ∧
      (incrementRoundNumber store' 0)[y]? = some testRecord ∧
      EqualIR { testRecord with RoundNumber := add64 testRecord.RoundNumber 1 } testRecord =
        (false, none) :=
  ⟨rfl, InputRecord_NewRepeatIR_copy [testRecord] 0 testRecord rfl⟩

/-! ## The unicity tree certificate -/

/-- C22: `UnicityTreeCertificate.IsValid` succeeds exactly when the certificate is present,
its partition identifier equals the expected one and the bytes of its partition-descriptor
hash equal those of the expected hash. An absent certificate yields
`ErrUnicityTreeCertificateIsNil`, another partition identifier the message 'invalid
partition identifier' with the expected and the actual identifier, a hash of other bytes the
message 'invalid system description hash' with the expected and the actual hash. -/
theorem UnicityTreeCertificate_IsValid_iff (x : Option UnicityTreeCertificate)
    (partition : Nat) (pdrHash : Slice) :
    (UnicityTreeCertificate.IsValid x partition pdrHash = none ↔
      ∃ c, x = some c ∧ c.Partition = partition ∧ contents c.PDRHash = contents pdrHash) ∧
    UnicityTreeCertificate.IsValid none partition pdrHash =
      some ErrUnicityTreeCertificateIsNil ∧
    (∀ c, x = some c → c.Partition ≠ partition →
      UnicityTreeCertificate.IsValid x partition pdrHash =
        some ("invalid partition identifier: expected " ++ PartitionID.String partition
          ++ ", got " ++ PartitionID.String c.Partition)) ∧
    (∀ c, x = some c → c.Partition = partition → contents c.PDRHash ≠ contents pdrHash →
      UnicityTreeCertificate.IsValid x partition pdrHash =
        some ("invalid system description hash: expected " ++ hexUpper (contents pdrHash)
          ++ ", got " ++ hexUpper (contents c.PDRHash))) := by
  refine ⟨?_, rfl, ?_, ?_⟩
  · rcases x with _ | c
    · simp [UnicityTreeCertificate.IsValid]
    · by_cases hp : c.Partition = partition
      · by_cases hh : contents c.PDRHash = contents pdrHash
        · simp [UnicityTreeCertificate.IsValid, hp, bytesEqual, hh]
        · have hh' : ¬ contents pdrHash = contents c.PDRHash := fun h => hh h.symm
          simp [UnicityTreeCertificate.IsValid, hp, bytesEqual, hh, hh']
      · simp [UnicityTreeCertificate.IsValid, hp]
  · rintro c rfl hp
    simp [UnicityTreeCertificate.IsValid, hp]
  · rintro c rfl hp hh
    have hh' : ¬ contents pdrHash = contents c.PDRHash := fun h => hh h.symm
    simp [UnicityTreeCertificate.IsValid, hp, bytesEqual, hh', hexBytesUpper]

theorem UnicityTreeCertificate_IsValid_iff_witness :
    UnicityTreeCertificate.IsValid (some testCertificate) 0x01010100 (some [1, 1, 1, 1]) =
      some "invalid partition identifier: expected 01010100, got 01010101" ∧
    UnicityTreeCertificate.IsValid (some testCertificate) 0x01010101 (some [1, 1, 1, 2]) =
      some "invalid system description hash: expected 01010102, got 01010101" ∧
    UnicityTreeCertificate.IsValid (some testCertificate) 0x01010101 (some [1, 1, 1, 1]) =
      none :=
  ⟨((UnicityTreeCertificate_IsValid_iff (some testCertificate) 0x01010100
      (some [1, 1, 1, 1])).2.2.1 testCertificate rfl (by decide)).trans (by decide),
    ((UnicityTreeCertificate_IsValid_iff (some testCertificate) 0x01010101
      (some [1, 1, 1, 2])).2.2.2 testCertificate rfl rfl (by decide)).trans (by decide),
    (UnicityTreeCertificate_IsValid_iff (some testCertificate) 0x01010101
      (some [1, 1, 1, 1])).1.mpr ⟨testCertificate, rfl, rfl, rfl⟩⟩

/-! ## Certificates of the unicity tree -/

/-- C24: for every unicity tree built by `NewUnicityTree` and every partition identifier `k`
that is not the identifier of one of its leaves, `Certificate` returns no certificate and the
error 'certificate for partition <k> not found' with the queried identifier itself in eight
hexadecimal digits. -/
theorem UnicityTree_Certificate_not_found (H : UnicityHasher) (data : List UnicityTreeData)
    (tree : UnicityTree) (k : Nat) (hnew : NewUnicityTree H data = .ok tree)
    (hk : ∀ d ∈ data, d.Partition ≠ k) :
    tree.Certificate H k =
      .error ("certificate for partition " ++ PartitionID.String k ++ " not found") := by
  have hpdhs : tree.pdhs = data.insertionSort (fun a b => a.Partition ≤ b.Partition) := by
    unfold NewUnicityTree at hnew
    simp only at hnew
    split at hnew
    · cases hnew
      rfl
    · cases hnew
  have hfind : tree.pdhs.find? (fun d => d.Partition = k) = none := by
    rw [List.find?_eq_none]
    intro d hd
    rw [hpdhs] at hd
    have hd' : d ∈ data := (List.perm_insertionSort _ data).subset hd
    simpa using hk d hd'
  simp only [UnicityTree.Certificate, hfind]

theorem UnicityTree_Certificate_not_found_witness :
    NewUnicityTree toyUnicityHasher [testLeaf 0x01020301 1] =
      .ok { root := some (.leaf [1, 2, 3, 1] (some [122])),
            pdhs := [testLeaf 0x01020301 1] } ∧
    (∀ d ∈ [testLeaf 0x01020301 1], d.Partition ≠ 0x0102) ∧
    UnicityTree.Certificate toyUnicityHasher
        { root := some (.leaf [1, 2, 3, 1] (some [122])),
          pdhs := [testLeaf 0x01020301 1] } 0x0102 =
      .error "certificate for partition 00000102 not found" :=
  ⟨rfl, by decide,
    UnicityTree_Certificate_not_found toyUnicityHasher [testLeaf 0x01020301 1] _ 0x0102 rfl
      (by decide)⟩

/-! ## The index tree -/

/-- The split point of `n` leaves, for more than one leaf, leaves a leaf on either side. -/
theorem powerBelow_bounds (fuel p n : Nat) (h1 : 1 ≤ p) (hp : p < n) :
    1 ≤ powerBelow fuel p n ∧ powerBelow fuel p n < n := by
  induction fuel generalizing p with
  | zero => exact ⟨h1, hp⟩
  | succ fuel ih =>
    unfold powerBelow
    split
    · exact ih (2 * p) (by omega) (by assumption)
    · exact ⟨h1, hp⟩

/-- The tree built over leaves has exactly these leaves, from left to right. -/
theorem buildIndexTree_leaves (fuel : Nat) (first : Bytes × Slice) (rest : List (Bytes × Slice))
    (h : rest.length ≤ fuel) : (buildIndexTree fuel first rest).leaves = first :: rest := by
  induction fuel generalizing first rest with
  | zero =>
    have hnil : rest = [] := List.length_eq_zero.mp (by omega)
    subst hnil
    simp [buildIndexTree, IndexTree.leaves]
  | succ fuel ih =>
    cases rest with
    | nil => simp [buildIndexTree, IndexTree.leaves]
    | cons second others =>
      have hb := powerBelow_bounds (others.length + 2) 1 (others.length + 2) (le_refl 1)
        (by omega)
      simp only [List.length_cons] at h
      simp only [buildIndexTree]
      split
      · rename_i hdrop
        have := List.drop_eq_nil_iff.mp hdrop
        simp only [List.length_cons] at this
        omega
      · rename_i r rs hdrop
        have hlen : ((second :: others).drop
            (powerBelow (others.length + 2) 1 (others.length + 2) - 1)).length =
            rs.length + 1 := by rw [hdrop]; rfl
        simp only [List.length_drop, List.length_cons] at hlen
        have hl := ih first ((second :: others).take
          (powerBelow (others.length + 2) 1 (others.length + 2) - 1))
          (by simp only [List.length_take, List.length_cons]; omega)
        have hr := ih r rs (by omega)
        simp only [IndexTree.leaves, hl, hr, ← hdrop, List.cons_append,
          List.take_append_drop]

/-- The key of the rightmost leaf is the key of the last of the leaves. -/
theorem IndexTree.leaves_lastKey (t : IndexTree) :
    ∃ pre d, t.leaves = pre ++ [(t.lastKey, d)] := by
  induction t with
  | leaf k d => exact ⟨[], d, rfl⟩
  | node l r _ ihr =>
    rcases ihr with ⟨pre, d, h⟩
    exact ⟨l.leaves ++ pre, d, by simp [IndexTree.leaves, IndexTree.lastKey, h]⟩

/-- The fold of the path of any key of a tree, from its first item, is the hash of the
tree. -/
theorem IndexTree.path_fold (H : UnicityHasher) (key : Bytes) (t : IndexTree) :
    ∃ first rest, t.path H key = first :: rest ∧
      rest.foldl (fun h item =>
        if bytesCompare key (contents item.Key) = 1 then
          H.node (contents item.Key) item.Hash h
        else
          H.node (contents item.Key) h item.Hash) (H.leaf (contents first.Key) first.Hash)
        = t.hash H := by
  induction t with
  | leaf k d => exact ⟨{ Key := some k, Hash := d }, [], rfl, rfl⟩
  | node l r ihl ihr =>
    by_cases hc : bytesCompare key l.lastKey = 1
    · rcases ihr with ⟨first, rest, hp, hf⟩
      refine ⟨first, rest ++ [{ Key := some l.lastKey, Hash := l.hash H }], ?_, ?_⟩
      · simp [IndexTree.path, hc, hp]
      · rw [List.foldl_append, hf]
        simp [contents, hc, IndexTree.hash]
    · rcases ihl with ⟨first, rest, hp, hf⟩
      refine ⟨first, rest ++ [{ Key := some l.lastKey, Hash := r.hash H }], ?_, ?_⟩
      · simp [IndexTree.path, hc, hp]
      · rw [List.foldl_append, hf]
        simp [contents, hc, IndexTree.hash]

/-- In a tree whose leaves are strictly ascending by key, the path of the key of a leaf
starts at that leaf. -/
theorem IndexTree.path_head (H : UnicityHasher) (t : IndexTree) (k : Bytes) (d : Slice)
    (hsorted : t.leaves.Pairwise (fun a b => bytesCompare a.1 b.1 = -1))
    (hmem : (k, d) ∈ t.leaves) :
    (t.path H k).head? = some { Key := some k, Hash := d } := by
  induction t with
  | leaf k0 d0 =>
    simp only [IndexTree.leaves, List.mem_singleton, Prod.mk.injEq] at hmem
    rcases hmem with ⟨rfl, rfl⟩
    rfl
  | node l r ihl ihr =>
    simp only [IndexTree.leaves, List.pairwise_append] at hsorted
    rcases hsorted with ⟨hl, hr, hlr⟩
    rcases l.leaves_lastKey with ⟨pre, dl, hlast⟩
    simp only [IndexTree.leaves, List.mem_append] at hmem
    rcases hmem with hm | hm
    · have hc : bytesCompare k l.lastKey ≠ 1 := by
        rw [hlast] at hm hl
        rcases List.mem_append.mp hm with hpre | heq
        · have := (List.pairwise_append.mp hl).2.2 (k, d) hpre (l.lastKey, dl)
            (List.mem_singleton.mpr rfl)
          simp only at this
          omega
        · simp only [List.mem_singleton, Prod.mk.injEq] at heq
          rw [heq.1, bytesCompare_self]
          decide
      simp [IndexTree.path, hc, ihl hl hm]
    · have hc : bytesCompare k l.lastKey = 1 := by
        have hin : (l.lastKey, dl) ∈ l.leaves := by rw [hlast]; simp
        have := hlr (l.lastKey, dl) hin (k, d) hm
        simp only at this
        rw [bytesCompare_eq_one_iff]
        exact (bytesCompare_eq_neg_one_iff _ _).mp this
      simp [IndexTree.path, hc, ihr hr hm]

/-- The four bytes of partition identifiers of 32 bits are ordered as the identifiers
are. -/
theorem PartitionID_Bytes_lt (a b : Nat) (hab : a < b) (hb : b < 2 ^ 32) :
    bytesCompare (PartitionID.Bytes a) (PartitionID.Bytes b) = -1 := by
  simp only [PartitionID.Bytes, bytesCompare, byteOf, Fin.lt_def]
  split_ifs <;> omega

/-- Keys that are pairwise ascending pass the check of the index tree. -/
theorem strictlyAscending_of_pairwise (l : List Bytes)
    (h : l.Pairwise (fun a b => bytesCompare a b = -1)) : strictlyAscending l = true := by
  induction l with
  | nil => rfl
  | cons a l ih =>
    cases l with
    | nil => rfl
    | cons b rest =>
      rw [List.pairwise_cons] at h
      simp [strictlyAscending, h.1 b (List.mem_cons_self _ _), ih h.2]

/-- The leaves of unique partition identifiers, sorted, are strictly ascending. -/
theorem insertionSort_partition_pairwise (data : List UnicityTreeData)
    (hunique : (data.map (·.Partition)).Nodup) :
    (data.insertionSort (fun a b => a.Partition ≤ b.Partition)).Pairwise
      (fun a b => a.Partition < b.Partition) := by
  haveI : IsTotal UnicityTreeData (fun a b => a.Partition ≤ b.Partition) :=
    ⟨fun a b => Nat.le_total _ _⟩
  haveI : IsTrans UnicityTreeData (fun a b => a.Partition ≤ b.Partition) :=
    ⟨fun _ _ _ h1 h2 => Nat.le_trans h1 h2⟩
  have hs : (data.insertionSort (fun a b => a.Partition ≤ b.Partition)).Pairwise
      (fun a b => a.Partition ≤ b.Partition) :=
    List.sorted_insertionSort (fun a b : UnicityTreeData => a.Partition ≤ b.Partition) data
  have hn : ((data.insertionSort (fun a b => a.Partition ≤ b.Partition)).map
      (·.Partition)).Nodup :=
    ((List.perm_insertionSort _ data).map _).nodup_iff.mpr hunique
  have hn' := List.pairwise_map.mp hn
  exact (hs.and hn').imp (fun h => lt_of_le_of_ne h.1 h.2)

/-! ## Certificates of the leaves of the unicity tree -/

/-- C23: for leaves with unique partition identifiers of 32 bits, given in any order,
`NewUnicityTree` returns a tree, and for every leaf `d` among them `Certificate` of its
partition identifier returns a certificate that names that partition and holds the
partition-descriptor hash of `d`; the fold by `IndexTreeOutput` of the leaf's own step, its
key and the hash of its data, followed by the hash steps of the certificate is the root
hash of the tree. -/
theorem UnicityTree_Certificate_reproduces_root (H : UnicityHasher)
    (data : List UnicityTreeData) (hunique : (data.map (·.Partition)).Nodup)
    (hwidth : ∀ d ∈ data, d.Partition < 2 ^ 32) (d : UnicityTreeData) (hd : d ∈ data) :
    ∃ tree cert, NewUnicityTree H data = .ok tree ∧
      tree.Certificate H d.Partition = .ok cert ∧ cert.Partition = d.Partition ∧
      cert.PDRHash = d.PDRHash ∧
      IndexTreeOutput H
        ({ Key := some (PartitionID.Bytes d.Partition), Hash := H.leafData d } ::
          cert.HashSteps) (PartitionID.Bytes d.Partition) = .ok (tree.RootHash H) := by
  -- the sorted leaves
  have hperm := List.perm_insertionSort (fun a b : UnicityTreeData => a.Partition ≤ b.Partition)
    data
  have hlt := insertionSort_partition_pairwise data hunique
  generalize hs : data.insertionSort (fun a b => a.Partition ≤ b.Partition) = sorted
    at hperm hlt
  have hds : d ∈ sorted := hperm.symm.subset hd
  have hwidth' : ∀ x ∈ sorted, x.Partition < 2 ^ 32 := fun x hx => hwidth x (hperm.subset hx)
  have hkeys : (sorted.map fun x => (PartitionID.Bytes x.Partition, H.leafData x)).Pairwise
      (fun a b => bytesCompare a.1 b.1 = -1) := by
    rw [List.pairwise_map]
    exact hlt.imp_of_mem (fun {a b} _ hb hab => PartitionID_Bytes_lt _ _ hab (hwidth' b hb))
  have hasc : strictlyAscending
      ((sorted.map fun x => (PartitionID.Bytes x.Partition, H.leafData x)).map Prod.fst) =
      true := by
    apply strictlyAscending_of_pairwise
    rw [List.pairwise_map]
    exact hkeys
  -- the leaf that is found
  have hfind : sorted.find? (fun x => x.Partition = d.Partition) = some d := by
    cases hf : sorted.find? (fun x => x.Partition = d.Partition) with
    | none =>
      have := List.find?_eq_none.mp hf d hds
      simp at this
    | some d' =>
      have hmem : d' ∈ sorted := List.mem_of_find?_eq_some hf
      have hp : d'.Partition = d.Partition := by
        simpa using List.find?_some hf
      rw [List.inj_on_of_nodup_map hunique (hperm.subset hmem) hd hp]
  -- the tree over the leaves
  have hmemleaf : (PartitionID.Bytes d.Partition, H.leafData d) ∈
      sorted.map fun x => (PartitionID.Bytes x.Partition, H.leafData x) :=
    List.mem_map.mpr ⟨d, hds, rfl⟩
  cases hl : (sorted.map fun x => (PartitionID.Bytes x.Partition, H.leafData x)) with
  | nil => rw [hl] at hmemleaf; cases hmemleaf
  | cons first rest =>
    have hleaves := buildIndexTree_leaves rest.length first rest (le_refl _)
    rw [hl] at hkeys hmemleaf hasc
    have hhead := IndexTree.path_head H (buildIndexTree rest.length first rest)
      (PartitionID.Bytes d.Partition) (H.leafData d) (by rw [hleaves]; exact hkeys)
      (by rw [hleaves]; exact hmemleaf)
    rcases IndexTree.path_fold H (PartitionID.Bytes d.Partition)
      (buildIndexTree rest.length first rest) with ⟨f, tl, hpath, hfold⟩
    rw [hpath] at hhead
    simp only [List.head?_cons, Option.some.injEq] at hhead
    subst hhead
    refine ⟨{ root := some (buildIndexTree rest.length first rest), pdhs := sorted },
      { Version := 1, Partition := d.Partition, HashSteps := tl, PDRHash := d.PDRHash },
      ?_, ?_, rfl, rfl, ?_⟩
    · simp only [NewUnicityTree, hs, hl, hasc, if_true]
    · simp only [UnicityTree.Certificate, hfind, hpath, List.tail_cons]
    · simp only [IndexTreeOutput, UnicityTree.RootHash]
      exact congrArg Except.ok hfold

theorem UnicityTree_Certificate_reproduces_root_witness :
    NewUnicityTree toyUnicityHasher [testLeaf 2 1, testLeaf 1 2, testLeaf 3 3] =
      .ok { root := some (.node
              (.node (.leaf [0, 0, 0, 1] (some [142])) (.leaf [0, 0, 0, 2] (some [123])))
              (.leaf [0, 0, 0, 3] (some [164]))),
            pdhs := [testLeaf 1 2, testLeaf 2 1, testLeaf 3 3] } ∧
    IndexTreeOutput toyUnicityHasher
      [{ Key := some [0, 0, 0, 1], Hash := some [142] },
       { Key := some [0, 0, 0, 1], Hash := some [180] },
       { Key := some [0, 0, 0, 2], Hash := some [32] }] [0, 0, 0, 1] = .ok (some [29]) ∧
    ∃ tree cert,
      NewUnicityTree toyUnicityHasher [testLeaf 2 1, testLeaf 1 2, testLeaf 3 3] = .ok tree ∧
      tree.Certificate toyUnicityHasher (testLeaf 1 2).Partition = .ok cert ∧
      cert.Partition = (testLeaf 1 2).Partition ∧ cert.PDRHash = (testLeaf 1 2).PDRHash ∧
      IndexTreeOutput toyUnicityHasher
        ({ Key := some (PartitionID.Bytes (testLeaf 1 2).Partition),
           Hash := toyUnicityHasher.leafData (testLeaf 1 2) } :: cert.HashSteps)
        (PartitionID.Bytes (testLeaf 1 2).Partition) = .ok (tree.RootHash toyUnicityHasher) :=
  ⟨rfl, rfl,
    UnicityTree_Certificate_reproduces_root toyUnicityHasher
      [testLeaf 2 1, testLeaf 1 2, testLeaf 3 3] (by decide) (by decide) (testLeaf 1 2)
      (by decide)⟩

/-! ## The hash of a step of the state-tree path -/

/-- After a run over the items before a step has returned a hash and a value, the hasher
calls of the run over the whole path are those of the run before the step, then those of
the step and of the rest of the loop. -/
theorem CalculateStateTreeOutput_step_hashEvents (u : UnitStateProof)
    (algorithm : HashAlgorithm) (pre post : List (Option StateTreePathItem))
    (p : StateTreePathItem) (h : Slice) (v : Nat)
    (hpre : (CalculateStateTreeOutput (withStatePath u pre) algorithm).out = .ok (h, v)) :
    hashEvents (CalculateStateTreeOutput (withStatePath u (pre ++ some p :: post))
        algorithm).log =
      hashEvents (CalculateStateTreeOutput (withStatePath u pre) algorithm).log ++
        hashEvents ((pathStepHash algorithm u.UnitID p h v).andThen fun parent =>
          stateTreeLoop algorithm u.UnitID post parent
            (add64 (add64 p.Value v) p.SiblingSummaryValue)).log ∧
    (CalculateStateTreeOutput (withStatePath u (pre ++ some p :: post)) algorithm).out =
      ((pathStepHash algorithm u.UnitID p h v).andThen fun parent =>
        stateTreeLoop algorithm u.UnitID post parent
          (add64 (add64 p.Value v) p.SiblingSummaryValue)).out := by
  rw [CalculateStateTreeOutput_step]
  constructor
  · rw [Run.andThen_log, hpre, hashEvents_append]
  · rw [Run.andThen_of_ok _ _ (h, v) hpre]

/-- The hasher calls and the result of a step whose hash is one call of `computeHash`, and
of the rest of the loop after it. -/
theorem computeHash_andThen_loop (algorithm : HashAlgorithm) (id pid logs : Slice)
    (nv : Nat) (leftHash : Slice) (leftSummary : Nat) (rightHash : Slice)
    (rightSummary : Nat) (post : List (Option StateTreePathItem)) :
    hashEvents ((computeHash algorithm pid logs nv leftHash leftSummary rightHash
        rightSummary).andThen fun parent => stateTreeLoop algorithm id post parent nv).log =
      [.bytes pid, .bytes logs, .uint nv, .bytes leftHash, .uint leftSummary,
        .bytes rightHash, .uint rightSummary] ::
      (match algorithm.sum [.bytes pid, .bytes logs, .uint nv, .bytes leftHash,
          .uint leftSummary, .bytes rightHash, .uint rightSummary] with
       | .ok parent => hashEvents (stateTreeLoop algorithm id post parent nv).log
       | .error _ => []) ∧
    ((computeHash algorithm pid logs nv leftHash leftSummary rightHash
        rightSummary).andThen fun parent => stateTreeLoop algorithm id post parent nv).out =
      (match algorithm.sum [.bytes pid, .bytes logs, .uint nv, .bytes leftHash,
          .uint leftSummary, .bytes rightHash, .uint rightSummary] with
       | .ok parent => (stateTreeLoop algorithm id post parent nv).out
       | .error e => .error e) := by
  constructor
  · rw [Run.andThen_log, hashEvents_append, computeHash_log, computeHash_out]
    cases algorithm.sum _ <;> simp [hashEvents]
  · rcases hs : algorithm.sum [.bytes pid, .bytes logs, .uint nv, .bytes leftHash,
        .uint leftSummary, .bytes rightHash, .uint rightSummary] with e | parent
    · rw [Run.andThen_of_error _ _ e (by rw [computeHash_out, hs])]
    · rw [Run.andThen_of_ok _ _ parent (by rw [computeHash_out, hs])]

/-- The step of an item whose unit id is above that of the proof: the hash and value
reached so far are written into the left slot. -/
theorem CalculateStateTreeOutput_step_left (u : UnitStateProof) (algorithm : HashAlgorithm)
    (pre post : List (Option StateTreePathItem)) (p : StateTreePathItem) (h : Slice) (v : Nat)
    (hpre : (CalculateStateTreeOutput (withStatePath u pre) algorithm).out = .ok (h, v))
    (hc : UnitIDCompare u.UnitID p.UnitID = -1) :
    hashEvents (CalculateStateTreeOutput (withStatePath u (pre ++ some p :: post))
        algorithm).log =
      hashEvents (CalculateStateTreeOutput (withStatePath u pre) algorithm).log ++
        [.bytes p.UnitID, .bytes p.LogsHash,
          .uint ((p.Value + v + p.SiblingSummaryValue) % 2 ^ 64), .bytes h, .uint v,
          .bytes p.SiblingSummaryHash, .uint p.SiblingSummaryValue] ::
        (match algorithm.sum [.bytes p.UnitID, .bytes p.LogsHash,
            .uint ((p.Value + v + p.SiblingSummaryValue) % 2 ^ 64), .bytes h, .uint v,
            .bytes p.SiblingSummaryHash, .uint p.SiblingSummaryValue] with
         | .ok parent => hashEvents (stateTreeLoop algorithm u.UnitID post parent
            ((p.Value + v + p.SiblingSummaryValue) % 2 ^ 64)).log
         | .error _ => []) ∧
    (CalculateStateTreeOutput (withStatePath u (pre ++ some p :: post)) algorithm).out =
      (match algorithm.sum [.bytes p.UnitID, .bytes p.LogsHash,
          .uint ((p.Value + v + p.SiblingSummaryValue) % 2 ^ 64), .bytes h, .uint v,
          .bytes p.SiblingSummaryHash, .uint p.SiblingSummaryValue] with
       | .ok parent => (stateTreeLoop algorithm u.UnitID post parent
          ((p.Value + v + p.SiblingSummaryValue) % 2 ^ 64)).out
       | .error e => .error e) := by
  have hstep := CalculateStateTreeOutput_step_hashEvents u algorithm pre post p h v hpre
  have hcall := computeHash_andThen_loop algorithm u.UnitID p.UnitID p.LogsHash
    ((p.Value + v + p.SiblingSummaryValue) % 2 ^ 64) h v p.SiblingSummaryHash
    p.SiblingSummaryValue post
  simp only [pathStepHash, hc, if_true, add64_add64] at hstep
  exact ⟨hstep.1.trans (congrArg _ hcall.1), hstep.2.trans hcall.2⟩

/-- The step of an item whose unit id is not above that of the proof: the hash and value
reached so far are written into the right slot. -/
theorem CalculateStateTreeOutput_step_right (u : UnitStateProof) (algorithm : HashAlgorithm)
    (pre post : List (Option StateTreePathItem)) (p : StateTreePathItem) (h : Slice) (v : Nat)
    (hpre : (CalculateStateTreeOutput (withStatePath u pre) algorithm).out = .ok (h, v))
    (hc : UnitIDCompare u.UnitID p.UnitID ≠ -1) :
    hashEvents (CalculateStateTreeOutput (withStatePath u (pre ++ some p :: post))
        algorithm).log =
      hashEvents (CalculateStateTreeOutput (withStatePath u pre) algorithm).log ++
        [.bytes p.UnitID, .bytes p.LogsHash,
          .uint ((p.Value + v + p.SiblingSummaryValue) % 2 ^ 64),
          .bytes p.SiblingSummaryHash, .uint p.SiblingSummaryValue, .bytes h, .uint v] ::
        (match algorithm.sum [.bytes p.UnitID, .bytes p.LogsHash,
            .uint ((p.Value + v + p.SiblingSummaryValue) % 2 ^ 64),
            .bytes p.SiblingSummaryHash, .uint p.SiblingSummaryValue, .bytes h, .uint v] with
         | .ok parent => hashEvents (stateTreeLoop algorithm u.UnitID post parent
            ((p.Value + v + p.SiblingSummaryValue) % 2 ^ 64)).log
         | .error _ => []) ∧
    (CalculateStateTreeOutput (withStatePath u (pre ++ some p :: post)) algorithm).out =
      (match algorithm.sum [.bytes p.UnitID, .bytes p.LogsHash,
          .uint ((p.Value + v + p.SiblingSummaryValue) % 2 ^ 64),
          .bytes p.SiblingSummaryHash, .uint p.SiblingSummaryValue, .bytes h, .uint v] with
       | .ok parent => (stateTreeLoop algorithm u.UnitID post parent
          ((p.Value + v + p.SiblingSummaryValue) % 2 ^ 64)).out
       | .error e => .error e) := by
  have hstep := CalculateStateTreeOutput_step_hashEvents u algorithm pre post p h v hpre
  have hcall := computeHash_andThen_loop algorithm u.UnitID p.UnitID p.LogsHash
    ((p.Value + v + p.SiblingSummaryValue) % 2 ^ 64) p.SiblingSummaryHash
    p.SiblingSummaryValue h v post
  simp only [pathStepHash, if_neg hc, add64_add64] at hstep
  exact ⟨hstep.1.trans (congrArg _ hcall.1), hstep.2.trans hcall.2⟩

/-- C5: at a step of the state-tree path, reached with the hash `h` and the running value
`v`, the run calls the hasher once on the path item's unit id and logs hash, the new
running value, and the two slots; the digest is the parent hash, which the rest of the
loop goes on from and which the run returns with the new value after the last step. When
the proof's unit id is less than the path item's unit id, `h` and `v` fill the left slot
and the item's sibling summary hash and value the right slot; when it is greater, the
sibling summary fills the left slot and `h` and `v` the right slot. -/
theorem CalculateStateTreeOutput_path_step (u : UnitStateProof) (algorithm : HashAlgorithm)
    (pre post : List (Option StateTreePathItem)) (p : StateTreePathItem) (h : Slice) (v : Nat)
    (hpre : (CalculateStateTreeOutput (withStatePath u pre) algorithm).out = .ok (h, v)) :
    (List.Lex (· < ·) (contents u.UnitID) (contents p.UnitID) →
      hashEvents (CalculateStateTreeOutput (withStatePath u (pre ++ some p :: post))
          algorithm).log =
        hashEvents (CalculateStateTreeOutput (withStatePath u pre) algorithm).log ++
          [.bytes p.UnitID, .bytes p.LogsHash,
            .uint ((p.Value + v + p.SiblingSummaryValue) % 2 ^ 64), .bytes h, .uint v,
            .bytes p.SiblingSummaryHash, .uint p.SiblingSummaryValue] ::
          (match algorithm.sum [.bytes p.UnitID, .bytes p.LogsHash,
              .uint ((p.Value + v + p.SiblingSummaryValue) % 2 ^ 64), .bytes h, .uint v,
              .bytes p.SiblingSummaryHash, .uint p.SiblingSummaryValue] with
           | .ok parent => hashEvents (stateTreeLoop algorithm u.UnitID post parent
              ((p.Value + v + p.SiblingSummaryValue) % 2 ^ 64)).log
           | .error _ => []) ∧
      (CalculateStateTreeOutput (withStatePath u (pre ++ some p :: post)) algorithm).out =
        (match algorithm.sum [.bytes p.UnitID, .bytes p.LogsHash,
            .uint ((p.Value + v + p.SiblingSummaryValue) % 2 ^ 64), .bytes h, .uint v,
            .bytes p.SiblingSummaryHash, .uint p.SiblingSummaryValue] with
         | .ok parent => (stateTreeLoop algorithm u.UnitID post parent
            ((p.Value + v + p.SiblingSummaryValue) % 2 ^ 64)).out
         | .error e => .error e)) ∧
    (List.Lex (· < ·) (contents p.UnitID) (contents u.UnitID) →
      hashEvents (CalculateStateTreeOutput (withStatePath u (pre ++ some p :: post))
          algorithm).log =
        hashEvents (CalculateStateTreeOutput (withStatePath u pre) algorithm).log ++
          [.bytes p.UnitID, .bytes p.LogsHash,
            .uint ((p.Value + v + p.SiblingSummaryValue) % 2 ^ 64),
            .bytes p.SiblingSummaryHash, .uint p.SiblingSummaryValue, .bytes h, .uint v] ::
          (match algorithm.sum [.bytes p.UnitID, .bytes p.LogsHash,
              .uint ((p.Value + v + p.SiblingSummaryValue) % 2 ^ 64),
              .bytes p.SiblingSummaryHash, .uint p.SiblingSummaryValue, .bytes h,
              .uint v] with
           | .ok parent => hashEvents (stateTreeLoop algorithm u.UnitID post parent
              ((p.Value + v + p.SiblingSummaryValue) % 2 ^ 64)).log
           | .error _ => []) ∧
      (CalculateStateTreeOutput (withStatePath u (pre ++ some p :: post)) algorithm).out =
        (match algorithm.sum [.bytes p.UnitID, .bytes p.LogsHash,
            .uint ((p.Value + v + p.SiblingSummaryValue) % 2 ^ 64),
            .bytes p.SiblingSummaryHash, .uint p.SiblingSummaryValue, .bytes h,
            .uint v] with
         | .ok parent => (stateTreeLoop algorithm u.UnitID post parent
            ((p.Value + v + p.SiblingSummaryValue) % 2 ^ 64)).out
         | .error e => .error e)) := by
  constructor
  · intro hlt
    exact CalculateStateTreeOutput_step_left u algorithm pre post p h v hpre
      ((bytesCompare_eq_neg_one_iff _ _).2 hlt)
  · intro hgt
    have hc : UnitIDCompare u.UnitID p.UnitID = 1 := (bytesCompare_eq_one_iff _ _).2 hgt
    exact CalculateStateTreeOutput_step_right u algorithm pre post p h v hpre
      (by rw [hc]; decide)

/-- The step of the sample proof, unit id 3 below the item's 9: the hash 58 and the value
5 reached before the step are on the left. The step of the root proof at an item of unit
id 5 below its own 9: the hash 7 and the value 12 reached before the step are on the
right, after the sibling summary. -/
theorem CalculateStateTreeOutput_path_step_witness :
    (CalculateStateTreeOutput (withStatePath sampleProof []) toyAlgorithm).out =
      .ok (some [58], 5) ∧
    hashEvents (CalculateStateTreeOutput
      (withStatePath sampleProof ([] ++ some samplePathItem :: [])) toyAlgorithm).log =
      [[.bytes (some [3]), .bytes (some [119]), .uint 5, .bytes none, .uint 0, .bytes none,
          .uint 0],
        [.bytes (some [9]), .bytes (some [4]), .uint 12, .bytes (some [58]), .uint 5,
          .bytes none, .uint 0]] ∧
    (CalculateStateTreeOutput
      (withStatePath sampleProof ([] ++ some samplePathItem :: [])) toyAlgorithm).out =
      .ok (some [40], 12) ∧
    (CalculateStateTreeOutput (withStatePath sampleRootProof []) toyAlgorithm).out =
      .ok (some [7], 12) ∧
    hashEvents (CalculateStateTreeOutput
      (withStatePath sampleRootProof ([] ++ some lowerPathItem :: [])) toyAlgorithm).log =
      [[.bytes (some [9]), .bytes (some [249]), .uint 12, .bytes (some [58]), .uint 5,
          .bytes none, .uint 0],
        [.bytes (some [5]), .bytes (some [6]), .uint 15, .bytes (some [7]), .uint 2,
          .bytes (some [7]), .uint 12]] ∧
    (CalculateStateTreeOutput
      (withStatePath sampleRootProof ([] ++ some lowerPathItem :: [])) toyAlgorithm).out =
      .ok (some [189], 15) := by
  have hl := (CalculateStateTreeOutput_path_step sampleProof toyAlgorithm [] []
    samplePathItem (some [58]) 5 (by decide)).1 (List.Lex.rel (by decide))
  have hr := (CalculateStateTreeOutput_path_step sampleRootProof toyAlgorithm [] []
    lowerPathItem (some [7]) 12 (by decide)).2 (List.Lex.rel (by decide))
  exact ⟨by decide, hl.1.trans (by decide), hl.2.trans (by decide), by decide,
    hr.1.trans (by decide), hr.2.trans (by decide)⟩

/-- C25: at a step of the state-tree path whose item has the unit id of the proof,
reached with the hash `h` and the running value `v`, the run calls the hasher with the
item's sibling summary hash and value in the left slot and `h` and `v` in the right slot,
and goes on from the digest; so does every step whose item's unit id is not strictly
greater than that of the proof: only a proof unit id strictly smaller than the item's
selects the left slot for the current hash. -/
theorem CalculateStateTreeOutput_tie_break (u : UnitStateProof) (algorithm : HashAlgorithm)
    (pre post : List (Option StateTreePathItem)) (p : StateTreePathItem) (h : Slice) (v : Nat)
    (hpre : (CalculateStateTreeOutput (withStatePath u pre) algorithm).out = .ok (h, v)) :
    (contents p.UnitID = contents u.UnitID ∨
        ¬ List.Lex (· < ·) (contents u.UnitID) (contents p.UnitID)) →
      hashEvents (CalculateStateTreeOutput (withStatePath u (pre ++ some p :: post))
          algorithm).log =
        hashEvents (CalculateStateTreeOutput (withStatePath u pre) algorithm).log ++
          [.bytes p.UnitID, .bytes p.LogsHash,
            .uint ((p.Value + v + p.SiblingSummaryValue) % 2 ^ 64),
            .bytes p.SiblingSummaryHash, .uint p.SiblingSummaryValue, .bytes h, .uint v] ::
          (match algorithm.sum [.bytes p.UnitID, .bytes p.LogsHash,
              .uint ((p.Value + v + p.SiblingSummaryValue) % 2 ^ 64),
              .bytes p.SiblingSummaryHash, .uint p.SiblingSummaryValue, .bytes h,
              .uint v] with
           | .ok parent => hashEvents (stateTreeLoop algorithm u.UnitID post parent
              ((p.Value + v + p.SiblingSummaryValue) % 2 ^ 64)).log
           | .error _ => []) ∧
      (CalculateStateTreeOutput (withStatePath u (pre ++ some p :: post)) algorithm).out =
        (match algorithm.sum [.bytes p.UnitID, .bytes p.LogsHash,
            .uint ((p.Value + v + p.SiblingSummaryValue) % 2 ^ 64),
            .bytes p.SiblingSummaryHash, .uint p.SiblingSummaryValue, .bytes h,
            .uint v] with
         | .ok parent => (stateTreeLoop algorithm u.UnitID post parent
            ((p.Value + v + p.SiblingSummaryValue) % 2 ^ 64)).out
         | .error e => .error e) := by
  intro hid
  apply CalculateStateTreeOutput_step_right u algorithm pre post p h v hpre
  rcases hid with he | hl
  · simp [UnitIDCompare, he, bytesCompare_self]
  · intro hc
    exact hl ((bytesCompare_eq_neg_one_iff _ _).1 hc)

/-- The step of the root proof at an item of its own unit id 9: the item's sibling summary,
no hash and the value 0, is on the left, the hash 7 and the value 12 reached before the
step are on the right. -/
theorem CalculateStateTreeOutput_tie_break_witness :
    (CalculateStateTreeOutput (withStatePath sampleRootProof []) toyAlgorithm).out =
      .ok (some [7], 12) ∧
    contents samplePathItem.UnitID = contents sampleRootProof.UnitID ∧
    hashEvents (CalculateStateTreeOutput
      (withStatePath sampleRootProof ([] ++ some samplePathItem :: [])) toyAlgorithm).log =
      [[.bytes (some [9]), .bytes (some [249]), .uint 12, .bytes (some [58]), .uint 5,
          .bytes none, .uint 0],
        [.bytes (some [9]), .bytes (some [4]), .uint 19, .bytes none, .uint 0,
          .bytes (some [7]), .uint 12]] ∧
    (CalculateStateTreeOutput
      (withStatePath sampleRootProof ([] ++ some samplePathItem :: [])) toyAlgorithm).out =
      .ok (some [105], 19) := by
  have ht := CalculateStateTreeOutput_tie_break sampleRootProof toyAlgorithm [] []
    samplePathItem (some [7]) 12 (by decide) (Or.inl rfl)
  exact ⟨by decide, rfl, ht.1.trans (by decide), ht.2.trans (by decide)⟩

end UnicityBase
